import Mathlib

set_option maxHeartbeats 1000000

/-! # Verification of the arena-backed BST / red-black tree core

Shallow embedding of `src/bst.rs` and `src/rbt.rs` (an allocation-free
intrusive search tree over a fixed-capacity slot pool).  Raw node pointers
become arena slot indices (`Option Nat`, `none` = null pointer); the payload
type `D` is instantiated at integers (the crate's tests use `i32`/`u32`,
whose `ordering_key` is the identity).  Rust `panic!`/`todo!`/`unwrap`
failures are modelled by an explicit `panicked` result; `stuck` models a
read through an invalid slot index or exhaustion of the step budget of a
loop (neither happens on well-formed trees). -/

/-- Mirror of the crate's `Error` enum (`lib.rs`). -/
inductive Error where
  | OutOfSpace
  | NotFound
  | AlreadyExists
deriving DecidableEq, Repr

/-- Result of running a piece of Rust code: normal return, `panic`, or a
model-level `stuck` (invalid slot read / loop budget exhausted). -/
inductive Ret (α : Type) where
  | ok (a : α)
  | panicked (msg : String)
  | stuck
deriving DecidableEq, Repr

/-- `RED`/`BLACK` color constants of `rbt.rs` (`RED = false`, `BLACK = true`). -/
def RED : Bool := false

/-- See `RED`. -/
def BLACK : Bool := true

/-! ## The red-black tree (`rbt.rs`) -/

/-- `rbt.rs` `Node<D>`: payload, color bit, and three links. -/
structure RbtNode where
  data : Int
  color : Bool
  parent : Option Nat
  left : Option Nat
  right : Option Nat
deriving DecidableEq, Repr

/-- `Node::new`: fresh red node with null links. -/
def RbtNode.new (d : Int) : RbtNode :=
  { data := d, color := RED, parent := none, left := none, right := none }

/-- `rbt.rs` `Storage<'a, D, SIZE>`: slot array of `(occupied, node)` pairs,
the logical length, and the free-index stack.  The stack is kept with its
top first (the Rust `ArrayVec` pops from the back of `[0, 1, …, SIZE-1]`,
so slot `SIZE-1` is handed out first). -/
structure RbtStorage where
  data : List (Bool × RbtNode)
  length : Nat
  free_indices : List Nat
deriving DecidableEq, Repr

/-- `Storage::new` over a zeroed buffer of `size` slots. -/
def RbtStorage.new (size : Nat) : RbtStorage :=
  { data := List.replicate size (false, RbtNode.new 0), length := 0,
    free_indices := (List.range size).reverse }

/-- `Storage::add`: pop a free slot, write the payload, mark occupied. -/
def RbtStorage.add (s : RbtStorage) (d : Int) : Except Error (Nat × RbtStorage) :=
  match s.free_indices with
  | [] => .error .OutOfSpace
  | index :: rest =>
      .ok (index, { data := s.data.set index (true, RbtNode.new d),
                    length := s.length + 1, free_indices := rest })

/-- `Storage::delete` (the pointer has already been turned into an index):
clear the occupied flag, decrement the length, push the index back. -/
def RbtStorage.deleteAt (s : RbtStorage) (index : Nat) : RbtStorage :=
  { data := match s.data[index]? with
            | some sl => s.data.set index (false, sl.2)
            | none => s.data,
    length := s.length - 1,
    free_indices := index :: s.free_indices }

/-- `rbt.rs` `Rbt<'a, D, SIZE>`: storage plus head pointer. -/
structure Rbt where
  storage : RbtStorage
  head : Option Nat
deriving DecidableEq, Repr

/-- `Rbt::new` over a zeroed buffer with `size` slots. -/
def Rbt.new (size : Nat) : Rbt :=
  { storage := RbtStorage.new size, head := none }

/-- Read the node stored in slot `i` (a pointer dereference; the occupied
flag is not consulted, exactly as in the Rust code). -/
def Rbt.node? (s : Rbt) (i : Nat) : Option RbtNode :=
  (s.storage.data[i]?).map Prod.snd

/-- Overwrite the node part of slot `i`, keeping the occupied flag. -/
def Rbt.updateNode (s : Rbt) (i : Nat) (f : RbtNode → RbtNode) : Rbt :=
  { s with storage := { s.storage with data :=
      match s.storage.data[i]? with
      | some sl => s.storage.data.set i (sl.1, f sl.2)
      | none => s.storage.data } }

/-- `Node::set_left`. -/
def Rbt.set_left (s : Rbt) (i : Nat) (p : Option Nat) : Rbt :=
  s.updateNode i fun n => { n with left := p }

/-- `Node::set_right`. -/
def Rbt.set_right (s : Rbt) (i : Nat) (p : Option Nat) : Rbt :=
  s.updateNode i fun n => { n with right := p }

/-- `Node::set_parent`. -/
def Rbt.set_parent (s : Rbt) (i : Nat) (p : Option Nat) : Rbt :=
  s.updateNode i fun n => { n with parent := p }

/-- `Node::set_color`. -/
def Rbt.set_color (s : Rbt) (i : Nat) (c : Bool) : Rbt :=
  s.updateNode i fun n => { n with color := c }

/-- `Rbt::rotate_left`, including both of its possible panics. -/
def Rbt.rotate_left (s : Rbt) (x : Nat) : Ret Rbt :=
  match s.node? x with
  | none => .stuck
  | some xn =>
    match xn.right with
    | none => .panicked "Right Child should always exist when rotating."
    | some y =>
      match s.node? y with
      | none => .stuck
      | some yn =>
        let parent_tmp := xn.parent
        let s1 := s.set_right x yn.left
        let s2 := match yn.left with
                  | some l => s1.set_parent l (some x)
                  | none => s1
        let s3 := (s2.set_left y (some x)).set_parent x (some y)
        match parent_tmp with
        | some p =>
          match s3.node? p with
          | none => .stuck
          | some pn =>
            if pn.left = some x then
              .ok ((s3.set_left p (some y)).set_parent y (some p))
            else if pn.right = some x then
              .ok ((s3.set_right p (some y)).set_parent y (some p))
            else .panicked "Node is not a child of it's parents"
        | none =>
          .ok ({ s3 with head := some y }.set_parent y none)

/-- `Rbt::rotate_right` (mirror image; the missing-child failure here is an
`unwrap`, not an `expect`). -/
def Rbt.rotate_right (s : Rbt) (x : Nat) : Ret Rbt :=
  match s.node? x with
  | none => .stuck
  | some xn =>
    match xn.left with
    | none => .panicked "called Option::unwrap on a None value"
    | some y =>
      match s.node? y with
      | none => .stuck
      | some yn =>
        let parent_tmp := xn.parent
        let s1 := s.set_left x yn.right
        let s2 := match yn.right with
                  | some r => s1.set_parent r (some x)
                  | none => s1
        let s3 := (s2.set_right y (some x)).set_parent x (some y)
        match parent_tmp with
        | some p =>
          match s3.node? p with
          | none => .stuck
          | some pn =>
            if pn.left = some x then
              .ok ((s3.set_left p (some y)).set_parent y (some p))
            else if pn.right = some x then
              .ok ((s3.set_right p (some y)).set_parent y (some p))
            else .panicked "Node is not a child of it's parents"
        | none =>
          .ok ({ s3 with head := some y }.set_parent y none)

/-- `Node::sibling`. -/
def Rbt.sibling (s : Rbt) (i : Nat) : Ret (Option Nat) :=
  match s.node? i with
  | none => .stuck
  | some nd =>
    match nd.parent with
    | none => .ok none
    | some p =>
      match s.node? p with
      | none => .stuck
      | some pn =>
        if pn.left = some i then .ok pn.right
        else if pn.right = some i then .ok pn.left
        else .panicked "Node is not a child of its parent."

/-- Cases 4/5 of `Rbt::fixup_insert` (red parent, black or absent uncle):
an optional inner rotation at the parent followed by the rotation at the
grandparent and the recoloring. -/
def Rbt.fixup_ins_rotate (s : Rbt) (x p g : Nat) : Ret Rbt :=
  match s.node? g with
  | none => .stuck
  | some gn =>
    if gn.left = some p then
      match s.node? p with
      | none => .stuck
      | some pn =>
        let inner := pn.right = some x
        match (if inner then Rbt.rotate_left s p else .ok s) with
        | .panicked m => .panicked m
        | .stuck => .stuck
        | .ok s1 =>
          let par := if inner then x else p
          match Rbt.rotate_right s1 g with
          | .panicked m => .panicked m
          | .stuck => .stuck
          | .ok s2 => .ok ((s2.set_color par BLACK).set_color g RED)
    else if gn.right = some p then
      match s.node? p with
      | none => .stuck
      | some pn =>
        let inner := pn.left = some x
        match (if inner then Rbt.rotate_right s p else .ok s) with
        | .panicked m => .panicked m
        | .stuck => .stuck
        | .ok s1 =>
          let par := if inner then x else p
          match Rbt.rotate_left s1 g with
          | .panicked m => .panicked m
          | .stuck => .stuck
          | .ok s2 => .ok ((s2.set_color par BLACK).set_color g RED)
    else .panicked "Parent is not a child of grandparent"

/-- `Rbt::fixup_insert` (recursive; the `fuel` argument bounds the recursion
depth of the model and is irrelevant on well-formed trees). -/
def Rbt.fixup_insert : Nat → Rbt → Nat → Ret Rbt
  | 0, _, _ => .stuck
  | fuel + 1, s, x =>
    match s.node? x with
    | none => .stuck
    | some xn =>
      match xn.parent with
      | none => .ok (s.set_color x BLACK)
      | some p =>
        match s.node? p with
        | none => .stuck
        | some pn =>
          if pn.color = BLACK then .ok s
          else
            match pn.parent with
            | none => .panicked "Parent is red, grandparent should exist"
            | some g =>
              match Rbt.sibling s p with
              | .panicked m => .panicked m
              | .stuck => .stuck
              | .ok uncleOpt =>
                match uncleOpt with
                | some u =>
                  match s.node? u with
                  | none => .stuck
                  | some un =>
                    if un.color = RED then
                      let s1 := ((s.set_color p BLACK).set_color g RED).set_color u BLACK
                      Rbt.fixup_insert fuel s1 g
                    else Rbt.fixup_ins_rotate s x p g
                | none => Rbt.fixup_ins_rotate s x p g

/-- The descent loop of `Rbt::insert_node`: walk down comparing payloads,
link the fresh node `x` where the descent falls off the tree; panic on an
equal key. -/
def Rbt.insert_node : Nat → Rbt → Nat → Nat → Ret Rbt
  | 0, _, _, _ => .stuck
  | fuel + 1, s, cur, x =>
    match s.node? x, s.node? cur with
    | some xn, some cn =>
      if xn.data < cn.data then
        match cn.left with
        | some l => Rbt.insert_node fuel s l x
        | none => .ok ((s.set_left cur (some x)).set_parent x (some cur))
      else if cn.data < xn.data then
        match cn.right with
        | some r => Rbt.insert_node fuel s r x
        | none => .ok ((s.set_right cur (some x)).set_parent x (some cur))
      else .panicked "Node already exists in the tree."
    | _, _ => .stuck

/-- `Rbt::insert`.  Note two faithfully preserved quirks of the source:
the allocation result is `unwrap`ped (a full pool therefore panics instead
of returning `OutOfSpace`), and the final `head.set_color(BLACK)` uses the
head reference captured *before* the fixup, i.e. the pre-insert root. -/
def Rbt.insert (s : Rbt) (data : Int) : Ret (Except Error Unit × Rbt) :=
  match s.storage.add data with
  | .error _ => .panicked "called Result::unwrap on an Err value: OutOfSpace"
  | .ok (node, st) =>
    let s0 : Rbt := { s with storage := st }
    let s1 := s0.set_color node RED
    match s1.head with
    | none => .ok (.ok (), { s1.set_color node BLACK with head := some node })
    | some head =>
      let fuel := s1.storage.data.length + 1
      match Rbt.insert_node fuel s1 head node with
      | .panicked m => .panicked m
      | .stuck => .stuck
      | .ok s2 =>
        match Rbt.fixup_insert fuel s2 node with
        | .panicked m => .panicked m
        | .stuck => .stuck
        | .ok s3 => .ok (.ok (), s3.set_color head BLACK)

/-- The loop of `Rbt::search`. -/
def Rbt.searchLoop : Nat → Rbt → Option Nat → Int → Ret (Option Int)
  | 0, _, _, _ => .stuck
  | fuel + 1, s, cur, key =>
    match cur with
    | none => .ok none
    | some i =>
      match s.node? i with
      | none => .stuck
      | some nd =>
        if key = nd.data then .ok (some nd.data)
        else if key < nd.data then Rbt.searchLoop fuel s nd.left key
        else Rbt.searchLoop fuel s nd.right key

/-- `Rbt::search`. -/
def Rbt.search (s : Rbt) (key : Int) : Ret (Option Int) :=
  Rbt.searchLoop (s.storage.data.length + 1) s s.head key

/-- The find loop at the top of `Rbt::delete`; returns the slot index of the
node holding `key`, or `NotFound`. -/
def Rbt.deleteFind : Nat → Rbt → Nat → Int → Ret (Except Error Nat)
  | 0, _, _, _ => .stuck
  | fuel + 1, s, cur, key =>
    match s.node? cur with
    | none => .stuck
    | some nd =>
      if key = nd.data then .ok (.ok cur)
      else if key < nd.data then
        match nd.left with
        | some l => Rbt.deleteFind fuel s l key
        | none => .ok (.error .NotFound)
      else
        match nd.right with
        | some r => Rbt.deleteFind fuel s r key
        | none => .ok (.error .NotFound)

/-- `Rbt::delete_simple` (node with zero or one child).  The source's
right-child branch really does `right.set_parent(node)` — the spliced child
is pointed at the node being deleted, not at its new parent; this is
preserved verbatim. -/
def Rbt.delete_simple (s : Rbt) (head node : Nat) : Ret (Option Nat × Rbt) :=
  match s.node? node with
  | none => .stuck
  | some nd =>
    let parent := match nd.parent with
                  | some p => p
                  | none => head
    match nd.left with
    | some left =>
      let s1 := s.set_parent left (some parent)
      match s1.node? parent with
      | none => .stuck
      | some pn =>
        if pn.left = some node then .ok (some left, s1.set_left parent (some left))
        else .ok (some left, s1.set_right parent (some left))
    | none =>
      match nd.right with
      | some right =>
        let s1 := s.set_parent right (some node)
        match s1.node? parent with
        | none => .stuck
        | some pn =>
          if pn.left = some node then .ok (some right, s1.set_left parent (some right))
          else .ok (some right, s1.set_right parent (some right))
      | none =>
        match s.node? parent with
        | none => .stuck
        | some pn =>
          if pn.left = some node then .ok (none, s.set_left parent none)
          else .ok (none, s.set_right parent none)

/-- `Rbt::delete_complex` is `todo!()` in the source. -/
def Rbt.delete_complex (_s : Rbt) (_node : Nat) : Ret (Option Nat × Rbt) :=
  .panicked "not yet implemented"

/-- `Rbt::fixup_delete` is `todo!()` in the source. -/
def Rbt.fixup_delete (_s : Rbt) (_node : Nat) : Ret Rbt :=
  .panicked "not yet implemented"

/-- `Rbt::delete`.  `color` is the result of `current.is_red()`, and the
fixup is guarded by `color == BLACK` — with `BLACK = true` this fires when
the removed node was *red*, exactly as in the source. -/
def Rbt.delete (s : Rbt) (data : Int) : Ret (Except Error Unit × Rbt) :=
  match s.head with
  | none => .ok (.error .NotFound, s)
  | some head =>
    match Rbt.deleteFind (s.storage.data.length + 1) s head data with
    | .panicked m => .panicked m
    | .stuck => .stuck
    | .ok (.error e) => .ok (.error e, s)
    | .ok (.ok current) =>
      match s.node? current with
      | none => .stuck
      | some cn =>
        let color := decide (cn.color = RED)
        match (if cn.left = none ∨ cn.right = none
               then Rbt.delete_simple s head current
               else Rbt.delete_complex s current) with
        | .panicked m => .panicked m
        | .stuck => .stuck
        | .ok (moved_up, s1) =>
          match (match moved_up with
                 | some node =>
                   if color = BLACK then Rbt.fixup_delete s1 node else .ok s1
                 | none => .ok s1) with
          | .panicked m => .panicked m
          | .stuck => .stuck
          | .ok s2 => .ok (.ok (), { s2 with storage := s2.storage.deleteAt current })

/-- `Rbt::dfs`: in-order traversal collecting payloads. -/
def Rbt.dfs : Nat → Rbt → Option Nat → Option (List Int)
  | _, _, none => some []
  | 0, _, some _ => none
  | fuel + 1, s, some i =>
    match s.node? i with
    | none => none
    | some nd =>
      match Rbt.dfs fuel s nd.left, Rbt.dfs fuel s nd.right with
      | some a, some b => some (a ++ nd.data :: b)
      | _, _ => none

/-- `Rbt::dfs` started at the head with the canonical budget. -/
def Rbt.dfsTop (s : Rbt) : Option (List Int) :=
  Rbt.dfs (s.storage.data.length + 1) s s.head

/-- `Rbt::len`. -/
def Rbt.len (s : Rbt) : Nat := s.storage.length

/-- Driver: insert the keys in order, succeeding only if every call
returns `Ok(())` (the harness pattern of the crate's tests). -/
def Rbt.insertSeq (s : Rbt) : List Int → Option Rbt
  | [] => some s
  | k :: ks =>
    match Rbt.insert s k with
    | .ok (.ok _, s1) => Rbt.insertSeq s1 ks
    | _ => none

/-- All-paths black count below a pointer: `some h` iff every path from
this pointer to a null sentinel passes through exactly `h` black nodes;
`none` when two paths disagree (or the tree is unreadable). -/
def Rbt.blackHeight : Nat → Rbt → Option Nat → Option Nat
  | _, _, none => some 0
  | 0, _, some _ => none
  | fuel + 1, s, some i =>
    match s.node? i with
    | none => none
    | some nd =>
      match Rbt.blackHeight fuel s nd.left, Rbt.blackHeight fuel s nd.right with
      | some a, some b =>
        if a = b then some (a + (if nd.color = BLACK then 1 else 0)) else none
      | _, _ => none

/-! ## The plain binary search tree (`bst.rs`) -/

/-- `bst.rs` `Node<D>`: payload and three links (no color). -/
structure BstNode where
  data : Int
  parent : Option Nat
  left : Option Nat
  right : Option Nat
deriving DecidableEq, Repr

/-- `Node::new` (bst). -/
def BstNode.new (d : Int) : BstNode :=
  { data := d, parent := none, left := none, right := none }

/-- `bst.rs` `Storage<'a, D, SIZE>` (see `RbtStorage` for the stack
orientation). -/
structure BstStorage where
  data : List (Bool × BstNode)
  length : Nat
  free_indices : List Nat
deriving DecidableEq, Repr

/-- `Storage::new` (bst). -/
def BstStorage.new (size : Nat) : BstStorage :=
  { data := List.replicate size (false, BstNode.new 0), length := 0,
    free_indices := (List.range size).reverse }

/-- `Storage::add` (bst). -/
def BstStorage.add (s : BstStorage) (d : Int) : Except Error (Nat × BstStorage) :=
  match s.free_indices with
  | [] => .error .OutOfSpace
  | index :: rest =>
      .ok (index, { data := s.data.set index (true, BstNode.new d),
                    length := s.length + 1, free_indices := rest })

/-- `Storage::delete` (bst). -/
def BstStorage.deleteAt (s : BstStorage) (index : Nat) : BstStorage :=
  { data := match s.data[index]? with
            | some sl => s.data.set index (false, sl.2)
            | none => s.data,
    length := s.length - 1,
    free_indices := index :: s.free_indices }

/-- `bst.rs` `Bst<'a, D, SIZE>`. -/
structure Bst where
  storage : BstStorage
  head : Option Nat
deriving DecidableEq, Repr

/-- `Bst::new`. -/
def Bst.new (size : Nat) : Bst :=
  { storage := BstStorage.new size, head := none }

/-- Slot dereference (see `Rbt.node?`). -/
def Bst.node? (s : Bst) (i : Nat) : Option BstNode :=
  (s.storage.data[i]?).map Prod.snd

/-- Overwrite the node part of slot `i`, keeping the occupied flag. -/
def Bst.updateNode (s : Bst) (i : Nat) (f : BstNode → BstNode) : Bst :=
  { s with storage := { s.storage with data :=
      match s.storage.data[i]? with
      | some sl => s.storage.data.set i (sl.1, f sl.2)
      | none => s.storage.data } }

/-- `Node::set_left` (bst). -/
def Bst.set_left (s : Bst) (i : Nat) (p : Option Nat) : Bst :=
  s.updateNode i fun n => { n with left := p }

/-- `Node::set_right` (bst). -/
def Bst.set_right (s : Bst) (i : Nat) (p : Option Nat) : Bst :=
  s.updateNode i fun n => { n with right := p }

/-- `Node::set_parent` (bst). -/
def Bst.set_parent (s : Bst) (i : Nat) (p : Option Nat) : Bst :=
  s.updateNode i fun n => { n with parent := p }

/-- The descent loop of `Bst::insert`: panics on an equal key. -/
def Bst.insertLoop : Nat → Bst → Nat → Nat → Ret (Except Error Unit × Bst)
  | 0, _, _, _ => .stuck
  | fuel + 1, s, cur, x =>
    match s.node? x, s.node? cur with
    | some xn, some cn =>
      if xn.data < cn.data then
        match cn.left with
        | some l => Bst.insertLoop fuel s l x
        | none => .ok (.ok (), (s.set_left cur (some x)).set_parent x (some cur))
      else if cn.data < xn.data then
        match cn.right with
        | some r => Bst.insertLoop fuel s r x
        | none => .ok (.ok (), (s.set_right cur (some x)).set_parent x (some cur))
      else .panicked "Duplicate data found in the tree"
    | _, _ => .stuck

/-- `Bst::insert` (the allocation error is propagated with `?`, unlike the
red-black variant). -/
def Bst.insert (s : Bst) (data : Int) : Ret (Except Error Unit × Bst) :=
  match s.storage.add data with
  | .error e => .ok (.error e, s)
  | .ok (node, st) =>
    let s0 : Bst := { s with storage := st }
    match s0.head with
    | none => .ok (.ok (), { s0 with head := some node })
    | some head => Bst.insertLoop (s0.storage.data.length + 1) s0 head node

/-- The loop of `Bst::search_node`, returning the slot index of the match. -/
def Bst.searchNodeLoop : Nat → Bst → Option Nat → Int → Ret (Option Nat)
  | 0, _, _, _ => .stuck
  | fuel + 1, s, cur, key =>
    match cur with
    | none => .ok none
    | some i =>
      match s.node? i with
      | none => .stuck
      | some nd =>
        if key < nd.data then Bst.searchNodeLoop fuel s nd.left key
        else if nd.data < key then Bst.searchNodeLoop fuel s nd.right key
        else .ok (some i)

/-- `Bst::search_node`. -/
def Bst.search_node (s : Bst) (key : Int) : Ret (Option Nat) :=
  Bst.searchNodeLoop (s.storage.data.length + 1) s s.head key

/-- `Bst::search`. -/
def Bst.search (s : Bst) (key : Int) : Ret (Option Int) :=
  match Bst.search_node s key with
  | .ok (some i) =>
    match s.node? i with
    | some nd => .ok (some nd.data)
    | none => .stuck
  | .ok none => .ok none
  | .panicked m => .panicked m
  | .stuck => .stuck

/-- `Bst::replace_node`.  Faithfully preserves the source quirk that when
`old` has no parent (it is the root) and the replacement is null, *nothing*
is written: the head keeps pointing at the old node. -/
def Bst.replace_node (s : Bst) (old : Nat) (nw : Option Nat) : Ret Bst :=
  match s.node? old with
  | none => .stuck
  | some onode =>
    match onode.parent with
    | some parent =>
      match s.node? parent with
      | none => .stuck
      | some pn =>
        match (if pn.left = some old then Ret.ok (s.set_left parent nw)
               else if pn.right = some old then Ret.ok (s.set_right parent nw)
               else Ret.panicked "BST is corrupted. Parent does not point to child") with
        | .ok s1 =>
          .ok (match nw with
               | some n => s1.set_parent n (some parent)
               | none => s1)
        | .panicked m => .panicked m
        | .stuck => .stuck
    | none =>
      match nw with
      | some n => .ok ({ s with head := nw }.set_parent n none)
      | none => .ok s

/-- The successor loop in `Bst::delete`: left-most node of the subtree. -/
def Bst.leftmost : Nat → Bst → Nat → Option Nat
  | 0, _, _ => none
  | fuel + 1, s, i =>
    match s.node? i with
    | none => none
    | some nd =>
      match nd.left with
      | some l => Bst.leftmost fuel s l
      | none => some i

/-- `Bst::delete`. -/
def Bst.delete (s : Bst) (data : Int) : Ret (Except Error Unit × Bst) :=
  match Bst.search_node s data with
  | .panicked m => .panicked m
  | .stuck => .stuck
  | .ok none => .ok (.error .NotFound, s)
  | .ok (some to_delete) =>
    match s.node? to_delete with
    | none => .stuck
    | some tn =>
      let fin : Bst → Ret (Except Error Unit × Bst) := fun s1 =>
        .ok (.ok (), { s1 with storage := s1.storage.deleteAt to_delete })
      match tn.left, tn.right with
      | none, none =>
        match Bst.replace_node s to_delete none with
        | .ok s1 => fin s1
        | .panicked m => .panicked m
        | .stuck => .stuck
      | none, some right =>
        match Bst.replace_node s to_delete (some right) with
        | .ok s1 => fin s1
        | .panicked m => .panicked m
        | .stuck => .stuck
      | some left, none =>
        match Bst.replace_node s to_delete (some left) with
        | .ok s1 => fin s1
        | .panicked m => .panicked m
        | .stuck => .stuck
      | some left, some right =>
        match Bst.leftmost (s.storage.data.length + 1) s right with
        | none => .stuck
        | some successor =>
          match (if successor ≠ right then
                   match s.node? successor with
                   | none => Ret.stuck
                   | some sn =>
                     match Bst.replace_node s successor sn.right with
                     | .ok s1 =>
                       Ret.ok ((s1.set_right successor (some right)).set_parent right (some successor))
                     | .panicked m => Ret.panicked m
                     | .stuck => Ret.stuck
                 else Ret.ok s) with
          | .panicked m => .panicked m
          | .stuck => .stuck
          | .ok s2 =>
            match Bst.replace_node s2 to_delete (some successor) with
            | .panicked m => .panicked m
            | .stuck => .stuck
            | .ok s3 =>
              fin ((s3.set_left successor (some left)).set_parent left (some successor))

/-- `Bst::dfs`: in-order traversal collecting payloads. -/
def Bst.dfs : Nat → Bst → Option Nat → Option (List Int)
  | _, _, none => some []
  | 0, _, some _ => none
  | fuel + 1, s, some i =>
    match s.node? i with
    | none => none
    | some nd =>
      match Bst.dfs fuel s nd.left, Bst.dfs fuel s nd.right with
      | some a, some b => some (a ++ nd.data :: b)
      | _, _ => none

/-- `Bst::dfs` from the head with the canonical budget. -/
def Bst.dfsTop (s : Bst) : Option (List Int) :=
  Bst.dfs (s.storage.data.length + 1) s s.head

/-- Driver: insert the keys in order, succeeding only if every call
returns `Ok(())`. -/
def Bst.insertSeq (s : Bst) : List Int → Option Bst
  | [] => some s
  | k :: ks =>
    match Bst.insert s k with
    | .ok (.ok _, s1) => Bst.insertSeq s1 ks
    | _ => none

/-- Occupied flag of slot `i`. -/
def Rbt.flagAt (s : Rbt) (i : Nat) : Option Bool :=
  (s.storage.data[i]?).map Prod.fst

/-- Occupied flag of slot `i`. -/
def Bst.flagAt (s : Bst) (i : Nat) : Option Bool :=
  (s.storage.data[i]?).map Prod.fst

/-! ## Concrete states used by the scenario theorems

Each of these is the (computed) result of running the model on a small
input; the theorems below re-check the computation. -/

/-- The capacity-3 red-black tree after inserting `1, 2, 3`. -/
def rbt123 : Rbt :=
  { storage :=
    { data :=
      [(true, { data := 3, color := false, parent := some 1, left := none, right := none }),
       (true, { data := 2, color := true, parent := none, left := some 2, right := some 0 }),
       (true, { data := 1, color := true, parent := some 1, left := none, right := none })],
      length := 3, free_indices := [] },
    head := some 1 }

/-- The capacity-1 red-black tree after inserting `1` (pool full). -/
def rbtFull1 : Rbt :=
  { storage :=
    { data := [(true, { data := 1, color := true, parent := none, left := none, right := none })],
      length := 1, free_indices := [] },
    head := some 0 }

/-- The capacity-1 plain tree after inserting `1` (pool full). -/
def bstFull1 : Bst :=
  { storage :=
    { data := [(true, { data := 1, parent := none, left := none, right := none })],
      length := 1, free_indices := [] },
    head := some 0 }

/-- The capacity-2 red-black tree after inserting `5`. -/
def rbt5 : Rbt :=
  { storage :=
    { data :=
      [(false, { data := 0, color := false, parent := none, left := none, right := none }),
       (true, { data := 5, color := true, parent := none, left := none, right := none })],
      length := 1, free_indices := [0] },
    head := some 1 }

/-- `rbt5` after `delete(5)`: empty by count, but the head still points at
the (now unoccupied) slot 1. -/
def rbt5d : Rbt :=
  { storage :=
    { data :=
      [(false, { data := 0, color := false, parent := none, left := none, right := none }),
       (false, { data := 5, color := true, parent := none, left := none, right := none })],
      length := 0, free_indices := [1, 0] },
    head := some 1 }

/-- The capacity-2 plain tree after inserting `5`. -/
def bst5 : Bst :=
  { storage :=
    { data :=
      [(false, { data := 0, parent := none, left := none, right := none }),
       (true, { data := 5, parent := none, left := none, right := none })],
      length := 1, free_indices := [0] },
    head := some 1 }

/-- `bst5` after `delete(5)`: empty by count, dangling head. -/
def bst5d : Bst :=
  { storage :=
    { data :=
      [(false, { data := 0, parent := none, left := none, right := none }),
       (false, { data := 5, parent := none, left := none, right := none })],
      length := 0, free_indices := [1, 0] },
    head := some 1 }

/-- The capacity-4 red-black tree after inserting `4, 3, 2, 1`:
slot 2 holds key 3, a black node whose only child is its right child. -/
def rbt4321 : Rbt :=
  { storage :=
    { data :=
      [(true, { data := 1, color := false, parent := some 1, left := none, right := none }),
       (true, { data := 2, color := true, parent := none, left := some 0, right := some 2 }),
       (true, { data := 3, color := true, parent := some 1, left := none, right := some 3 }),
       (true, { data := 4, color := true, parent := some 2, left := none, right := none })],
      length := 4, free_indices := [] },
    head := some 1 }

/-- `rbt4321` after `delete(3)`: the delete succeeds, slot 2 is freed, the
root's right child is now slot 3 (key 4) — but slot 3's parent link still
names the freed slot 2. -/
def rbt4321d : Rbt :=
  { storage :=
    { data :=
      [(true, { data := 1, color := false, parent := some 1, left := none, right := none }),
       (true, { data := 2, color := true, parent := none, left := some 0, right := some 3 }),
       (false, { data := 3, color := true, parent := some 1, left := none, right := some 3 }),
       (true, { data := 4, color := true, parent := some 2, left := none, right := none })],
      length := 3, free_indices := [2] },
    head := some 1 }

/-- The capacity-5 red-black tree after inserting `17, 9, 19, 75, 24`. -/
def rbt17 : Rbt :=
  { storage :=
    { data :=
      [(true, { data := 24, color := true, parent := some 4, left := some 2, right := some 1 }),
       (true, { data := 75, color := false, parent := some 0, left := none, right := none }),
       (true, { data := 19, color := false, parent := some 0, left := none, right := none }),
       (true, { data := 9, color := true, parent := some 4, left := none, right := none }),
       (true, { data := 17, color := true, parent := none, left := some 3, right := some 0 })],
      length := 5, free_indices := [] },
    head := some 4 }

/-- The capacity-5 plain tree after inserting `50, 10, 75, 70, 85`. -/
def bst50 : Bst :=
  { storage :=
    { data :=
      [(true, { data := 85, parent := some 2, left := none, right := none }),
       (true, { data := 70, parent := some 2, left := none, right := none }),
       (true, { data := 75, parent := some 4, left := some 1, right := some 0 }),
       (true, { data := 10, parent := some 4, left := none, right := none }),
       (true, { data := 50, parent := none, left := some 3, right := some 2 })],
      length := 5, free_indices := [] },
    head := some 4 }

/-- `bst50` after `delete(50)`: the in-order successor 70 replaces the root. -/
def bst50d : Bst :=
  { storage :=
    { data :=
      [(true, { data := 85, parent := some 2, left := none, right := none }),
       (true, { data := 70, parent := none, left := some 3, right := some 2 }),
       (true, { data := 75, parent := some 1, left := none, right := some 0 }),
       (true, { data := 10, parent := some 1, left := none, right := none }),
       (false, { data := 50, parent := none, left := some 3, right := some 2 })],
      length := 4, free_indices := [4] },
    head := some 1 }

/-! ## Abstract trees

`Tr` is the shape a healthy arena tree unfolds to: each node carries its
slot index and its key.  `BstReps`/`RbtReps` below relate a state and a
pointer to such a shape. -/

/-- Binary tree of (slot index, key) pairs. -/
inductive Tr where
  | leaf
  | node (l : Tr) (i : Nat) (k : Int) (r : Tr)
deriving DecidableEq, Repr

/-- In-order list of (slot index, key) pairs. -/
def Tr.inorder : Tr → List (Nat × Int)
  | .leaf => []
  | .node l i k r => Tr.inorder l ++ (i, k) :: Tr.inorder r

/-- Slot indices of a tree, in in-order. -/
def Tr.indices (t : Tr) : List Nat := t.inorder.map Prod.fst

/-- Keys of a tree, in in-order. -/
def Tr.keys (t : Tr) : List Int := t.inorder.map Prod.snd

/-- Height of the tree (0 for a leaf). -/
def Tr.height : Tr → Nat
  | .leaf => 0
  | .node l _ _ r => max (Tr.height l) (Tr.height r) + 1

/-- Number of nodes. -/
def Tr.size : Tr → Nat
  | .leaf => 0
  | .node l _ _ r => Tr.size l + Tr.size r + 1

/-- Functional mirror of the insert descent: place key `k` in a fresh slot
`x` following the comparisons of `Bst::insert`/`Rbt::insert_node` (the
equal branch, unreachable for a fresh key, leaves the tree unchanged). -/
def Tr.ins (x : Nat) (k : Int) : Tr → Tr
  | .leaf => .node .leaf x k .leaf
  | .node l i d r =>
    if k < d then .node (Tr.ins x k l) i d r
    else if d < k then .node l i d (Tr.ins x k r)
    else .node l i d r

/-- The binary-search-tree ordering invariant. -/
def Tr.bst : Tr → Prop
  | .leaf => True
  | .node l _ k r =>
    Tr.bst l ∧ Tr.bst r ∧ (∀ a ∈ Tr.keys l, a < k) ∧ (∀ a ∈ Tr.keys r, k < a)

/-- Subtree at a root-to-node path (`false` = step left, `true` = right). -/
def Tr.getPath : Tr → List Bool → Option Tr
  | t, [] => some t
  | .leaf, _ :: _ => none
  | .node l _ _ _, false :: ps => Tr.getPath l ps
  | .node _ _ _ r, true :: ps => Tr.getPath r ps

/-- Replace the subtree at a path (identity when the path misses). -/
def Tr.setPath : Tr → List Bool → Tr → Tr
  | _, [], u => u
  | .leaf, _ :: _, _ => .leaf
  | .node l i k r, false :: ps, u => .node (Tr.setPath l ps u) i k r
  | .node l i k r, true :: ps, u => .node l i k (Tr.setPath r ps u)

/-- Root slot index (`none` for a leaf). -/
def Tr.rootIdx : Tr → Option Nat
  | .leaf => none
  | .node _ i _ _ => some i

/-! ## Extraction predicates -/

/-- `BstReps s p o t`: in state `s` the pointer `o` points at a linked
structure shaped exactly like `t`, whose root's parent field is `p`, and
whose parent back-links are all coherent.  (Occupied flags are not
constrained: pointers do not consult them.) -/
inductive BstReps (s : Bst) : Option Nat → Option Nat → Tr → Prop
  | leaf (p : Option Nat) : BstReps s p none .leaf
  | node (p : Option Nat) (i : Nat) (nd : BstNode) (l r : Tr)
      (hnd : Bst.node? s i = some nd) (hp : nd.parent = p)
      (hl : BstReps s (some i) nd.left l) (hr : BstReps s (some i) nd.right r) :
      BstReps s p (some i) (.node l i nd.data r)

/-- `RbtReps s p o t`: as `BstReps`, for the balanced variant (colors are
not constrained). -/
inductive RbtReps (s : Rbt) : Option Nat → Option Nat → Tr → Prop
  | leaf (p : Option Nat) : RbtReps s p none .leaf
  | node (p : Option Nat) (i : Nat) (nd : RbtNode) (l r : Tr)
      (hnd : Rbt.node? s i = some nd) (hp : nd.parent = p)
      (hl : RbtReps s (some i) nd.left l) (hr : RbtReps s (some i) nd.right r) :
      RbtReps s p (some i) (.node l i nd.data r)

/-- Executable check deciding `BstReps` (with a fuel bound). -/
def Bst.repsB (s : Bst) : Nat → Option Nat → Option Nat → Tr → Bool
  | _, _, none, .leaf => true
  | fuel + 1, p, some i, .node l j k r =>
    match s.node? i with
    | some nd =>
      decide (i = j) && decide (nd.data = k) && decide (nd.parent = p) &&
      Bst.repsB s fuel (some i) nd.left l && Bst.repsB s fuel (some i) nd.right r
    | none => false
  | _, _, _, _ => false

/-- Executable check deciding `RbtReps` (with a fuel bound). -/
def Rbt.repsB (s : Rbt) : Nat → Option Nat → Option Nat → Tr → Bool
  | _, _, none, .leaf => true
  | fuel + 1, p, some i, .node l j k r =>
    match s.node? i with
    | some nd =>
      decide (i = j) && decide (nd.data = k) && decide (nd.parent = p) &&
      Rbt.repsB s fuel (some i) nd.left l && Rbt.repsB s fuel (some i) nd.right r
    | none => false
  | _, _, _, _ => false

/-- Executable root-is-black check. -/
def Rbt.rootBlackB (s : Rbt) : Bool :=
  match s.head with
  | none => true
  | some r =>
    match s.node? r with
    | some nd => nd.color
    | none => false

/-- Fields of `RbtNode` other than the color. -/
def RbtNode.links (nd : RbtNode) : Int × Option Nat × Option Nat × Option Nat :=
  (nd.data, nd.parent, nd.left, nd.right)

/-! ## Well-formedness bundles -/

/-- Well-formedness of a plain-tree state `s` with extracted shape `t`:
the head unfolds to `t` (root parent null), slot indices are distinct,
the free stack is disjoint from the tree and in range, the slot counts
add up, and the in-order key list is strictly sorted. -/
structure Bst.WF (s : Bst) (t : Tr) : Prop where
  reps : BstReps s none s.head t
  nodup : t.indices.Nodup
  freeTree : ∀ j ∈ s.storage.free_indices, j ∉ t.indices
  freeCap : ∀ j ∈ s.storage.free_indices, j < s.storage.data.length
  freeNodup : s.storage.free_indices.Nodup
  count : t.size + s.storage.free_indices.length = s.storage.data.length
  sorted : t.keys.Pairwise (· < ·)

/-- Well-formedness of a balanced-tree state (additionally: the root is
black, which rules out the grandparent panic inside the insert fixup). -/
structure Rbt.WF (s : Rbt) (t : Tr) : Prop where
  reps : RbtReps s none s.head t
  nodup : t.indices.Nodup
  freeTree : ∀ j ∈ s.storage.free_indices, j ∉ t.indices
  freeCap : ∀ j ∈ s.storage.free_indices, j < s.storage.data.length
  freeNodup : s.storage.free_indices.Nodup
  count : t.size + s.storage.free_indices.length = s.storage.data.length
  sorted : t.keys.Pairwise (· < ·)
  rootBlack : Rbt.rootBlackB s = true

/-- The parent-side child update performed by the rotation primitives:
whichever child link of `nd` named `old` first (left checked before right)
is redirected to `nw`. -/
def RbtNode.childFlip (nd : RbtNode) (old nw : Nat) : RbtNode :=
  if nd.left = some old then { nd with left := some nw }
  else if nd.right = some old then { nd with right := some nw }
  else nd

-- decidable equality for `Except` results
deriving instance DecidableEq for Except

/-! ## Scenario theorems (concrete executions of the model) -/

/-- C1: the red-black invariants do **not** survive arbitrary insert
sequences.  Inserting `1, 2, 3` into an empty balanced tree succeeds, but
afterwards the two root-to-null paths disagree on their black count
(`blackHeight` returns `none`): the left subtree contributes one black
node while the right subtree contributes none.  (The final
`head.set_color(BLACK)` of `Rbt::insert` recolors the *pre-rotation* root,
here the demoted node 1, breaking the equal-black-height invariant.) -/
theorem C1_black_height_violated :
    Rbt.insertSeq (Rbt.new 3) [1, 2, 3] = some rbt123 ∧
    rbt123.head = some 1 ∧
    Rbt.node? rbt123 1 =
      some { data := 2, color := BLACK, parent := none, left := some 2, right := some 0 } ∧
    Rbt.blackHeight 4 rbt123 (some 2) = some 1 ∧
    Rbt.blackHeight 4 rbt123 (some 0) = some 0 ∧
    Rbt.blackHeight 4 rbt123 rbt123.head = none := by
  decide

/-- C2 counterexample: with a full pool, `Rbt::insert` does not return the
`OutOfSpace` outcome — it panics, because the allocation result is
`unwrap`ped.  (The plain `Bst` propagates the error correctly; see the
amended theorem.) -/
theorem C2_rbt_full_pool_panics :
    Rbt.insertSeq (Rbt.new 1) [1] = some rbtFull1 ∧
    rbtFull1.storage.length = 1 ∧
    Rbt.insert rbtFull1 2 = .panicked "called Result::unwrap on an Err value: OutOfSpace" := by
  decide

/-- C3: the single-element round trip is broken in both variants.  Insert
`5` into an empty tree, delete it (both report success and the count
returns to 0), then `search(5)` still returns `5`: deleting a parentless
node with no replacement never clears the head pointer, which keeps
aiming at the freed slot. -/
theorem C3_singleton_round_trip_broken :
    Bst.insert (Bst.new 2) 5 = .ok (.ok (), bst5) ∧
    Bst.delete bst5 5 = .ok (.ok (), bst5d) ∧
    bst5d.storage.length = 0 ∧
    Bst.search bst5d 5 = .ok (some 5) ∧
    Rbt.insert (Rbt.new 2) 5 = .ok (.ok (), rbt5) ∧
    Rbt.delete rbt5 5 = .ok (.ok (), rbt5d) ∧
    rbt5d.storage.length = 0 ∧
    Rbt.search rbt5d 5 = .ok (some 5) := by
  decide

/-- C4 counterexample: inserting an already-present key into the plain
tree does not return `AlreadyExists` — the descent panics. -/
theorem C4_bst_duplicate_insert_panics :
    Bst.insertSeq (Bst.new 2) [5] = some bst5 ∧
    Bst.insert bst5 5 = .panicked "Duplicate data found in the tree" := by
  decide

/-- C5: a fatal condition on well-formed input: inserting a duplicate key
into the balanced tree panics instead of reporting `AlreadyExists` (and
likewise `delete` of a node with two children reaches `todo!()`, and a
full-pool `Rbt::insert` panics through `unwrap` — see the C2/C6
theorems). -/
theorem C5_rbt_duplicate_insert_panics :
    Rbt.insertSeq (Rbt.new 2) [5] = some rbt5 ∧
    Rbt.insert rbt5 5 = .panicked "Node already exists in the tree." := by
  decide

/-- C6: deleting a present key from the balanced tree does not always
complete: when the target has two children, `Rbt::delete_complex` is
`todo!()` and the call panics (the delete-fixup walk is likewise
unimplemented). -/
theorem C6_two_children_delete_panics :
    Rbt.insertSeq (Rbt.new 3) [1, 2, 3] = some rbt123 ∧
    Rbt.node? rbt123 1 =
      some { data := 2, color := BLACK, parent := none, left := some 2, right := some 0 } ∧
    Rbt.delete rbt123 2 = .panicked "not yet implemented" := by
  decide

/-- C8: the balanced-insert scenario.  Inserting `17, 9, 19, 75, 24` into
an empty capacity-5 tree yields root 17 (black) with left child 9 (black)
and right child 24 (black); 24 has left child 19 (red) and right child 75
(red). -/
theorem C8_balanced_insert_scenario :
    Rbt.insertSeq (Rbt.new 5) [17, 9, 19, 75, 24] = some rbt17 ∧
    rbt17.head = some 4 ∧
    Rbt.node? rbt17 4 =
      some { data := 17, color := BLACK, parent := none, left := some 3, right := some 0 } ∧
    Rbt.node? rbt17 3 =
      some { data := 9, color := BLACK, parent := some 4, left := none, right := none } ∧
    Rbt.node? rbt17 0 =
      some { data := 24, color := BLACK, parent := some 4, left := some 2, right := some 1 } ∧
    Rbt.node? rbt17 2 =
      some { data := 19, color := RED, parent := some 0, left := none, right := none } ∧
    Rbt.node? rbt17 1 =
      some { data := 75, color := RED, parent := some 0, left := none, right := none } := by
  decide

/-- C9: the two-children delete scenario on the plain tree.  After
inserting `50, 10, 75, 70, 85`, deleting the root 50 promotes its in-order
successor 70: the new root is 70 with left child 10 and right child 75;
75 has no left child and keeps 85 as its right child. -/
theorem C9_two_children_delete_scenario :
    Bst.insertSeq (Bst.new 5) [50, 10, 75, 70, 85] = some bst50 ∧
    bst50.head = some 4 ∧
    Bst.node? bst50 4 = some { data := 50, parent := none, left := some 3, right := some 2 } ∧
    Bst.delete bst50 50 = .ok (.ok (), bst50d) ∧
    bst50d.head = some 1 ∧
    Bst.node? bst50d 1 = some { data := 70, parent := none, left := some 3, right := some 2 } ∧
    Bst.node? bst50d 3 = some { data := 10, parent := some 1, left := none, right := none } ∧
    Bst.node? bst50d 2 = some { data := 75, parent := some 1, left := none, right := some 0 } ∧
    Bst.node? bst50d 0 = some { data := 85, parent := some 2, left := none, right := none } := by
  decide

/-- C10: the back-link invariant is *not* preserved by `Rbt::delete` of a
node with exactly one (right) child.  Building the balanced tree from
`4, 3, 2, 1` makes slot 2 (key 3) a black node whose only child is its
right child, slot 3 (key 4).  `delete(3)` succeeds, and afterwards the
root slot 1 records slot 3 as its right child while slot 3's parent link
still names the freed slot 2: `delete_simple` runs
`right.set_parent(node)` — pointing the spliced child at the deleted node
instead of its new parent — so the reachable child no longer points back,
and the corruption assertion becomes reachable from a well-formed state. -/
theorem C10_delete_leaves_stale_parent_link :
    Rbt.insertSeq (Rbt.new 4) [4, 3, 2, 1] = some rbt4321 ∧
    Rbt.node? rbt4321 2 =
      some { data := 3, color := BLACK, parent := some 1, left := none, right := some 3 } ∧
    Rbt.delete rbt4321 3 = .ok (.ok (), rbt4321d) ∧
    Rbt.flagAt rbt4321d 2 = some false ∧
    Rbt.node? rbt4321d 1 =
      some { data := 2, color := BLACK, parent := none, left := some 0, right := some 3 } ∧
    Rbt.node? rbt4321d 3 =
      some { data := 4, color := BLACK, parent := some 2, left := none, right := none } := by
  decide

/-! ## Lemmas about the abstract trees -/

theorem Tr.inorder_leaf : Tr.leaf.inorder = [] := rfl

theorem Tr.indices_leaf : Tr.leaf.indices = [] := rfl

theorem Tr.keys_leaf : Tr.leaf.keys = [] := rfl

theorem Tr.indices_node (l : Tr) (i : Nat) (k : Int) (r : Tr) :
    (Tr.node l i k r).indices = l.indices ++ i :: r.indices := by
  simp [Tr.indices, Tr.inorder]

theorem Tr.keys_node (l : Tr) (i : Nat) (k : Int) (r : Tr) :
    (Tr.node l i k r).keys = l.keys ++ k :: r.keys := by
  simp [Tr.keys, Tr.inorder]

theorem Tr.mem_keys_ins (x : Nat) (k : Int) (t : Tr) (a : Int) :
    a ∈ (Tr.ins x k t).keys ↔ a = k ∨ a ∈ t.keys := by
  induction t with
  | leaf => simp [Tr.ins, Tr.keys, Tr.inorder]
  | node l i d r ihl ihr =>
    by_cases h1 : k < d
    · simp only [Tr.ins, if_pos h1, Tr.keys_node, List.mem_append, List.mem_cons, ihl]
      tauto
    · by_cases h2 : d < k
      · simp only [Tr.ins, if_neg h1, if_pos h2, Tr.keys_node, List.mem_append,
          List.mem_cons, ihr]
        tauto
      · have hdk : d = k := le_antisymm (not_lt.mp h1) (not_lt.mp h2)
        subst hdk
        simp only [Tr.ins, if_neg h1, if_neg h2, Tr.keys_node, List.mem_append, List.mem_cons]
        tauto

theorem Tr.mem_indices_ins (x : Nat) (k : Int) (t : Tr) (hk : k ∉ t.keys) (a : Nat) :
    a ∈ (Tr.ins x k t).indices ↔ a = x ∨ a ∈ t.indices := by
  induction t with
  | leaf => simp [Tr.ins, Tr.indices, Tr.inorder]
  | node l i d r ihl ihr =>
    rw [Tr.keys_node] at hk
    simp only [List.mem_append, List.mem_cons] at hk
    push_neg at hk
    obtain ⟨hkl, hkd, hkr⟩ := hk
    by_cases h1 : k < d
    · simp only [Tr.ins, if_pos h1, Tr.indices_node, List.mem_append, List.mem_cons, ihl hkl]
      tauto
    · by_cases h2 : d < k
      · simp only [Tr.ins, if_neg h1, if_pos h2, Tr.indices_node, List.mem_append,
          List.mem_cons, ihr hkr]
        tauto
      · exact absurd (le_antisymm (not_lt.mp h1) (not_lt.mp h2)).symm hkd

theorem Tr.nodup_ins (x : Nat) (k : Int) (t : Tr) (hk : k ∉ t.keys) (hx : x ∉ t.indices)
    (hnd : t.indices.Nodup) : (Tr.ins x k t).indices.Nodup := by
  induction t with
  | leaf => simp [Tr.ins, Tr.indices, Tr.inorder]
  | node l i d r ihl ihr =>
    rw [Tr.keys_node] at hk
    simp only [List.mem_append, List.mem_cons] at hk
    push_neg at hk
    obtain ⟨hkl, hkd, hkr⟩ := hk
    rw [Tr.indices_node] at hx hnd
    simp only [List.mem_append, List.mem_cons] at hx
    push_neg at hx
    obtain ⟨hxl, hxi, hxr⟩ := hx
    rw [List.nodup_append] at hnd
    obtain ⟨h1n, h2n, hdisj⟩ := hnd
    by_cases h1 : k < d
    · simp only [Tr.ins, if_pos h1, Tr.indices_node, List.nodup_append]
      refine ⟨ihl hkl hxl h1n, h2n, ?_⟩
      intro a ha
      rw [Tr.mem_indices_ins x k l hkl] at ha
      rcases ha with rfl | ha
      · intro hmem
        rcases List.mem_cons.mp hmem with rfl | hmem
        · exact hxi rfl
        · exact hxr hmem
      · exact hdisj ha
    · by_cases h2 : d < k
      · simp only [Tr.ins, if_neg h1, if_pos h2, Tr.indices_node, List.nodup_append]
        rw [List.nodup_cons] at h2n
        refine ⟨h1n, ?_, ?_⟩
        · rw [List.nodup_cons]
          refine ⟨?_, ihr hkr hxr h2n.2⟩
          intro hmem
          rw [Tr.mem_indices_ins x k r hkr] at hmem
          rcases hmem with rfl | hmem
          · exact hxi rfl
          · exact h2n.1 hmem
        · intro a ha
          have hd := hdisj ha
          intro hmem
          rcases List.mem_cons.mp hmem with rfl | hmem
          · exact hd (List.mem_cons_self _ _)
          · rw [Tr.mem_indices_ins x k r hkr] at hmem
            rcases hmem with rfl | hmem
            · exact hxl ha
            · exact hd (List.mem_cons_of_mem _ hmem)
      · exact absurd (le_antisymm (not_lt.mp h1) (not_lt.mp h2)).symm hkd

theorem Tr.size_ins (x : Nat) (k : Int) (t : Tr) (hk : k ∉ t.keys) :
    (Tr.ins x k t).size = t.size + 1 := by
  induction t with
  | leaf => rfl
  | node l i d r ihl ihr =>
    rw [Tr.keys_node] at hk
    simp only [List.mem_append, List.mem_cons] at hk
    push_neg at hk
    obtain ⟨hkl, hkd, hkr⟩ := hk
    by_cases h1 : k < d
    · simp only [Tr.ins, if_pos h1, Tr.size, ihl hkl]
      omega
    · by_cases h2 : d < k
      · simp only [Tr.ins, if_neg h1, if_pos h2, Tr.size, ihr hkr]
        omega
      · exact absurd (le_antisymm (not_lt.mp h1) (not_lt.mp h2)).symm hkd

theorem Tr.height_le_size (t : Tr) : t.height ≤ t.size := by
  induction t with
  | leaf => exact le_refl 0
  | node l i d r ihl ihr =>
    simp only [Tr.height, Tr.size]
    omega

theorem Tr.length_indices (t : Tr) : t.indices.length = t.size := by
  induction t with
  | leaf => rfl
  | node l i d r ihl ihr =>
    rw [Tr.indices_node] at *
    simp only [List.length_append, List.length_cons, Tr.size, ihl, ihr]
    omega

theorem Tr.pairwise_iff_bst (t : Tr) : t.keys.Pairwise (· < ·) ↔ t.bst := by
  induction t with
  | leaf => simp [Tr.keys, Tr.inorder, Tr.bst]
  | node l i d r ihl ihr =>
    rw [Tr.keys_node, List.pairwise_append, List.pairwise_cons]
    simp only [List.mem_cons]
    constructor
    · rintro ⟨hl, ⟨hdr, hr⟩, hcross⟩
      refine ⟨ihl.mp hl, ihr.mp hr, ?_, hdr⟩
      intro a ha
      exact hcross a ha d (Or.inl rfl)
    · rintro ⟨hl, hr, hld, hdr⟩
      refine ⟨ihl.mpr hl, ⟨hdr, ihr.mpr hr⟩, ?_⟩
      intro a ha b hb
      rcases hb with rfl | hb
      · exact hld a ha
      · exact lt_trans (hld a ha) (hdr b hb)

theorem Tr.bst_ins (x : Nat) (k : Int) (t : Tr) (ht : t.bst) : (Tr.ins x k t).bst := by
  induction t with
  | leaf => simp [Tr.ins, Tr.bst, Tr.keys, Tr.inorder]
  | node l i d r ihl ihr =>
    obtain ⟨hl, hr, hld, hdr⟩ := ht
    by_cases h1 : k < d
    · simp only [Tr.ins, if_pos h1, Tr.bst]
      refine ⟨ihl hl, hr, ?_, hdr⟩
      intro a ha
      rw [Tr.mem_keys_ins] at ha
      rcases ha with rfl | ha
      · exact h1
      · exact hld a ha
    · by_cases h2 : d < k
      · simp only [Tr.ins, if_neg h1, if_pos h2, Tr.bst]
        refine ⟨hl, ihr hr, hld, ?_⟩
        intro a ha
        rw [Tr.mem_keys_ins] at ha
        rcases ha with rfl | ha
        · exact h2
        · exact hdr a ha
      · simpa only [Tr.ins, if_neg h1, if_neg h2, Tr.bst] using ⟨hl, hr, hld, hdr⟩

theorem Tr.sorted_ins (x : Nat) (k : Int) (t : Tr) (ht : t.keys.Pairwise (· < ·)) :
    (Tr.ins x k t).keys.Pairwise (· < ·) :=
  (Tr.pairwise_iff_bst _).mpr (Tr.bst_ins x k t ((Tr.pairwise_iff_bst t).mp ht))

/-! ## Slot-level lemmas (plain variant) -/

theorem Bst.node?_updateNode_self_bst (s : Bst) (i : Nat) (f : BstNode → BstNode) :
    Bst.node? (s.updateNode i f) i = (Bst.node? s i).map f := by
  unfold Bst.node? Bst.updateNode
  cases h : s.storage.data[i]? with
  | none => simp [h]
  | some sl => simp [h, List.getElem?_set_self']

theorem Bst.node?_updateNode_ne_bst (s : Bst) (i j : Nat) (f : BstNode → BstNode) (h : i ≠ j) :
    Bst.node? (s.updateNode i f) j = Bst.node? s j := by
  unfold Bst.node? Bst.updateNode
  cases h2 : s.storage.data[i]? with
  | none => simp
  | some sl => simp [List.getElem?_set_ne h]

theorem Bst.head_updateNode_bst (s : Bst) (i : Nat) (f : BstNode → BstNode) :
    (s.updateNode i f).head = s.head := rfl

theorem Bst.free_updateNode_bst (s : Bst) (i : Nat) (f : BstNode → BstNode) :
    (s.updateNode i f).storage.free_indices = s.storage.free_indices := rfl

theorem Bst.length_updateNode_bst (s : Bst) (i : Nat) (f : BstNode → BstNode) :
    (s.updateNode i f).storage.length = s.storage.length := rfl

theorem Bst.dataLength_updateNode_bst (s : Bst) (i : Nat) (f : BstNode → BstNode) :
    (s.updateNode i f).storage.data.length = s.storage.data.length := by
  unfold Bst.updateNode
  cases h : s.storage.data[i]? with
  | none => simp
  | some sl => simp

/-! ## Extraction lemmas (plain variant) -/

theorem BstReps.leaf_inv_bst {s : Bst} {p o : Option Nat} (h : BstReps s p o Tr.leaf) :
    o = none := by
  cases h
  rfl

theorem BstReps.congr_bst {s s' : Bst} {p o : Option Nat} {t : Tr}
    (h : BstReps s p o t) (hag : ∀ i ∈ t.indices, Bst.node? s' i = Bst.node? s i) :
    BstReps s' p o t := by
  induction h with
  | leaf p => exact .leaf p
  | node p i nd l r hnd hp hl hr ihl ihr =>
    refine .node p i nd l r ?_ hp (ihl ?_) (ihr ?_)
    · rw [hag i (by rw [Tr.indices_node]; exact List.mem_append_right _ (List.mem_cons_self _ _))]
      exact hnd
    · intro j hj
      exact hag j (by rw [Tr.indices_node]; exact List.mem_append_left _ hj)
    · intro j hj
      refine hag j ?_
      rw [Tr.indices_node]
      exact List.mem_append_right _ (List.mem_cons_of_mem _ hj)

theorem Bst.dfs_of_reps_bst {t : Tr} {s : Bst} {p o : Option Nat}
    (h : BstReps s p o t) :
    ∀ fuel, t.height < fuel → Bst.dfs fuel s o = some t.keys := by
  induction h with
  | leaf p =>
    intro fuel _
    cases fuel <;> rfl
  | node p i nd l r hnd hp hl hr ihl ihr =>
    intro fuel hfuel
    match fuel, hfuel with
    | fuel + 1, hfuel =>
      have hlf : l.height < fuel := by
        simp only [Tr.height] at hfuel
        omega
      have hrf : r.height < fuel := by
        simp only [Tr.height] at hfuel
        omega
      simp only [Bst.dfs, hnd, ihl fuel hlf, ihr fuel hrf, Tr.keys_node]

theorem BstReps.node_root_bst {s : Bst} {p o : Option Nat} {l : Tr} {i : Nat} {k : Int} {r : Tr}
    (h : BstReps s p o (Tr.node l i k r)) : o = some i := by
  cases h
  rfl

theorem Tr.rootIdx_ins (x : Nat) (k : Int) (l : Tr) (i : Nat) (d : Int) (r : Tr) :
    ∃ l' r' , Tr.ins x k (Tr.node l i d r) = Tr.node l' i d r' := by
  simp only [Tr.ins]
  by_cases h1 : k < d
  · rw [if_pos h1]
    exact ⟨_, _, rfl⟩
  · by_cases h2 : d < k
    · rw [if_neg h1, if_pos h2]
      exact ⟨_, _, rfl⟩
    · rw [if_neg h1, if_neg h2]
      exact ⟨_, _, rfl⟩

theorem Bst.insertLoop_fresh
    {t : Tr} {s : Bst} {p : Option Nat} {rt x : Nat} {xn : BstNode}
    (hreps : BstReps s p (some rt) t)
    (hx : Bst.node? s x = some xn)
    (hxleft : xn.left = none) (hxright : xn.right = none)
    (hk : xn.data ∉ t.keys)
    (hxt : x ∉ t.indices)
    (hnd : t.indices.Nodup) :
    ∀ fuel, t.height < fuel →
    ∃ s', Bst.insertLoop fuel s rt x = .ok (.ok (), s') ∧
      BstReps s' p (some rt) (Tr.ins x xn.data t) ∧
      (∀ j, j ∉ t.indices → j ≠ x → Bst.node? s' j = Bst.node? s j) ∧
      s'.head = s.head ∧
      s'.storage.free_indices = s.storage.free_indices ∧
      s'.storage.length = s.storage.length ∧
      s'.storage.data.length = s.storage.data.length := by
  induction t generalizing p rt with
  | leaf => cases hreps
  | node l i d r ihl ihr =>
    cases hreps with
    | node _ _ nd _ _ hnd2 hp hl hr =>
      rw [Tr.keys_node] at hk
      simp only [List.mem_append, List.mem_cons] at hk
      push_neg at hk
      obtain ⟨hkl, hkd, hkr⟩ := hk
      rw [Tr.indices_node] at hxt hnd
      simp only [List.mem_append, List.mem_cons] at hxt
      push_neg at hxt
      obtain ⟨hxtl, hxi, hxtr⟩ := hxt
      rw [List.nodup_append] at hnd
      obtain ⟨hndl, hndir, hdisj⟩ := hnd
      rw [List.nodup_cons] at hndir
      obtain ⟨hir, hndr⟩ := hndir
      intro fuel hfuel
      match fuel, hfuel with
      | fuel + 1, hfuel =>
        have hlf : l.height < fuel := by
          simp only [Tr.height] at hfuel
          omega
        have hrf : r.height < fuel := by
          simp only [Tr.height] at hfuel
          omega
        by_cases hc1 : xn.data < nd.data
        · -- descend / attach to the left
          rw [show Tr.ins x xn.data (Tr.node l i nd.data r) =
              Tr.node (Tr.ins x xn.data l) i nd.data r by
            simp only [Tr.ins, if_pos hc1]]
          cases l with
          | leaf =>
            have hnl : nd.left = none := hl.leaf_inv_bst
            refine ⟨(s.set_left i (some x)).set_parent x (some i), ?_, ?_, ?_, rfl, rfl, rfl, ?_⟩
            · simp only [Bst.insertLoop, hx, hnd2, if_pos hc1, hnl]
            · have hni : Bst.node? ((s.set_left i (some x)).set_parent x (some i)) i =
                  some { nd with left := some x } := by
                rw [Bst.set_parent, Bst.node?_updateNode_ne_bst _ _ _ _ hxi, Bst.set_left,
                  Bst.node?_updateNode_self_bst, hnd2]
                rfl
              have hnx : Bst.node? ((s.set_left i (some x)).set_parent x (some i)) x =
                  some { xn with parent := some i } := by
                rw [Bst.set_parent, Bst.node?_updateNode_self_bst, Bst.set_left,
                  Bst.node?_updateNode_ne_bst _ _ _ _ hxi.symm, hx]
                rfl
              have hfresh : BstReps ((s.set_left i (some x)).set_parent x (some i)) (some i)
                  (some x) (Tr.node Tr.leaf x xn.data Tr.leaf) := by
                have hh1 : ({ xn with parent := some i } : BstNode).left = none := hxleft
                have hh2 : ({ xn with parent := some i } : BstNode).right = none := hxright
                refine BstReps.node (some i) x { xn with parent := some i } Tr.leaf Tr.leaf
                  hnx rfl ?_ ?_
                · rw [hh1]
                  exact BstReps.leaf _
                · rw [hh2]
                  exact BstReps.leaf _
              have hrcongr : BstReps ((s.set_left i (some x)).set_parent x (some i)) (some i)
                  nd.right r := by
                refine hr.congr_bst ?_
                intro j hj
                rw [Bst.set_parent, Bst.node?_updateNode_ne_bst _ _ _ _
                    (by rintro rfl; exact hxtr hj), Bst.set_left,
                  Bst.node?_updateNode_ne_bst _ _ _ _ (by rintro rfl; exact hir hj)]
              have := BstReps.node p i { nd with left := some x }
                (Tr.node Tr.leaf x xn.data Tr.leaf) r hni hp hfresh hrcongr
              simpa only [Tr.ins] using this
            · intro j hj hjx
              simp only [Tr.indices_node, Tr.indices_leaf, List.nil_append, List.mem_cons] at hj
              push_neg at hj
              rw [Bst.set_parent, Bst.node?_updateNode_ne_bst _ _ _ _ (Ne.symm hjx), Bst.set_left,
                Bst.node?_updateNode_ne_bst _ _ _ _ (Ne.symm hj.1)]
            · rw [Bst.set_parent, Bst.dataLength_updateNode_bst, Bst.set_left,
                Bst.dataLength_updateNode_bst]
          | node l1 li lk r1 =>
            have hnl : nd.left = some li := hl.node_root_bst
            rw [hnl] at hl
            obtain ⟨s', hloop, hreps', hframe, hhead, hfree, hlen, hdl⟩ :=
              ihl hl hkl hxtl hndl fuel hlf
            refine ⟨s', ?_, ?_, ?_, hhead, hfree, hlen, hdl⟩
            · simp only [Bst.insertLoop, hx, hnd2, if_pos hc1, hnl]
              exact hloop
            · have hni : Bst.node? s' i = some nd := by
                rw [hframe i (fun h => hdisj h (List.mem_cons_self _ _)) hxi.symm]
                exact hnd2
              have hrcongr : BstReps s' (some i) nd.right r := by
                refine hr.congr_bst ?_
                intro j hj
                refine hframe j (fun hmem => hdisj hmem (List.mem_cons_of_mem _ hj)) ?_
                rintro rfl
                exact hxtr hj
              obtain ⟨l', r', hins⟩ := Tr.rootIdx_ins x xn.data l1 li lk r1
              refine BstReps.node p i nd (Tr.ins x xn.data (Tr.node l1 li lk r1)) r hni hp ?_
                hrcongr
              rw [hnl]
              exact hreps'
            · intro j hj hjx
              rw [Tr.indices_node] at hj
              simp only [List.mem_append, List.mem_cons] at hj
              push_neg at hj
              exact hframe j hj.1 hjx
        · by_cases hc2 : nd.data < xn.data
          · -- descend / attach to the right
            rw [show Tr.ins x xn.data (Tr.node l i nd.data r) =
                Tr.node l i nd.data (Tr.ins x xn.data r) by
              simp only [Tr.ins, if_neg hc1, if_pos hc2]]
            cases r with
            | leaf =>
              have hnr : nd.right = none := hr.leaf_inv_bst
              refine ⟨(s.set_right i (some x)).set_parent x (some i), ?_, ?_, ?_, rfl, rfl,
                rfl, ?_⟩
              · simp only [Bst.insertLoop, hx, hnd2, if_neg hc1, if_pos hc2, hnr]
              · have hni : Bst.node? ((s.set_right i (some x)).set_parent x (some i)) i =
                    some { nd with right := some x } := by
                  rw [Bst.set_parent, Bst.node?_updateNode_ne_bst _ _ _ _ hxi, Bst.set_right,
                    Bst.node?_updateNode_self_bst, hnd2]
                  rfl
                have hnx : Bst.node? ((s.set_right i (some x)).set_parent x (some i)) x =
                    some { xn with parent := some i } := by
                  rw [Bst.set_parent, Bst.node?_updateNode_self_bst, Bst.set_right,
                    Bst.node?_updateNode_ne_bst _ _ _ _ hxi.symm, hx]
                  rfl
                have hfresh : BstReps ((s.set_right i (some x)).set_parent x (some i)) (some i)
                    (some x) (Tr.node Tr.leaf x xn.data Tr.leaf) := by
                  have hh1 : ({ xn with parent := some i } : BstNode).left = none := hxleft
                  have hh2 : ({ xn with parent := some i } : BstNode).right = none := hxright
                  refine BstReps.node (some i) x { xn with parent := some i } Tr.leaf Tr.leaf
                    hnx rfl ?_ ?_
                  · rw [hh1]
                    exact BstReps.leaf _
                  · rw [hh2]
                    exact BstReps.leaf _
                have hlcongr : BstReps ((s.set_right i (some x)).set_parent x (some i)) (some i)
                    nd.left l := by
                  refine hl.congr_bst ?_
                  intro j hj
                  rw [Bst.set_parent, Bst.node?_updateNode_ne_bst _ _ _ _
                      (by rintro rfl; exact hxtl hj), Bst.set_right,
                    Bst.node?_updateNode_ne_bst _ _ _ _
                      (by rintro rfl; exact hdisj hj (List.mem_cons_self _ _))]
                have := BstReps.node p i { nd with right := some x } l
                  (Tr.node Tr.leaf x xn.data Tr.leaf) hni hp hlcongr hfresh
                simpa only [Tr.ins] using this
              · intro j hj hjx
                simp only [Tr.indices_node, Tr.indices_leaf, List.mem_append,
                  List.mem_cons] at hj
                push_neg at hj
                rw [Bst.set_parent, Bst.node?_updateNode_ne_bst _ _ _ _ (Ne.symm hjx), Bst.set_right,
                  Bst.node?_updateNode_ne_bst _ _ _ _ (Ne.symm hj.2.1)]
              · rw [Bst.set_parent, Bst.dataLength_updateNode_bst, Bst.set_right,
                  Bst.dataLength_updateNode_bst]
            | node l1 li lk r1 =>
              have hnr : nd.right = some li := hr.node_root_bst
              rw [hnr] at hr
              obtain ⟨s', hloop, hreps', hframe, hhead, hfree, hlen, hdl⟩ :=
                ihr hr hkr hxtr hndr fuel hrf
              refine ⟨s', ?_, ?_, ?_, hhead, hfree, hlen, hdl⟩
              · simp only [Bst.insertLoop, hx, hnd2, if_neg hc1, if_pos hc2, hnr]
                exact hloop
              · have hni : Bst.node? s' i = some nd := by
                  rw [hframe i hir hxi.symm]
                  exact hnd2
                have hlcongr : BstReps s' (some i) nd.left l := by
                  refine hl.congr_bst ?_
                  intro j hj
                  refine hframe j (fun hmem => hdisj hj (List.mem_cons_of_mem _ hmem)) ?_
                  rintro rfl
                  exact hxtl hj
                obtain ⟨l', r', hins⟩ := Tr.rootIdx_ins x xn.data l1 li lk r1
                refine BstReps.node p i nd l (Tr.ins x xn.data (Tr.node l1 li lk r1)) hni hp
                  hlcongr ?_
                rw [hnr]
                exact hreps'
              · intro j hj hjx
                rw [Tr.indices_node] at hj
                simp only [List.mem_append, List.mem_cons] at hj
                push_neg at hj
                exact hframe j hj.2.2 hjx
          · exact absurd (le_antisymm (not_lt.mp hc2) (not_lt.mp hc1)) hkd

theorem Bst.insertLoop_dup
    {t : Tr} {s : Bst} {p : Option Nat} {rt x : Nat} {xn : BstNode}
    (hreps : BstReps s p (some rt) t)
    (hx : Bst.node? s x = some xn)
    (hk : xn.data ∈ t.keys)
    (hbst : t.bst) :
    ∀ fuel, t.height < fuel →
    Bst.insertLoop fuel s rt x = .panicked "Duplicate data found in the tree" := by
  induction t generalizing p rt with
  | leaf => cases hreps
  | node l i d r ihl ihr =>
    cases hreps with
    | node _ _ nd _ _ hnd2 hp hl hr =>
      obtain ⟨hbl, hbr, hldb, hrdb⟩ := hbst
      rw [Tr.keys_node] at hk
      rcases List.mem_append.mp hk with hkl | hkdr
      · have hc1 : xn.data < nd.data := hldb _ hkl
        intro fuel hfuel
        match fuel, hfuel with
        | fuel + 1, hfuel =>
          have hlf : l.height < fuel := by
            simp only [Tr.height] at hfuel
            omega
          cases l with
          | leaf => exact absurd hkl (by simp [Tr.keys, Tr.inorder])
          | node l1 li lk r1 =>
            have hnl : nd.left = some li := hl.node_root_bst
            rw [hnl] at hl
            simp only [Bst.insertLoop, hx, hnd2, if_pos hc1, hnl]
            exact ihl hl hkl hbl fuel hlf
      · rcases List.mem_cons.mp hkdr with hkd | hkr
        · intro fuel hfuel
          match fuel, hfuel with
          | fuel + 1, _ =>
            simp only [Bst.insertLoop, hx, hnd2, hkd]
            rw [if_neg (lt_irrefl _), if_neg (lt_irrefl _)]
        · have hc2 : nd.data < xn.data := hrdb _ hkr
          have hc1 : ¬ xn.data < nd.data := not_lt.mpr (le_of_lt hc2)
          intro fuel hfuel
          match fuel, hfuel with
          | fuel + 1, hfuel =>
            have hrf : r.height < fuel := by
              simp only [Tr.height] at hfuel
              omega
            cases r with
            | leaf => exact absurd hkr (by simp [Tr.keys, Tr.inorder])
            | node l1 li lk r1 =>
              have hnr : nd.right = some li := hr.node_root_bst
              rw [hnr] at hr
              simp only [Bst.insertLoop, hx, hnd2, if_neg hc1, if_pos hc2, hnr]
              exact ihr hr hkr hbr fuel hrf

theorem Bst.size_le_cap_bst {s : Bst} {t : Tr} (h : Bst.WF s t) :
    t.size ≤ s.storage.data.length := by
  have := h.count
  omega

theorem Bst.insert_WF_bst {s : Bst} {t : Tr} {k : Int}
    (h : Bst.WF s t) (hk : k ∉ t.keys)
    (hfree : s.storage.free_indices ≠ []) :
    ∃ x s', Bst.insert s k = .ok (.ok (), s') ∧ x ∉ t.indices ∧ Bst.WF s' (Tr.ins x k t) ∧
      s'.storage.data.length = s.storage.data.length ∧
      s'.storage.free_indices = s.storage.free_indices.tail := by
  match hfe : s.storage.free_indices, hfree with
  | x :: rest, _ =>
    have hxfree : x ∈ s.storage.free_indices := by
      rw [hfe]
      exact List.mem_cons_self _ _
    have hxcap : x < s.storage.data.length := h.freeCap x hxfree
    have hxt : x ∉ t.indices := h.freeTree x hxfree
    have hadd : BstStorage.add s.storage k =
        .ok (x, { data := s.storage.data.set x (true, BstNode.new k),
                  length := s.storage.length + 1, free_indices := rest }) := by
      simp [BstStorage.add, hfe]
    set s0 : Bst := { s with storage :=
      { data := s.storage.data.set x (true, BstNode.new k),
        length := s.storage.length + 1, free_indices := rest } } with hs0
    have hnode0 : Bst.node? s0 x = some (BstNode.new k) := by
      simp only [hs0, Bst.node?, List.getElem?_set_eq_of_lt _ hxcap, Option.map_some']
    have hframe0 : ∀ j, j ≠ x → Bst.node? s0 j = Bst.node? s j := by
      intro j hj
      simp only [hs0, Bst.node?, List.getElem?_set_ne (fun h => hj h.symm)]
    have hreps0 : BstReps s0 none s.head t := by
      refine h.reps.congr_bst ?_
      intro i hi
      exact hframe0 i (fun hh => hxt (hh ▸ hi))
    have hdl0 : s0.storage.data.length = s.storage.data.length := by
      simp only [hs0, List.length_set]
    cases hhd : s.head with
    | none =>
      rw [hhd] at hreps0
      cases hreps0 with
      | leaf =>
        refine ⟨x, { s0 with head := some x }, ?_, hxt, ?_, hdl0, rfl⟩
        · simp only [Bst.insert, hadd, hhd]
        · constructor
          · show BstReps _ none (some x) _
            refine BstReps.node none x (BstNode.new k) Tr.leaf Tr.leaf ?_ rfl
              (BstReps.leaf _) (BstReps.leaf _)
            exact hnode0
          · simp [Tr.ins, Tr.indices, Tr.inorder]
          · intro j hj
            have hnd := h.freeNodup
            rw [hfe, List.nodup_cons] at hnd
            intro hmem
            simp only [Tr.ins, Tr.indices, Tr.inorder, List.map_cons, List.map_nil,
              List.nil_append, List.mem_cons, List.not_mem_nil, or_false] at hmem
            exact hnd.1 (hmem ▸ hj)
          · intro j hj
            rw [show ({ s0 with head := some x } : Bst).storage.data.length =
              s.storage.data.length from hdl0]
            refine h.freeCap j ?_
            rw [hfe]
            exact List.mem_cons_of_mem _ hj
          · have hnd := h.freeNodup
            rw [hfe, List.nodup_cons] at hnd
            exact hnd.2
          · have hc := h.count
            rw [hfe] at hc
            simp only [Tr.size, List.length_cons] at hc
            show (Tr.ins x k Tr.leaf).size + rest.length = s0.storage.data.length
            simp only [Tr.ins, Tr.size, hdl0]
            omega
          · simp [Tr.ins, Tr.keys, Tr.inorder]
    | some rt =>
      rw [hhd] at hreps0
      have hfuel : t.height < s0.storage.data.length + 1 := by
        have h1 := Tr.height_le_size t
        have h2 := Bst.size_le_cap_bst h
        omega
      obtain ⟨s', hloop, hreps', hframe, hhead, hfree', hlen, hdl⟩ :=
        Bst.insertLoop_fresh hreps0 hnode0 rfl rfl hk hxt h.nodup
          (s0.storage.data.length + 1) hfuel
      refine ⟨x, s', ?_, hxt, ?_, by rw [hdl, hdl0], by rw [hfree']; exact rfl⟩
      · simp only [Bst.insert, hadd, hhd]
        rw [← hhd]
        exact hloop
      · constructor
        · rw [show s'.head = some rt from hhead.trans hhd]
          exact hreps'
        · exact Tr.nodup_ins x k t hk hxt h.nodup
        · intro j hj
          rw [hfree'] at hj
          have hj2 : j ∈ rest := hj
          have hj' : j ∈ s.storage.free_indices := by
            rw [hfe]
            exact List.mem_cons_of_mem _ hj2
          have hnd := h.freeNodup
          rw [hfe, List.nodup_cons] at hnd
          rw [Tr.mem_indices_ins x k t hk]
          rintro (rfl | hmem)
          · exact hnd.1 hj2
          · exact h.freeTree j hj' hmem
        · intro j hj
          rw [hfree'] at hj
          have hj2 : j ∈ rest := hj
          rw [hdl, hdl0]
          refine h.freeCap j ?_
          rw [hfe]
          exact List.mem_cons_of_mem _ hj2
        · rw [hfree']
          have hnd := h.freeNodup
          rw [hfe, List.nodup_cons] at hnd
          exact hnd.2
        · rw [Tr.size_ins x k t hk, hfree', hdl, hdl0]
          show t.size + 1 + rest.length = s.storage.data.length
          have hc := h.count
          rw [hfe] at hc
          simp only [List.length_cons] at hc
          omega
        · exact Tr.sorted_ins x k t h.sorted

theorem Bst.WF_new_bst (n : Nat) : Bst.WF (Bst.new n) Tr.leaf := by
  constructor
  · exact BstReps.leaf _
  · simp [Tr.indices, Tr.inorder]
  · intro j hj
    simp [Tr.indices, Tr.inorder]
  · intro j hj
    simp only [Bst.new, BstStorage.new] at hj ⊢
    rw [List.mem_reverse] at hj
    simpa using List.mem_range.mp hj
  · simp only [Bst.new, BstStorage.new, List.nodup_reverse]
    exact List.nodup_range _
  · simp [Bst.new, BstStorage.new, Tr.size]
  · simp [Tr.keys, Tr.inorder]

theorem Bst.insertSeq_WF_bst :
    ∀ (ks : List Int) (s : Bst) (t : Tr), Bst.WF s t →
    ks.Nodup → (∀ a ∈ ks, a ∉ t.keys) →
    ks.length + t.size ≤ s.storage.data.length →
    ∃ s' t', Bst.insertSeq s ks = some s' ∧ Bst.WF s' t' ∧
      (∀ a, a ∈ t'.keys ↔ a ∈ ks ∨ a ∈ t.keys)
  | [], s, t, hwf, _, _, _ => ⟨s, t, rfl, hwf, by simp⟩
  | k :: ks, s, t, hwf, hnd, hfreshAll, hlen => by
    have hkfresh : k ∉ t.keys := hfreshAll k (List.mem_cons_self _ _)
    have hfree : s.storage.free_indices ≠ [] := by
      have hc := hwf.count
      intro h0
      rw [h0] at hc
      simp only [List.length_nil, Nat.add_zero] at hc
      simp only [List.length_cons] at hlen
      omega
    obtain ⟨x, s1, hins, hxt, hwf1, hdl, hfree1⟩ := Bst.insert_WF_bst hwf hkfresh hfree
    rw [List.nodup_cons] at hnd
    have hfresh1 : ∀ a ∈ ks, a ∉ (Tr.ins x k t).keys := by
      intro a ha
      rw [Tr.mem_keys_ins]
      rintro (rfl | hmem)
      · exact hnd.1 ha
      · exact hfreshAll a (List.mem_cons_of_mem _ ha) hmem
    have hlen1 : ks.length + (Tr.ins x k t).size ≤ s1.storage.data.length := by
      rw [Tr.size_ins x k t hkfresh, hdl]
      simp only [List.length_cons] at hlen
      omega
    obtain ⟨s', t', hseq, hwf', hmemiff⟩ :=
      Bst.insertSeq_WF_bst ks s1 (Tr.ins x k t) hwf1 hnd.2 hfresh1 hlen1
    refine ⟨s', t', ?_, hwf', ?_⟩
    · simp only [Bst.insertSeq, hins]
      exact hseq
    · intro a
      rw [hmemiff a, Tr.mem_keys_ins]
      simp only [List.mem_cons]
      tauto

theorem Bst.dfsTop_of_WF_bst {s : Bst} {t : Tr} (h : Bst.WF s t) :
    Bst.dfsTop s = some t.keys := by
  refine Bst.dfs_of_reps_bst h.reps _ ?_
  have h1 := Tr.height_le_size t
  have h2 := Bst.size_le_cap_bst h
  omega

/-! ## Slot-level lemmas (balanced variant) -/

theorem Rbt.node?_updateNode_self (s : Rbt) (i : Nat) (f : RbtNode → RbtNode) :
    Rbt.node? (s.updateNode i f) i = (Rbt.node? s i).map f := by
  unfold Rbt.node? Rbt.updateNode
  cases h : s.storage.data[i]? with
  | none => simp [h]
  | some sl => simp [h, List.getElem?_set_self']

theorem Rbt.node?_updateNode_ne (s : Rbt) (i j : Nat) (f : RbtNode → RbtNode) (h : i ≠ j) :
    Rbt.node? (s.updateNode i f) j = Rbt.node? s j := by
  unfold Rbt.node? Rbt.updateNode
  cases h2 : s.storage.data[i]? with
  | none => simp
  | some sl => simp [List.getElem?_set_ne h]

theorem Rbt.head_updateNode (s : Rbt) (i : Nat) (f : RbtNode → RbtNode) :
    (s.updateNode i f).head = s.head := rfl

theorem Rbt.free_updateNode (s : Rbt) (i : Nat) (f : RbtNode → RbtNode) :
    (s.updateNode i f).storage.free_indices = s.storage.free_indices := rfl

theorem Rbt.length_updateNode (s : Rbt) (i : Nat) (f : RbtNode → RbtNode) :
    (s.updateNode i f).storage.length = s.storage.length := rfl

theorem Rbt.dataLength_updateNode (s : Rbt) (i : Nat) (f : RbtNode → RbtNode) :
    (s.updateNode i f).storage.data.length = s.storage.data.length := by
  unfold Rbt.updateNode
  cases h : s.storage.data[i]? with
  | none => simp
  | some sl => simp

/-! ## Extraction lemmas (balanced variant) -/

theorem RbtReps.leaf_inv {s : Rbt} {p o : Option Nat} (h : RbtReps s p o Tr.leaf) :
    o = none := by
  cases h
  rfl

theorem RbtReps.node_root {s : Rbt} {p o : Option Nat} {l : Tr} {i : Nat} {k : Int} {r : Tr}
    (h : RbtReps s p o (Tr.node l i k r)) : o = some i := by
  cases h
  rfl

theorem RbtReps.congr {s s' : Rbt} {p o : Option Nat} {t : Tr}
    (h : RbtReps s p o t)
    (hag : ∀ i ∈ t.indices, (Rbt.node? s' i).map RbtNode.links =
      (Rbt.node? s i).map RbtNode.links) :
    RbtReps s' p o t := by
  induction h with
  | leaf p => exact .leaf p
  | node p i nd l r hnd hp hl hr ihl ihr =>
    have hmi : i ∈ (Tr.node l i nd.data r).indices := by
      rw [Tr.indices_node]
      exact List.mem_append_right _ (List.mem_cons_self _ _)
    have h1 := hag i hmi
    rw [hnd, Option.map_some'] at h1
    obtain ⟨nd', hnd', hlinks⟩ := Option.map_eq_some'.mp h1
    obtain ⟨hdata, hparent, hleft, hright⟩ : nd'.data = nd.data ∧ nd'.parent = nd.parent ∧
        nd'.left = nd.left ∧ nd'.right = nd.right := by
      have := congrArg Prod.fst hlinks
      have h2 := congrArg (fun q => q.2.1) hlinks
      have h3 := congrArg (fun q => q.2.2.1) hlinks
      have h4 := congrArg (fun q => q.2.2.2) hlinks
      exact ⟨this, h2, h3, h4⟩
    have hres := @RbtReps.node s' p i nd' l r hnd' (by rw [hparent]; exact hp) ?_ ?_
    · rw [hdata] at hres
      exact hres
    · rw [hleft]
      refine ihl ?_
      intro j hj
      refine hag j ?_
      rw [Tr.indices_node]
      exact List.mem_append_left _ hj
    · rw [hright]
      refine ihr ?_
      intro j hj
      refine hag j ?_
      rw [Tr.indices_node]
      exact List.mem_append_right _ (List.mem_cons_of_mem _ hj)

theorem RbtReps.congr_eq {s s' : Rbt} {p o : Option Nat} {t : Tr}
    (h : RbtReps s p o t)
    (hag : ∀ i ∈ t.indices, Rbt.node? s' i = Rbt.node? s i) :
    RbtReps s' p o t :=
  h.congr fun i hi => by rw [hag i hi]

theorem RbtReps.set_color {s : Rbt} {p o : Option Nat} {t : Tr}
    (h : RbtReps s p o t) (j : Nat) (c : Bool) :
    RbtReps (s.set_color j c) p o t := by
  refine h.congr ?_
  intro i _
  by_cases hij : i = j
  · subst hij
    rw [Rbt.set_color, Rbt.node?_updateNode_self]
    cases Rbt.node? s i <;> rfl
  · rw [Rbt.set_color, Rbt.node?_updateNode_ne _ _ _ _ (fun hh => hij hh.symm)]

theorem Rbt.dfs_of_reps {t : Tr} {s : Rbt} {p o : Option Nat}
    (h : RbtReps s p o t) :
    ∀ fuel, t.height < fuel → Rbt.dfs fuel s o = some t.keys := by
  induction h with
  | leaf p =>
    intro fuel _
    cases fuel <;> rfl
  | node p i nd l r hnd hp hl hr ihl ihr =>
    intro fuel hfuel
    match fuel, hfuel with
    | fuel + 1, hfuel =>
      have hlf : l.height < fuel := by
        simp only [Tr.height] at hfuel
        omega
      have hrf : r.height < fuel := by
        simp only [Tr.height] at hfuel
        omega
      simp only [Rbt.dfs, hnd, ihl fuel hlf, ihr fuel hrf, Tr.keys_node]

theorem Rbt.insert_node_fresh
    {t : Tr} {s : Rbt} {p : Option Nat} {rt x : Nat} {xn : RbtNode}
    (hreps : RbtReps s p (some rt) t)
    (hx : Rbt.node? s x = some xn)
    (hxleft : xn.left = none) (hxright : xn.right = none)
    (hk : xn.data ∉ t.keys)
    (hxt : x ∉ t.indices)
    (hnd : t.indices.Nodup) :
    ∀ fuel, t.height < fuel →
    ∃ s', Rbt.insert_node fuel s rt x = .ok s' ∧
      RbtReps s' p (some rt) (Tr.ins x xn.data t) ∧
      (∀ j, j ∉ t.indices → j ≠ x → Rbt.node? s' j = Rbt.node? s j) ∧
      (∀ j, (Rbt.node? s' j).map RbtNode.color = (Rbt.node? s j).map RbtNode.color) ∧
      s'.head = s.head ∧
      s'.storage.free_indices = s.storage.free_indices ∧
      s'.storage.length = s.storage.length ∧
      s'.storage.data.length = s.storage.data.length := by
  induction t generalizing p rt with
  | leaf => cases hreps
  | node l i d r ihl ihr =>
    cases hreps with
    | node _ _ nd _ _ hnd2 hp hl hr =>
      rw [Tr.keys_node] at hk
      simp only [List.mem_append, List.mem_cons] at hk
      push_neg at hk
      obtain ⟨hkl, hkd, hkr⟩ := hk
      rw [Tr.indices_node] at hxt hnd
      simp only [List.mem_append, List.mem_cons] at hxt
      push_neg at hxt
      obtain ⟨hxtl, hxi, hxtr⟩ := hxt
      rw [List.nodup_append] at hnd
      obtain ⟨hndl, hndir, hdisj⟩ := hnd
      rw [List.nodup_cons] at hndir
      obtain ⟨hir, hndr⟩ := hndir
      intro fuel hfuel
      match fuel, hfuel with
      | fuel + 1, hfuel =>
        have hlf : l.height < fuel := by
          simp only [Tr.height] at hfuel
          omega
        have hrf : r.height < fuel := by
          simp only [Tr.height] at hfuel
          omega
        by_cases hc1 : xn.data < nd.data
        · rw [show Tr.ins x xn.data (Tr.node l i nd.data r) =
              Tr.node (Tr.ins x xn.data l) i nd.data r by
            simp only [Tr.ins, if_pos hc1]]
          cases l with
          | leaf =>
            have hnl : nd.left = none := hl.leaf_inv
            refine ⟨(s.set_left i (some x)).set_parent x (some i), ?_, ?_, ?_, ?_, rfl, rfl,
              rfl, ?_⟩
            · simp only [Rbt.insert_node, hx, hnd2, if_pos hc1, hnl]
            · have hni : Rbt.node? ((s.set_left i (some x)).set_parent x (some i)) i =
                  some { nd with left := some x } := by
                rw [Rbt.set_parent, Rbt.node?_updateNode_ne _ _ _ _ hxi, Rbt.set_left,
                  Rbt.node?_updateNode_self, hnd2]
                rfl
              have hnx : Rbt.node? ((s.set_left i (some x)).set_parent x (some i)) x =
                  some { xn with parent := some i } := by
                rw [Rbt.set_parent, Rbt.node?_updateNode_self, Rbt.set_left,
                  Rbt.node?_updateNode_ne _ _ _ _ hxi.symm, hx]
                rfl
              have hfresh : RbtReps ((s.set_left i (some x)).set_parent x (some i)) (some i)
                  (some x) (Tr.node Tr.leaf x xn.data Tr.leaf) := by
                have hh1 : ({ xn with parent := some i } : RbtNode).left = none := hxleft
                have hh2 : ({ xn with parent := some i } : RbtNode).right = none := hxright
                refine RbtReps.node (some i) x { xn with parent := some i } Tr.leaf Tr.leaf
                  hnx rfl ?_ ?_
                · rw [hh1]
                  exact RbtReps.leaf _
                · rw [hh2]
                  exact RbtReps.leaf _
              have hrcongr : RbtReps ((s.set_left i (some x)).set_parent x (some i)) (some i)
                  nd.right r := by
                refine hr.congr_eq ?_
                intro j hj
                rw [Rbt.set_parent, Rbt.node?_updateNode_ne _ _ _ _
                    (by rintro rfl; exact hxtr hj), Rbt.set_left,
                  Rbt.node?_updateNode_ne _ _ _ _ (by rintro rfl; exact hir hj)]
              have := RbtReps.node p i { nd with left := some x }
                (Tr.node Tr.leaf x xn.data Tr.leaf) r hni hp hfresh hrcongr
              simpa only [Tr.ins] using this
            · intro j hj hjx
              simp only [Tr.indices_node, Tr.indices_leaf, List.nil_append, List.mem_cons] at hj
              push_neg at hj
              rw [Rbt.set_parent, Rbt.node?_updateNode_ne _ _ _ _ (Ne.symm hjx), Rbt.set_left,
                Rbt.node?_updateNode_ne _ _ _ _ (Ne.symm hj.1)]
            · intro j
              by_cases hji : j = i
              · subst hji
                rw [Rbt.set_parent, Rbt.node?_updateNode_ne _ _ _ _ hxi, Rbt.set_left,
                  Rbt.node?_updateNode_self]
                cases Rbt.node? s j <;> rfl
              · by_cases hjx : j = x
                · subst hjx
                  rw [Rbt.set_parent, Rbt.node?_updateNode_self, Rbt.set_left,
                    Rbt.node?_updateNode_ne _ _ _ _ (Ne.symm hji)]
                  cases Rbt.node? s j <;> rfl
                · rw [Rbt.set_parent, Rbt.node?_updateNode_ne _ _ _ _ (Ne.symm hjx),
                    Rbt.set_left, Rbt.node?_updateNode_ne _ _ _ _ (Ne.symm hji)]
            · rw [Rbt.set_parent, Rbt.dataLength_updateNode, Rbt.set_left,
                Rbt.dataLength_updateNode]
          | node l1 li lk r1 =>
            have hnl : nd.left = some li := hl.node_root
            rw [hnl] at hl
            obtain ⟨s', hloop, hreps', hframe, hcolor, hhead, hfree, hlen, hdl⟩ :=
              ihl hl hkl hxtl hndl fuel hlf
            refine ⟨s', ?_, ?_, ?_, hcolor, hhead, hfree, hlen, hdl⟩
            · simp only [Rbt.insert_node, hx, hnd2, if_pos hc1, hnl]
              exact hloop
            · have hni : Rbt.node? s' i = some nd := by
                rw [hframe i (fun h => hdisj h (List.mem_cons_self _ _)) hxi.symm]
                exact hnd2
              have hrcongr : RbtReps s' (some i) nd.right r := by
                refine hr.congr_eq ?_
                intro j hj
                refine hframe j (fun hmem => hdisj hmem (List.mem_cons_of_mem _ hj)) ?_
                rintro rfl
                exact hxtr hj
              refine RbtReps.node p i nd (Tr.ins x xn.data (Tr.node l1 li lk r1)) r hni hp ?_
                hrcongr
              rw [hnl]
              exact hreps'
            · intro j hj hjx
              rw [Tr.indices_node] at hj
              simp only [List.mem_append, List.mem_cons] at hj
              push_neg at hj
              exact hframe j hj.1 hjx
        · by_cases hc2 : nd.data < xn.data
          · rw [show Tr.ins x xn.data (Tr.node l i nd.data r) =
                Tr.node l i nd.data (Tr.ins x xn.data r) by
              simp only [Tr.ins, if_neg hc1, if_pos hc2]]
            cases r with
            | leaf =>
              have hnr : nd.right = none := hr.leaf_inv
              refine ⟨(s.set_right i (some x)).set_parent x (some i), ?_, ?_, ?_, ?_, rfl, rfl,
                rfl, ?_⟩
              · simp only [Rbt.insert_node, hx, hnd2, if_neg hc1, if_pos hc2, hnr]
              · have hni : Rbt.node? ((s.set_right i (some x)).set_parent x (some i)) i =
                    some { nd with right := some x } := by
                  rw [Rbt.set_parent, Rbt.node?_updateNode_ne _ _ _ _ hxi, Rbt.set_right,
                    Rbt.node?_updateNode_self, hnd2]
                  rfl
                have hnx : Rbt.node? ((s.set_right i (some x)).set_parent x (some i)) x =
                    some { xn with parent := some i } := by
                  rw [Rbt.set_parent, Rbt.node?_updateNode_self, Rbt.set_right,
                    Rbt.node?_updateNode_ne _ _ _ _ hxi.symm, hx]
                  rfl
                have hfresh : RbtReps ((s.set_right i (some x)).set_parent x (some i)) (some i)
                    (some x) (Tr.node Tr.leaf x xn.data Tr.leaf) := by
                  have hh1 : ({ xn with parent := some i } : RbtNode).left = none := hxleft
                  have hh2 : ({ xn with parent := some i } : RbtNode).right = none := hxright
                  refine RbtReps.node (some i) x { xn with parent := some i } Tr.leaf Tr.leaf
                    hnx rfl ?_ ?_
                  · rw [hh1]
                    exact RbtReps.leaf _
                  · rw [hh2]
                    exact RbtReps.leaf _
                have hlcongr : RbtReps ((s.set_right i (some x)).set_parent x (some i)) (some i)
                    nd.left l := by
                  refine hl.congr_eq ?_
                  intro j hj
                  rw [Rbt.set_parent, Rbt.node?_updateNode_ne _ _ _ _
                      (by rintro rfl; exact hxtl hj), Rbt.set_right,
                    Rbt.node?_updateNode_ne _ _ _ _
                      (by rintro rfl; exact hdisj hj (List.mem_cons_self _ _))]
                have := RbtReps.node p i { nd with right := some x } l
                  (Tr.node Tr.leaf x xn.data Tr.leaf) hni hp hlcongr hfresh
                simpa only [Tr.ins] using this
              · intro j hj hjx
                simp only [Tr.indices_node, Tr.indices_leaf, List.mem_append,
                  List.mem_cons] at hj
                push_neg at hj
                rw [Rbt.set_parent, Rbt.node?_updateNode_ne _ _ _ _ (Ne.symm hjx), Rbt.set_right,
                  Rbt.node?_updateNode_ne _ _ _ _ (Ne.symm hj.2.1)]
              · intro j
                by_cases hji : j = i
                · subst hji
                  rw [Rbt.set_parent, Rbt.node?_updateNode_ne _ _ _ _ hxi, Rbt.set_right,
                    Rbt.node?_updateNode_self]
                  cases Rbt.node? s j <;> rfl
                · by_cases hjx : j = x
                  · subst hjx
                    rw [Rbt.set_parent, Rbt.node?_updateNode_self, Rbt.set_right,
                      Rbt.node?_updateNode_ne _ _ _ _ (Ne.symm hji)]
                    cases Rbt.node? s j <;> rfl
                  · rw [Rbt.set_parent, Rbt.node?_updateNode_ne _ _ _ _ (Ne.symm hjx),
                      Rbt.set_right, Rbt.node?_updateNode_ne _ _ _ _ (Ne.symm hji)]
              · rw [Rbt.set_parent, Rbt.dataLength_updateNode, Rbt.set_right,
                  Rbt.dataLength_updateNode]
            | node l1 li lk r1 =>
              have hnr : nd.right = some li := hr.node_root
              rw [hnr] at hr
              obtain ⟨s', hloop, hreps', hframe, hcolor, hhead, hfree, hlen, hdl⟩ :=
                ihr hr hkr hxtr hndr fuel hrf
              refine ⟨s', ?_, ?_, ?_, hcolor, hhead, hfree, hlen, hdl⟩
              · simp only [Rbt.insert_node, hx, hnd2, if_neg hc1, if_pos hc2, hnr]
                exact hloop
              · have hni : Rbt.node? s' i = some nd := by
                  rw [hframe i hir hxi.symm]
                  exact hnd2
                have hlcongr : RbtReps s' (some i) nd.left l := by
                  refine hl.congr_eq ?_
                  intro j hj
                  refine hframe j (fun hmem => hdisj hj (List.mem_cons_of_mem _ hmem)) ?_
                  rintro rfl
                  exact hxtl hj
                refine RbtReps.node p i nd l (Tr.ins x xn.data (Tr.node l1 li lk r1)) hni hp
                  hlcongr ?_
                rw [hnr]
                exact hreps'
              · intro j hj hjx
                rw [Tr.indices_node] at hj
                simp only [List.mem_append, List.mem_cons] at hj
                push_neg at hj
                exact hframe j hj.2.2 hjx
          · exact absurd (le_antisymm (not_lt.mp hc2) (not_lt.mp hc1)) hkd

theorem Rbt.insert_node_dup
    {t : Tr} {s : Rbt} {p : Option Nat} {rt x : Nat} {xn : RbtNode}
    (hreps : RbtReps s p (some rt) t)
    (hx : Rbt.node? s x = some xn)
    (hk : xn.data ∈ t.keys)
    (hbst : t.bst) :
    ∀ fuel, t.height < fuel →
    Rbt.insert_node fuel s rt x = .panicked "Node already exists in the tree." := by
  induction t generalizing p rt with
  | leaf => cases hreps
  | node l i d r ihl ihr =>
    cases hreps with
    | node _ _ nd _ _ hnd2 hp hl hr =>
      obtain ⟨hbl, hbr, hldb, hrdb⟩ := hbst
      rw [Tr.keys_node] at hk
      rcases List.mem_append.mp hk with hkl | hkdr
      · have hc1 : xn.data < nd.data := hldb _ hkl
        intro fuel hfuel
        match fuel, hfuel with
        | fuel + 1, hfuel =>
          have hlf : l.height < fuel := by
            simp only [Tr.height] at hfuel
            omega
          cases l with
          | leaf => exact absurd hkl (by simp [Tr.keys, Tr.inorder])
          | node l1 li lk r1 =>
            have hnl : nd.left = some li := hl.node_root
            rw [hnl] at hl
            simp only [Rbt.insert_node, hx, hnd2, if_pos hc1, hnl]
            exact ihl hl hkl hbl fuel hlf
      · rcases List.mem_cons.mp hkdr with hkd | hkr
        · intro fuel hfuel
          match fuel, hfuel with
          | fuel + 1, _ =>
            simp only [Rbt.insert_node, hx, hnd2, hkd]
            rw [if_neg (lt_irrefl _), if_neg (lt_irrefl _)]
        · have hc2 : nd.data < xn.data := hrdb _ hkr
          have hc1 : ¬ xn.data < nd.data := not_lt.mpr (le_of_lt hc2)
          intro fuel hfuel
          match fuel, hfuel with
          | fuel + 1, hfuel =>
            have hrf : r.height < fuel := by
              simp only [Tr.height] at hfuel
              omega
            cases r with
            | leaf => exact absurd hkr (by simp [Tr.keys, Tr.inorder])
            | node l1 li lk r1 =>
              have hnr : nd.right = some li := hr.node_root
              rw [hnr] at hr
              simp only [Rbt.insert_node, hx, hnd2, if_neg hc1, if_pos hc2, hnr]
              exact ihr hr hkr hbr fuel hrf

/-! ## Path lemmas -/

theorem Tr.mem_of_getPath {t : Tr} {ps : List Bool} {u : Tr}
    (h : Tr.getPath t ps = some u) : ∀ j ∈ u.indices, j ∈ t.indices := by
  induction ps generalizing t with
  | nil =>
    simp only [Tr.getPath] at h
    cases h
    exact fun j hj => hj
  | cons b ps ih =>
    cases t with
    | leaf => simp [Tr.getPath] at h
    | node l i k r =>
      intro j hj
      rw [Tr.indices_node]
      cases b with
      | false =>
        simp only [Tr.getPath] at h
        exact List.mem_append_left _ (ih h j hj)
      | true =>
        simp only [Tr.getPath] at h
        exact List.mem_append_right _ (List.mem_cons_of_mem _ (ih h j hj))

theorem Tr.nodup_getPath {t : Tr} {ps : List Bool} {u : Tr}
    (hnd : t.indices.Nodup) (h : Tr.getPath t ps = some u) : u.indices.Nodup := by
  induction ps generalizing t with
  | nil =>
    simp only [Tr.getPath] at h
    cases h
    exact hnd
  | cons b ps ih =>
    cases t with
    | leaf => simp [Tr.getPath] at h
    | node l i k r =>
      rw [Tr.indices_node, List.nodup_append, List.nodup_cons] at hnd
      cases b with
      | false =>
        simp only [Tr.getPath] at h
        exact ih hnd.1 h
      | true =>
        simp only [Tr.getPath] at h
        exact ih hnd.2.1.2 h

theorem Tr.getPath_concat {t : Tr} {qs : List Bool} {b : Bool} {u : Tr} :
    Tr.getPath t (qs ++ [b]) = some u ↔
    ∃ A y ky B, Tr.getPath t qs = some (Tr.node A y ky B) ∧
      u = (if b then B else A) := by
  induction qs generalizing t with
  | nil =>
    simp only [List.nil_append, Tr.getPath]
    cases t with
    | leaf =>
      cases b <;> simp [Tr.getPath]
    | node l i k r =>
      cases b with
      | false =>
        simp only [Tr.getPath]
        constructor
        · rintro h
          cases h
          exact ⟨_, _, _, _, rfl, rfl⟩
        · rintro ⟨A, y, ky, B, hAB, rfl⟩
          cases hAB
          rfl
      | true =>
        simp only [Tr.getPath]
        constructor
        · rintro h
          cases h
          exact ⟨_, _, _, _, rfl, rfl⟩
        · rintro ⟨A, y, ky, B, hAB, rfl⟩
          cases hAB
          rfl
  | cons c qs ih =>
    cases t with
    | leaf => simp [Tr.getPath]
    | node l i k r =>
      cases c with
      | false =>
        simp only [List.cons_append, Tr.getPath]
        exact ih
      | true =>
        simp only [List.cons_append, Tr.getPath]
        exact ih

theorem Tr.inorder_setPath {t : Tr} {ps : List Bool} {u : Tr}
    (h : Tr.getPath t ps = some u) :
    ∃ pre post, t.inorder = pre ++ u.inorder ++ post ∧
      ∀ u', (Tr.setPath t ps u').inorder = pre ++ u'.inorder ++ post := by
  induction ps generalizing t with
  | nil =>
    simp only [Tr.getPath] at h
    cases h
    exact ⟨[], [], by simp, fun u' => by simp [Tr.setPath]⟩
  | cons b ps ih =>
    cases t with
    | leaf => simp [Tr.getPath] at h
    | node l i k r =>
      cases b with
      | false =>
        simp only [Tr.getPath] at h
        obtain ⟨pre, post, heq, hset⟩ := ih h
        refine ⟨pre, post ++ (i, k) :: r.inorder, ?_, ?_⟩
        · simp only [Tr.inorder, heq]
          simp
        · intro u'
          simp only [Tr.setPath, Tr.inorder, hset u']
          simp
      | true =>
        simp only [Tr.getPath] at h
        obtain ⟨pre, post, heq, hset⟩ := ih h
        refine ⟨l.inorder ++ (i, k) :: pre, post, ?_, ?_⟩
        · simp only [Tr.inorder, heq]
          simp
        · intro u'
          simp only [Tr.setPath, Tr.inorder, hset u']
          simp

theorem Tr.getPath_height {t : Tr} {ps : List Bool} {u : Tr}
    (h : Tr.getPath t ps = some u) : ps.length + u.height ≤ t.height := by
  induction ps generalizing t with
  | nil =>
    simp only [Tr.getPath] at h
    cases h
    simp
  | cons b ps ih =>
    cases t with
    | leaf => simp [Tr.getPath] at h
    | node l i k r =>
      cases b with
      | false =>
        simp only [Tr.getPath] at h
        have := ih h
        simp only [List.length_cons, Tr.height]
        omega
      | true =>
        simp only [Tr.getPath] at h
        have := ih h
        simp only [List.length_cons, Tr.height]
        omega

theorem Tr.exists_path_of_mem {t : Tr} {x : Nat} (h : x ∈ t.indices) :
    ∃ ps A kx B, Tr.getPath t ps = some (Tr.node A x kx B) := by
  induction t with
  | leaf => simp [Tr.indices, Tr.inorder] at h
  | node l i k r ihl ihr =>
    rw [Tr.indices_node] at h
    rcases List.mem_append.mp h with hm | hm
    · obtain ⟨ps, A, kx, B, hp⟩ := ihl hm
      exact ⟨false :: ps, A, kx, B, hp⟩
    · rcases List.mem_cons.mp hm with rfl | hm
      · exact ⟨[], l, k, r, rfl⟩
      · obtain ⟨ps, A, kx, B, hp⟩ := ihr hm
        exact ⟨true :: ps, A, kx, B, hp⟩

theorem Tr.root_notin_deep {l : Tr} {i : Nat} {k : Int} {r : Tr} {c : Bool} {ps : List Bool}
    {u : Tr} (hnd : (Tr.node l i k r).indices.Nodup)
    (h : Tr.getPath (Tr.node l i k r) (c :: ps) = some u) : i ∉ u.indices := by
  rw [Tr.indices_node, List.nodup_append, List.nodup_cons] at hnd
  cases c with
  | false =>
    simp only [Tr.getPath] at h
    intro hmem
    exact hnd.2.2 (Tr.mem_of_getPath h i hmem) (List.mem_cons_self _ _)
  | true =>
    simp only [Tr.getPath] at h
    intro hmem
    exact hnd.2.1.1 (Tr.mem_of_getPath h i hmem)

theorem Tr.setPath_rootIdx {t : Tr} {b : Bool} {ps : List Bool} {u' : Tr} :
    (Tr.setPath t (b :: ps) u').rootIdx = t.rootIdx := by
  cases t with
  | leaf => cases b <;> rfl
  | node l i k r => cases b <;> rfl

theorem Tr.getPath_setPath_parent {t : Tr} {rs : List Bool} {A : Tr} {g : Nat} {kg : Int}
    {B : Tr} (h : Tr.getPath t rs = some (Tr.node A g kg B)) (b : Bool) (u' : Tr) :
    Tr.getPath (Tr.setPath t (rs ++ [b]) u') rs =
      some (Tr.node (if b then A else u') g kg (if b then u' else B)) := by
  induction rs generalizing t with
  | nil =>
    simp only [Tr.getPath] at h
    cases h
    cases b <;> simp [Tr.setPath, Tr.getPath]
  | cons c rs ih =>
    cases t with
    | leaf => simp [Tr.getPath] at h
    | node l i k r =>
      cases c with
      | false =>
        simp only [Tr.getPath] at h
        simp only [List.cons_append, Tr.setPath, Tr.getPath]
        exact ih h
      | true =>
        simp only [Tr.getPath] at h
        simp only [List.cons_append, Tr.setPath, Tr.getPath]
        exact ih h

theorem Tr.nodup_node_parts {l : Tr} {i : Nat} {k : Int} {r : Tr}
    (h : (Tr.node l i k r).indices.Nodup) :
    l.indices.Nodup ∧ r.indices.Nodup ∧ i ∉ l.indices ∧ i ∉ r.indices ∧
      ∀ a ∈ l.indices, a ∉ r.indices := by
  rw [Tr.indices_node, List.nodup_append, List.nodup_cons] at h
  refine ⟨h.1, h.2.1.2, ?_, h.2.1.1, ?_⟩
  · intro hmem
    exact h.2.2 hmem (List.mem_cons_self _ _)
  · intro a ha hmem
    exact h.2.2 ha (List.mem_cons_of_mem _ hmem)

theorem Tr.rootIdx_mem {t : Tr} {x : Nat} (h : t.rootIdx = some x) : x ∈ t.indices := by
  cases t with
  | leaf => cases h
  | node l i k r =>
    cases h
    rw [Tr.indices_node]
    exact List.mem_append_right _ (List.mem_cons_self _ _)

theorem RbtReps.ptr_eq_rootIdx {s : Rbt} {p o : Option Nat} {u : Tr}
    (h : RbtReps s p o u) : o = u.rootIdx := by
  cases h with
  | leaf => rfl
  | node => rfl

theorem RbtReps.at_path {s : Rbt} :
    ∀ {ps : List Bool} {t : Tr} {p o : Option Nat} {u : Tr},
    RbtReps s p o t → Tr.getPath t ps = some u →
    (ps = [] ∧ u = t) ∨
    (∃ qs b A pj kp B, ps = qs ++ [b] ∧
      Tr.getPath t qs = some (Tr.node A pj kp B) ∧ u = (if b then B else A) ∧
      RbtReps s (some pj) u.rootIdx u) := by
  intro ps
  induction ps with
  | nil =>
    intro t p o u h hget
    simp only [Tr.getPath] at hget
    cases hget
    exact Or.inl ⟨rfl, rfl⟩
  | cons b ps ih =>
    intro t p o u h hget
    cases t with
    | leaf => simp [Tr.getPath] at hget
    | node l i k r =>
      cases h with
      | node _ _ nd _ _ hnd2 hp hl hr =>
        cases b with
        | false =>
          simp only [Tr.getPath] at hget
          rcases ih hl hget with ⟨rfl, rfl⟩ | ⟨qs, b', A, pj, kp, B, rfl, hgq, hu, hrepsu⟩
          · refine Or.inr ⟨[], false, _, i, nd.data, _, rfl, rfl, rfl, ?_⟩
            rw [← hl.ptr_eq_rootIdx]
            exact hl
          · refine Or.inr ⟨false :: qs, b', A, pj, kp, B, rfl, ?_, hu, hrepsu⟩
            simp only [Tr.getPath]
            exact hgq
        | true =>
          simp only [Tr.getPath] at hget
          rcases ih hr hget with ⟨rfl, rfl⟩ | ⟨qs, b', A, pj, kp, B, rfl, hgq, hu, hrepsu⟩
          · refine Or.inr ⟨[], true, _, i, nd.data, _, rfl, rfl, rfl, ?_⟩
            rw [← hr.ptr_eq_rootIdx]
            exact hr
          · refine Or.inr ⟨true :: qs, b', A, pj, kp, B, rfl, ?_, hu, hrepsu⟩
            simp only [Tr.getPath]
            exact hgq

theorem RbtReps.reparent {s s' : Rbt} {u : Tr} {p p' o : Option Nat}
    (h : RbtReps s p o u) (hnd : u.indices.Nodup)
    (hroot : ∀ i, u.rootIdx = some i →
      Rbt.node? s' i = (Rbt.node? s i).map (fun nd => { nd with parent := p' }))
    (hinner : ∀ j ∈ u.indices, u.rootIdx ≠ some j → Rbt.node? s' j = Rbt.node? s j) :
    RbtReps s' p' o u := by
  cases h with
  | leaf => exact .leaf _
  | node pp i nd l r hnd2 hp hl hr =>
    obtain ⟨hndl, hndr, hil, hir, hdisj⟩ := Tr.nodup_node_parts hnd
    have hroot' := hroot i rfl
    rw [hnd2, Option.map_some'] at hroot'
    have hres := @RbtReps.node s' p' i { nd with parent := p' } l r hroot' rfl ?_ ?_
    · exact hres
    · refine hl.congr_eq ?_
      intro j hj
      refine hinner j ?_ ?_
      · rw [Tr.indices_node]
        exact List.mem_append_left _ hj
      · intro hji
        injection hji with hji
        subst hji
        exact hil hj
    · refine hr.congr_eq ?_
      intro j hj
      refine hinner j ?_ ?_
      · rw [Tr.indices_node]
        exact List.mem_append_right _ (List.mem_cons_of_mem _ hj)
      · intro hji
        injection hji with hji
        subst hji
        exact hir hj

theorem RbtReps.graft {s s' : Rbt} :
    ∀ {qs : List Bool} {t : Tr} {p o : Option Nat} {A : Tr} {pj : Nat}
      {kp : Int} {B : Tr} {b : Bool} {u u' : Tr} {x x' : Nat},
    RbtReps s p o t → t.indices.Nodup →
    Tr.getPath t qs = some (Tr.node A pj kp B) →
    (if b then B else A) = u →
    u.rootIdx = some x → u'.rootIdx = some x' →
    RbtReps s' (some pj) (some x') u' →
    Rbt.node? s' pj = (Rbt.node? s pj).map (fun nd => nd.childFlip x x') →
    (∀ j, j ∉ u.indices → j ≠ pj → Rbt.node? s' j = Rbt.node? s j) →
    RbtReps s' p o (Tr.setPath t (qs ++ [b]) u') := by
  intro qs
  induction qs with
  | nil =>
    intro t p o A pj kp B b u u' x x' h hnd hget hu hux hux' hreps' hflip hframe
    simp only [Tr.getPath] at hget
    cases hget
    cases h with
    | node _ _ nd _ _ hnd2 hp hl hr =>
      obtain ⟨hndA, hndB, hpjA, hpjB, hdisj⟩ := Tr.nodup_node_parts hnd
      rw [hnd2, Option.map_some'] at hflip
      cases b with
      | false =>
        subst hu
        have hndl : nd.left = some x := by
          rw [hl.ptr_eq_rootIdx] at *
          exact hux
        have hflip2 : RbtNode.childFlip nd x x' = { nd with left := some x' } := by
          rw [RbtNode.childFlip, if_pos hndl]
        rw [hflip2] at hflip
        simp only [List.nil_append, Tr.setPath]
        have hres := @RbtReps.node s' p pj { nd with left := some x' } u' B
          hflip hp ?_ ?_
        · exact hres
        · exact hux' ▸ hreps'
        · refine hr.congr_eq ?_
          intro j hj
          refine hframe j (fun hmem => hdisj j hmem hj) ?_
          intro hji
          subst hji
          exact hpjB hj
      | true =>
        subst hu
        have hndr : nd.right = some x := by
          rw [hr.ptr_eq_rootIdx] at *
          exact hux
        have hndl : nd.left ≠ some x := by
          intro hcon
          have hxA : x ∈ A.indices := Tr.rootIdx_mem (by rw [← hl.ptr_eq_rootIdx]; exact hcon)
          have hxB : x ∈ B.indices := Tr.rootIdx_mem hux
          exact hdisj x hxA hxB
        have hflip2 : RbtNode.childFlip nd x x' = { nd with right := some x' } := by
          rw [RbtNode.childFlip, if_neg hndl, if_pos hndr]
        rw [hflip2] at hflip
        simp only [List.nil_append, Tr.setPath]
        have hres := @RbtReps.node s' p pj { nd with right := some x' } A u'
          hflip hp ?_ ?_
        · exact hres
        · refine hl.congr_eq ?_
          intro j hj
          refine hframe j (fun hmem => hdisj j hj hmem) ?_
          intro hji
          subst hji
          exact hpjA hj
        · exact hux' ▸ hreps'
  | cons c qs ih =>
    intro t p o A pj kp B b u u' x x' h hnd hget hu hux hux' hreps' hflip hframe
    cases t with
    | leaf => simp [Tr.getPath] at hget
    | node l i k r =>
      cases h with
      | node _ _ nd _ _ hnd2 hp hl hr =>
        obtain ⟨hndl, hndr, hil, hir, hdisj⟩ := Tr.nodup_node_parts hnd
        cases c with
        | false =>
          simp only [Tr.getPath] at hget
          have hpjl : pj ∈ l.indices :=
            Tr.mem_of_getPath hget pj (by
              rw [Tr.indices_node]
              exact List.mem_append_right _ (List.mem_cons_self _ _))
          have husub : ∀ j ∈ u.indices, j ∈ l.indices := by
            intro j hj
            refine Tr.mem_of_getPath hget j ?_
            rw [Tr.indices_node]
            cases b with
            | false =>
              subst hu
              exact List.mem_append_left _ hj
            | true =>
              subst hu
              exact List.mem_append_right _ (List.mem_cons_of_mem _ hj)
          simp only [List.cons_append, Tr.setPath]
          have hni : Rbt.node? s' i = some nd := by
            rw [hframe i (fun hmem => hil (husub i hmem)) (fun hji => hil (hji ▸ hpjl))]
            exact hnd2
          have hres := @RbtReps.node s' p i nd (Tr.setPath l (qs ++ [b]) u') r hni hp
            ?_ ?_
          · exact hres
          · exact ih hl hndl hget hu hux hux' hreps' hflip hframe
          · refine hr.congr_eq ?_
            intro j hj
            refine hframe j (fun hmem => hdisj j (husub j hmem) hj) ?_
            intro hji
            subst hji
            exact hdisj j hpjl hj
        | true =>
          simp only [Tr.getPath] at hget
          have hpjr : pj ∈ r.indices :=
            Tr.mem_of_getPath hget pj (by
              rw [Tr.indices_node]
              exact List.mem_append_right _ (List.mem_cons_self _ _))
          have husub : ∀ j ∈ u.indices, j ∈ r.indices := by
            intro j hj
            refine Tr.mem_of_getPath hget j ?_
            rw [Tr.indices_node]
            cases b with
            | false =>
              subst hu
              exact List.mem_append_left _ hj
            | true =>
              subst hu
              exact List.mem_append_right _ (List.mem_cons_of_mem _ hj)
          simp only [List.cons_append, Tr.setPath]
          have hni : Rbt.node? s' i = some nd := by
            rw [hframe i (fun hmem => hir (husub i hmem)) (fun hji => hir (hji ▸ hpjr))]
            exact hnd2
          have hres := @RbtReps.node s' p i nd l (Tr.setPath r (qs ++ [b]) u') hni hp
            ?_ ?_
          · exact hres
          · refine hl.congr_eq ?_
            intro j hj
            refine hframe j (fun hmem => hdisj j hj (husub j hmem)) ?_
            intro hji
            subst hji
            exact hdisj j hj hpjr
          · exact ih hr hndr hget hu hux hux' hreps' hflip hframe

theorem Rbt.rotl_subtree {s sf : Rbt} {q q' : Option Nat} {A : Tr} {x : Nat} {kx : Int}
    {B C : Tr} {y : Nat} {ky : Int}
    (hu : RbtReps s q (some x) (Tr.node A x kx (Tr.node B y ky C)))
    (hndu : (Tr.node A x kx (Tr.node B y ky C)).indices.Nodup)
    {xn yn : RbtNode}
    (hxn : Rbt.node? s x = some xn) (hyn : Rbt.node? s y = some yn)
    (H1 : Rbt.node? sf x = some { xn with right := B.rootIdx, parent := some y })
    (H2 : Rbt.node? sf y = some { yn with left := some x, parent := q' })
    (H3 : ∀ br, B.rootIdx = some br →
      Rbt.node? sf br = (Rbt.node? s br).map (fun nd => { nd with parent := some x }))
    (H4 : ∀ j ∈ (Tr.node A x kx (Tr.node B y ky C)).indices, j ≠ x → j ≠ y →
      B.rootIdx ≠ some j → Rbt.node? sf j = Rbt.node? s j) :
    RbtReps sf q' (some y) (Tr.node (Tr.node A x kx B) y ky C) ∧
    ({ yn with left := some x, parent := q' } : RbtNode).data = ky ∧
    ({ xn with right := B.rootIdx, parent := some y } : RbtNode).data = kx := by
  obtain ⟨hndA, hndYC, hxA, hxYC, hdisjAYC⟩ := Tr.nodup_node_parts hndu
  obtain ⟨hndB, hndC, hyB, hyC, hdisjBC⟩ := Tr.nodup_node_parts hndYC
  have hmemu : ∀ j, j ∈ A.indices ∨ j = x ∨ j ∈ B.indices ∨ j = y ∨ j ∈ C.indices →
      j ∈ (Tr.node A x kx (Tr.node B y ky C)).indices := by
    intro j hj
    rw [Tr.indices_node, Tr.indices_node]
    simp only [List.mem_append, List.mem_cons]
    tauto
  cases hu with
  | node _ _ nd _ _ hnd2 hp hl hr =>
    rw [hxn] at hnd2
    injection hnd2 with hnd2
    subst hnd2
    have hxry : xn.right = some y := hr.node_root
    rw [hxry] at hr
    cases hr with
    | node _ _ ynd _ _ hnd3 hp3 hBrep hCrep =>
      rw [hyn] at hnd3
      injection hnd3 with hnd3
      subst hnd3
      have hylB : yn.left = B.rootIdx := hBrep.ptr_eq_rootIdx
      have hxney : x ≠ y := by
        intro hcon
        exact hxYC (by
          rw [hcon, Tr.indices_node]
          exact List.mem_append_right _ (List.mem_cons_self _ _))
      have hBRnotx : ∀ br, B.rootIdx = some br → br ≠ x := by
        intro br hbr hcon
        subst hcon
        exact hxYC (by
          rw [Tr.indices_node]
          exact List.mem_append_left _ (Tr.rootIdx_mem hbr))
      have hBRnoty : ∀ br, B.rootIdx = some br → br ≠ y := by
        intro br hbr hcon
        subst hcon
        exact hyB (Tr.rootIdx_mem hbr)
      refine ⟨?_, rfl, rfl⟩
      refine RbtReps.node q' y { yn with left := some x, parent := q' }
        (Tr.node A x xn.data B) C H2 rfl ?_ ?_
      · show RbtReps sf (some y) (some x) (Tr.node A x xn.data B)
        have hA : RbtReps sf (some x) xn.left A := by
          refine hl.congr_eq ?_
          intro j hj
          refine H4 j (hmemu j (Or.inl hj)) ?_ ?_ ?_
          · intro hcon
            subst hcon
            exact hxA hj
          · intro hcon
            subst hcon
            exact hdisjAYC j hj (by
              rw [Tr.indices_node]
              exact List.mem_append_right _ (List.mem_cons_self _ _))
          · intro hcon
            have hjB : j ∈ B.indices := Tr.rootIdx_mem hcon
            exact hdisjAYC j hj (by
              rw [Tr.indices_node]
              exact List.mem_append_left _ hjB)
        have hB : RbtReps sf (some x) B.rootIdx B := by
          refine RbtReps.reparent (hylB ▸ hBrep) hndB ?_ ?_
          · intro i hi
            exact H3 i hi
          · intro j hj hne
            refine H4 j (hmemu j (Or.inr (Or.inr (Or.inl hj)))) ?_ ?_ ?_
            · intro hcon
              subst hcon
              exact hxYC (by
                rw [Tr.indices_node]
                exact List.mem_append_left _ hj)
            · intro hcon
              subst hcon
              exact hyB hj
            · intro hcon
              exact hne hcon
        exact RbtReps.node (some y) x { xn with right := B.rootIdx, parent := some y }
          A B H1 rfl hA (by rw [show ({ xn with right := B.rootIdx, parent := some y } :
            RbtNode).right = B.rootIdx from rfl]; exact hB)
      · show RbtReps sf (some y) yn.right C
        refine hCrep.congr_eq ?_
        intro j hj
        refine H4 j (hmemu j (Or.inr (Or.inr (Or.inr (Or.inr hj))))) ?_ ?_ ?_
        · intro hcon
          subst hcon
          exact hxYC (by
            rw [Tr.indices_node]
            exact List.mem_append_right _ (List.mem_cons_of_mem _ hj))
        · intro hcon
          subst hcon
          exact hyC hj
        · intro hcon
          have hjB : j ∈ B.indices := Tr.rootIdx_mem hcon
          exact hdisjBC j hjB hj

theorem Rbt.rotr_subtree {s sf : Rbt} {q q' : Option Nat} {A : Tr} {y : Nat} {ky : Int}
    {B C : Tr} {x : Nat} {kx : Int}
    (hu : RbtReps s q (some x) (Tr.node (Tr.node A y ky B) x kx C))
    (hndu : (Tr.node (Tr.node A y ky B) x kx C).indices.Nodup)
    {xn yn : RbtNode}
    (hxn : Rbt.node? s x = some xn) (hyn : Rbt.node? s y = some yn)
    (H1 : Rbt.node? sf x = some { xn with left := B.rootIdx, parent := some y })
    (H2 : Rbt.node? sf y = some { yn with right := some x, parent := q' })
    (H3 : ∀ br, B.rootIdx = some br →
      Rbt.node? sf br = (Rbt.node? s br).map (fun nd => { nd with parent := some x }))
    (H4 : ∀ j ∈ (Tr.node (Tr.node A y ky B) x kx C).indices, j ≠ x → j ≠ y →
      B.rootIdx ≠ some j → Rbt.node? sf j = Rbt.node? s j) :
    RbtReps sf q' (some y) (Tr.node A y ky (Tr.node B x kx C)) ∧
    ({ yn with right := some x, parent := q' } : RbtNode).data = ky ∧
    ({ xn with left := B.rootIdx, parent := some y } : RbtNode).data = kx := by
  obtain ⟨hndAYB, hndC, hxAYB, hxC, hdisjAYBC⟩ := Tr.nodup_node_parts hndu
  obtain ⟨hndA, hndB, hyA, hyB, hdisjAB⟩ := Tr.nodup_node_parts hndAYB
  have hmemu : ∀ j, j ∈ A.indices ∨ j = y ∨ j ∈ B.indices ∨ j = x ∨ j ∈ C.indices →
      j ∈ (Tr.node (Tr.node A y ky B) x kx C).indices := by
    intro j hj
    rw [Tr.indices_node, Tr.indices_node]
    simp only [List.mem_append, List.mem_cons]
    tauto
  cases hu with
  | node _ _ nd _ _ hnd2 hp hl hr =>
    rw [hxn] at hnd2
    injection hnd2 with hnd2
    subst hnd2
    have hxly : xn.left = some y := hl.node_root
    rw [hxly] at hl
    cases hl with
    | node _ _ ynd _ _ hnd3 hp3 hArep hBrep =>
      rw [hyn] at hnd3
      injection hnd3 with hnd3
      subst hnd3
      have hyrB : yn.right = B.rootIdx := hBrep.ptr_eq_rootIdx
      have hxney : x ≠ y := by
        intro hcon
        exact hxAYB (by
          rw [hcon, Tr.indices_node]
          exact List.mem_append_right _ (List.mem_cons_self _ _))
      refine ⟨?_, rfl, rfl⟩
      refine RbtReps.node q' y { yn with right := some x, parent := q' }
        A (Tr.node B x xn.data C) H2 rfl ?_ ?_
      · show RbtReps sf (some y) yn.left A
        refine hArep.congr_eq ?_
        intro j hj
        refine H4 j (hmemu j (Or.inl hj)) ?_ ?_ ?_
        · intro hcon
          subst hcon
          exact hxAYB (by
            rw [Tr.indices_node]
            exact List.mem_append_left _ hj)
        · intro hcon
          subst hcon
          exact hyA hj
        · intro hcon
          have hjB : j ∈ B.indices := Tr.rootIdx_mem hcon
          exact hdisjAB j hj hjB
      · show RbtReps sf (some y) (some x) (Tr.node B x xn.data C)
        have hB : RbtReps sf (some x) B.rootIdx B := by
          refine RbtReps.reparent (hyrB ▸ hBrep) hndB ?_ ?_
          · intro i hi
            exact H3 i hi
          · intro j hj hne
            refine H4 j (hmemu j (Or.inr (Or.inr (Or.inl hj)))) ?_ ?_ ?_
            · intro hcon
              subst hcon
              exact hxAYB (by
                rw [Tr.indices_node]
                exact List.mem_append_right _ (List.mem_cons_of_mem _ hj))
            · intro hcon
              subst hcon
              exact hyB hj
            · intro hcon
              exact hne hcon
        have hC : RbtReps sf (some x) xn.right C := by
          refine hr.congr_eq ?_
          intro j hj
          refine H4 j (hmemu j (Or.inr (Or.inr (Or.inr (Or.inr hj))))) ?_ ?_ ?_
          · intro hcon
            subst hcon
            exact hxC hj
          · intro hcon
            subst hcon
            exact hdisjAYBC j (by
              rw [Tr.indices_node]
              exact List.mem_append_right _ (List.mem_cons_self _ _)) hj
          · intro hcon
            have hjB : j ∈ B.indices := Tr.rootIdx_mem hcon
            exact hdisjAYBC j (by
              rw [Tr.indices_node]
              exact List.mem_append_right _ (List.mem_cons_of_mem _ hjB)) hj
        exact RbtReps.node (some y) x { xn with left := B.rootIdx, parent := some y }
          B C H1 rfl (by rw [show ({ xn with left := B.rootIdx, parent := some y } :
            RbtNode).left = B.rootIdx from rfl]; exact hB) hC

theorem Rbt.color_updateNode (s : Rbt) (i : Nat) (f : RbtNode → RbtNode)
    (hf : ∀ nd, (f nd).color = nd.color) :
    ∀ j, (Rbt.node? (s.updateNode i f) j).map RbtNode.color =
      (Rbt.node? s j).map RbtNode.color := by
  intro j
  by_cases hij : i = j
  · subst hij
    rw [Rbt.node?_updateNode_self]
    cases Rbt.node? s i with
    | none => rfl
    | some nd => simp [hf nd]
  · rw [Rbt.node?_updateNode_ne _ _ _ _ hij]

theorem Rbt.color_set_left (s : Rbt) (i : Nat) (v : Option Nat) :
    ∀ j, (Rbt.node? (s.set_left i v) j).map RbtNode.color =
      (Rbt.node? s j).map RbtNode.color :=
  Rbt.color_updateNode s i _ (fun _ => rfl)

theorem Rbt.color_set_right (s : Rbt) (i : Nat) (v : Option Nat) :
    ∀ j, (Rbt.node? (s.set_right i v) j).map RbtNode.color =
      (Rbt.node? s j).map RbtNode.color :=
  Rbt.color_updateNode s i _ (fun _ => rfl)

theorem Rbt.color_set_parent (s : Rbt) (i : Nat) (v : Option Nat) :
    ∀ j, (Rbt.node? (s.set_parent i v) j).map RbtNode.color =
      (Rbt.node? s j).map RbtNode.color :=
  Rbt.color_updateNode s i _ (fun _ => rfl)

theorem Rbt.rotl_writes {s s2 s3 : Rbt} {x y : Nat} {xn yn : RbtNode}
    (hxn : Rbt.node? s x = some xn)
    (hyn : Rbt.node? s y = some yn)
    (hxy : x ≠ y)
    (hylx : yn.left ≠ some x) (hyly : yn.left ≠ some y)
    (hs2none : yn.left = none → s2 = s.set_right x yn.left)
    (hs2some : ∀ br, yn.left = some br →
      s2 = (s.set_right x yn.left).set_parent br (some x))
    (hs3 : s3 = (s2.set_left y (some x)).set_parent x (some y)) :
    Rbt.node? s3 x = some { xn with right := yn.left, parent := some y } ∧
    Rbt.node? s3 y = some { yn with left := some x } ∧
    (∀ br, yn.left = some br →
      Rbt.node? s3 br = (Rbt.node? s br).map (fun nd => { nd with parent := some x })) ∧
    (∀ j, j ≠ x → j ≠ y → yn.left ≠ some j → Rbt.node? s3 j = Rbt.node? s j) ∧
    s3.head = s.head ∧
    (∀ j, (Rbt.node? s3 j).map RbtNode.color = (Rbt.node? s j).map RbtNode.color) ∧
    s3.storage.free_indices = s.storage.free_indices ∧
    s3.storage.length = s.storage.length ∧
    s3.storage.data.length = s.storage.data.length := by
  cases hyl : yn.left with
  | none =>
    have hs3' : s3 = ((s.set_right x yn.left).set_left y (some x)).set_parent x (some y) := by
      rw [hs3, hs2none hyl]
    subst hs3'
    refine ⟨?_, ?_, ?_, ?_, rfl, ?_, rfl, rfl, ?_⟩
    · rw [Rbt.set_parent, Rbt.node?_updateNode_self, Rbt.set_left,
        Rbt.node?_updateNode_ne _ _ _ _ (Ne.symm hxy), Rbt.set_right,
        Rbt.node?_updateNode_self, hxn]
      simp [hyl]
    · rw [Rbt.set_parent, Rbt.node?_updateNode_ne _ _ _ _ hxy, Rbt.set_left,
        Rbt.node?_updateNode_self, Rbt.set_right,
        Rbt.node?_updateNode_ne _ _ _ _ hxy, hyn]
      rfl
    · intro br hbr
      cases hbr
    · intro j hjx hjy _
      rw [Rbt.set_parent, Rbt.node?_updateNode_ne _ _ _ _ (Ne.symm hjx), Rbt.set_left,
        Rbt.node?_updateNode_ne _ _ _ _ (Ne.symm hjy), Rbt.set_right,
        Rbt.node?_updateNode_ne _ _ _ _ (Ne.symm hjx)]
    · intro j
      rw [Rbt.color_set_parent _ _ _ j, Rbt.color_set_left _ _ _ j,
        Rbt.color_set_right _ _ _ j]
    · rw [Rbt.set_parent, Rbt.dataLength_updateNode, Rbt.set_left,
        Rbt.dataLength_updateNode, Rbt.set_right, Rbt.dataLength_updateNode]
  | some br =>
    have hbrx : br ≠ x := fun h => hylx (hyl.trans (h ▸ rfl))
    have hbry : br ≠ y := fun h => hyly (hyl.trans (h ▸ rfl))
    have hs3' : s3 = (((s.set_right x yn.left).set_parent br (some x)).set_left y
        (some x)).set_parent x (some y) := by
      rw [hs3, hs2some br hyl]
    subst hs3'
    refine ⟨?_, ?_, ?_, ?_, rfl, ?_, rfl, rfl, ?_⟩
    · rw [Rbt.set_parent, Rbt.node?_updateNode_self, Rbt.set_left,
        Rbt.node?_updateNode_ne _ _ _ _ (Ne.symm hxy), Rbt.set_parent,
        Rbt.node?_updateNode_ne _ _ _ _ hbrx, Rbt.set_right,
        Rbt.node?_updateNode_self, hxn]
      simp [hyl]
    · rw [Rbt.set_parent, Rbt.node?_updateNode_ne _ _ _ _ hxy, Rbt.set_left,
        Rbt.node?_updateNode_self, Rbt.set_parent,
        Rbt.node?_updateNode_ne _ _ _ _ hbry, Rbt.set_right,
        Rbt.node?_updateNode_ne _ _ _ _ hxy, hyn]
      rfl
    · intro br2 hbr2
      injection hbr2 with hbr2
      subst hbr2
      rw [Rbt.set_parent, Rbt.node?_updateNode_ne _ _ _ _ (fun h => hbrx h.symm),
        Rbt.set_left, Rbt.node?_updateNode_ne _ _ _ _ (fun h => hbry h.symm),
        Rbt.set_parent, Rbt.node?_updateNode_self, Rbt.set_right,
        Rbt.node?_updateNode_ne _ _ _ _ (fun h => hbrx h.symm)]
    · intro j hjx hjy hjbr
      have hjbr2 : br ≠ j := fun h => hjbr (h ▸ rfl)
      rw [Rbt.set_parent, Rbt.node?_updateNode_ne _ _ _ _ (Ne.symm hjx), Rbt.set_left,
        Rbt.node?_updateNode_ne _ _ _ _ (Ne.symm hjy), Rbt.set_parent,
        Rbt.node?_updateNode_ne _ _ _ _ hjbr2, Rbt.set_right,
        Rbt.node?_updateNode_ne _ _ _ _ (Ne.symm hjx)]
    · intro j
      rw [Rbt.color_set_parent _ _ _ j, Rbt.color_set_left _ _ _ j,
        Rbt.color_set_parent _ _ _ j, Rbt.color_set_right _ _ _ j]
    · rw [Rbt.set_parent, Rbt.dataLength_updateNode, Rbt.set_left,
        Rbt.dataLength_updateNode, Rbt.set_parent, Rbt.dataLength_updateNode,
        Rbt.set_right, Rbt.dataLength_updateNode]

/-- Characterisation of the write sequence inside `Rbt.rotate_right` up to (and
including) the `s3` state, mirror image of `Rbt.rotl_writes`. -/
theorem Rbt.rotr_writes {s s2 s3 : Rbt} {x y : Nat} {xn yn : RbtNode}
    (hxn : Rbt.node? s x = some xn)
    (hyn : Rbt.node? s y = some yn)
    (hxy : x ≠ y)
    (hyrx : yn.right ≠ some x) (hyry : yn.right ≠ some y)
    (hs2none : yn.right = none → s2 = s.set_left x yn.right)
    (hs2some : ∀ br, yn.right = some br →
      s2 = (s.set_left x yn.right).set_parent br (some x))
    (hs3 : s3 = (s2.set_right y (some x)).set_parent x (some y)) :
    Rbt.node? s3 x = some { xn with left := yn.right, parent := some y } ∧
    Rbt.node? s3 y = some { yn with right := some x } ∧
    (∀ br, yn.right = some br →
      Rbt.node? s3 br = (Rbt.node? s br).map (fun nd => { nd with parent := some x })) ∧
    (∀ j, j ≠ x → j ≠ y → yn.right ≠ some j → Rbt.node? s3 j = Rbt.node? s j) ∧
    s3.head = s.head ∧
    (∀ j, (Rbt.node? s3 j).map RbtNode.color = (Rbt.node? s j).map RbtNode.color) ∧
    s3.storage.free_indices = s.storage.free_indices ∧
    s3.storage.length = s.storage.length ∧
    s3.storage.data.length = s.storage.data.length := by
  cases hyl : yn.right with
  | none =>
    have hs3' : s3 = ((s.set_left x yn.right).set_right y (some x)).set_parent x (some y) := by
      rw [hs3, hs2none hyl]
    subst hs3'
    refine ⟨?_, ?_, ?_, ?_, rfl, ?_, rfl, rfl, ?_⟩
    · rw [Rbt.set_parent, Rbt.node?_updateNode_self, Rbt.set_right,
        Rbt.node?_updateNode_ne _ _ _ _ (Ne.symm hxy), Rbt.set_left,
        Rbt.node?_updateNode_self, hxn]
      simp [hyl]
    · rw [Rbt.set_parent, Rbt.node?_updateNode_ne _ _ _ _ hxy, Rbt.set_right,
        Rbt.node?_updateNode_self, Rbt.set_left,
        Rbt.node?_updateNode_ne _ _ _ _ hxy, hyn]
      rfl
    · intro br hbr
      cases hbr
    · intro j hjx hjy _
      rw [Rbt.set_parent, Rbt.node?_updateNode_ne _ _ _ _ (Ne.symm hjx), Rbt.set_right,
        Rbt.node?_updateNode_ne _ _ _ _ (Ne.symm hjy), Rbt.set_left,
        Rbt.node?_updateNode_ne _ _ _ _ (Ne.symm hjx)]
    · intro j
      rw [Rbt.color_set_parent _ _ _ j, Rbt.color_set_right _ _ _ j,
        Rbt.color_set_left _ _ _ j]
    · rw [Rbt.set_parent, Rbt.dataLength_updateNode, Rbt.set_right,
        Rbt.dataLength_updateNode, Rbt.set_left, Rbt.dataLength_updateNode]
  | some br =>
    have hbrx : br ≠ x := fun h => hyrx (hyl.trans (h ▸ rfl))
    have hbry : br ≠ y := fun h => hyry (hyl.trans (h ▸ rfl))
    have hs3' : s3 = (((s.set_left x yn.right).set_parent br (some x)).set_right y
        (some x)).set_parent x (some y) := by
      rw [hs3, hs2some br hyl]
    subst hs3'
    refine ⟨?_, ?_, ?_, ?_, rfl, ?_, rfl, rfl, ?_⟩
    · rw [Rbt.set_parent, Rbt.node?_updateNode_self, Rbt.set_right,
        Rbt.node?_updateNode_ne _ _ _ _ (Ne.symm hxy), Rbt.set_parent,
        Rbt.node?_updateNode_ne _ _ _ _ hbrx, Rbt.set_left,
        Rbt.node?_updateNode_self, hxn]
      simp [hyl]
    · rw [Rbt.set_parent, Rbt.node?_updateNode_ne _ _ _ _ hxy, Rbt.set_right,
        Rbt.node?_updateNode_self, Rbt.set_parent,
        Rbt.node?_updateNode_ne _ _ _ _ hbry, Rbt.set_left,
        Rbt.node?_updateNode_ne _ _ _ _ hxy, hyn]
      rfl
    · intro br2 hbr2
      injection hbr2 with hbr2
      subst hbr2
      rw [Rbt.set_parent, Rbt.node?_updateNode_ne _ _ _ _ (fun h => hbrx h.symm),
        Rbt.set_right, Rbt.node?_updateNode_ne _ _ _ _ (fun h => hbry h.symm),
        Rbt.set_parent, Rbt.node?_updateNode_self, Rbt.set_left,
        Rbt.node?_updateNode_ne _ _ _ _ (fun h => hbrx h.symm)]
    · intro j hjx hjy hjbr
      have hjbr2 : br ≠ j := fun h => hjbr (h ▸ rfl)
      rw [Rbt.set_parent, Rbt.node?_updateNode_ne _ _ _ _ (Ne.symm hjx), Rbt.set_right,
        Rbt.node?_updateNode_ne _ _ _ _ (Ne.symm hjy), Rbt.set_parent,
        Rbt.node?_updateNode_ne _ _ _ _ hjbr2, Rbt.set_left,
        Rbt.node?_updateNode_ne _ _ _ _ (Ne.symm hjx)]
    · intro j
      rw [Rbt.color_set_parent _ _ _ j, Rbt.color_set_right _ _ _ j,
        Rbt.color_set_parent _ _ _ j, Rbt.color_set_left _ _ _ j]
    · rw [Rbt.set_parent, Rbt.dataLength_updateNode, Rbt.set_right,
        Rbt.dataLength_updateNode, Rbt.set_parent, Rbt.dataLength_updateNode,
        Rbt.set_left, Rbt.dataLength_updateNode]

theorem Rbt.node?_setHead (s : Rbt) (h : Option Nat) (j : Nat) :
    Rbt.node? { s with head := h } j = Rbt.node? s j := rfl

theorem RbtReps.getPath_reps {s : Rbt} {t u : Tr} {p o : Option Nat} {ps : List Bool}
    (h : RbtReps s p o t) (hget : Tr.getPath t ps = some u) :
    ∃ q, RbtReps s q u.rootIdx u := by
  rcases h.at_path hget with ⟨rfl, rfl⟩ | ⟨qs, b, A, pj, kp, B, rfl, hgq, hueq, hrepsu⟩
  · refine ⟨p, ?_⟩
    rw [← h.ptr_eq_rootIdx]
    exact h
  · exact ⟨some pj, hrepsu⟩

theorem Tr.setPath_nil (t u' : Tr) : Tr.setPath t [] u' = u' := by
  cases t <;> rfl

theorem Tr.rootIdx_setPath_concat {t : Tr} {qs : List Bool} {b : Bool} {u' : Tr} :
    (Tr.setPath t (qs ++ [b]) u').rootIdx = t.rootIdx := by
  cases qs with
  | nil => exact Tr.setPath_rootIdx
  | cons c l => exact Tr.setPath_rootIdx

theorem Tr.inorder_setPath_eq {t u u' : Tr} {ps : List Bool}
    (hget : Tr.getPath t ps = some u) (h : u'.inorder = u.inorder) :
    (Tr.setPath t ps u').inorder = t.inorder := by
  obtain ⟨pre, post, ht, hset⟩ := Tr.inorder_setPath hget
  rw [hset u', h, ht]

theorem Tr.inorder_rotl {A B C : Tr} {x y : Nat} {kx ky : Int} :
    (Tr.node (Tr.node A x kx B) y ky C).inorder =
      (Tr.node A x kx (Tr.node B y ky C)).inorder := by
  simp [Tr.inorder, List.append_assoc]

/-- Core of the left-rotation simulation: recover the slot records of `x`
and its right child `y`, characterise the `s3` write stage of
`Rbt.rotate_left`, and show that any final state agreeing with `s3` away
from `y` (plus one parent rewrite at `y`) represents the rotated subtree. -/
theorem Rbt.rotl_core {s : Rbt} {q : Option Nat} {A B C : Tr} {x y : Nat} {kx ky : Int}
    (hu : RbtReps s q (some x) (Tr.node A x kx (Tr.node B y ky C)))
    (hndu : (Tr.node A x kx (Tr.node B y ky C)).indices.Nodup) :
    ∃ xn yn : RbtNode,
      Rbt.node? s x = some xn ∧ xn.right = some y ∧ xn.parent = q ∧
      Rbt.node? s y = some yn ∧ yn.left = B.rootIdx ∧ x ≠ y ∧
      (∀ s3 : Rbt,
        s3 = ((match yn.left with
               | some l => (s.set_right x yn.left).set_parent l (some x)
               | none => s.set_right x yn.left).set_left y (some x)).set_parent x (some y) →
        (∀ j, j ≠ x → j ≠ y → B.rootIdx ≠ some j → Rbt.node? s3 j = Rbt.node? s j) ∧
        s3.head = s.head ∧
        (∀ j, (Rbt.node? s3 j).map RbtNode.color = (Rbt.node? s j).map RbtNode.color) ∧
        s3.storage.free_indices = s.storage.free_indices ∧
        s3.storage.length = s.storage.length ∧
        s3.storage.data.length = s.storage.data.length ∧
        ∀ (sf : Rbt) (q' : Option Nat),
          (∀ j ∈ (Tr.node A x kx (Tr.node B y ky C)).indices, j ≠ y →
            Rbt.node? sf j = Rbt.node? s3 j) →
          Rbt.node? sf y = (Rbt.node? s3 y).map (fun nd => { nd with parent := q' }) →
          RbtReps sf q' (some y) (Tr.node (Tr.node A x kx B) y ky C)) := by
  have hu2 := hu
  obtain ⟨hndA, hndYC, hxA, hxYC, hdisjAYC⟩ := Tr.nodup_node_parts hndu
  obtain ⟨hndB, hndC, hyB, hyC, hdisjBC⟩ := Tr.nodup_node_parts hndYC
  have hymem : y ∈ (Tr.node B y ky C).indices := Tr.rootIdx_mem rfl
  have hxy : x ≠ y := by
    intro h
    subst h
    exact hxYC hymem
  have hxmemU : x ∈ (Tr.node A x kx (Tr.node B y ky C)).indices := Tr.rootIdx_mem rfl
  cases hu with
  | node _ _ xn _ _ hxn hxp hlA hrYC =>
    have hxry : xn.right = some y := hrYC.node_root
    rw [hxry] at hrYC
    cases hrYC with
    | node _ _ yn _ _ hyn hyp hlB hrC =>
      have hylB : yn.left = B.rootIdx := hlB.ptr_eq_rootIdx
      have hylx : yn.left ≠ some x := by
        rw [hylB]
        intro h
        refine hxYC ?_
        rw [Tr.indices_node]
        exact List.mem_append_left _ (Tr.rootIdx_mem h)
      have hyly : yn.left ≠ some y := by
        rw [hylB]
        intro h
        exact hyB (Tr.rootIdx_mem h)
      refine ⟨xn, yn, hxn, hxry, hxp, hyn, hylB, hxy, ?_⟩
      intro s3 hs3
      have hW := @Rbt.rotl_writes s
        (match yn.left with
         | some l => (s.set_right x yn.left).set_parent l (some x)
         | none => s.set_right x yn.left) s3 x y xn yn hxn hyn hxy hylx hyly
        (fun h => by rw [h]) (fun br h => by rw [h]) hs3
      obtain ⟨h3x, h3y, h3br, h3f, h3head, h3col, h3free, h3len, h3dlen⟩ := hW
      have h3f' : ∀ j, j ≠ x → j ≠ y → B.rootIdx ≠ some j →
          Rbt.node? s3 j = Rbt.node? s j := by
        intro j hjx hjy hjB
        refine h3f j hjx hjy ?_
        rw [hylB]
        exact hjB
      refine ⟨h3f', h3head, h3col, h3free, h3len, h3dlen, ?_⟩
      intro sf q' hfr hy
      have hX1 : Rbt.node? sf x = some { xn with right := B.rootIdx, parent := some y } := by
        rw [hfr x hxmemU hxy, h3x, hylB]
      have hX2 : Rbt.node? sf y = some { yn with left := some x, parent := q' } := by
        rw [hy, h3y]
        rfl
      have hX3 : ∀ br, B.rootIdx = some br →
          Rbt.node? sf br = (Rbt.node? s br).map (fun nd => { nd with parent := some x }) := by
        intro br hbr
        have hbrB : br ∈ B.indices := Tr.rootIdx_mem hbr
        have hbry : br ≠ y := by
          intro h
          subst h
          exact hyB hbrB
        have hbrU : br ∈ (Tr.node A x xn.data (Tr.node B y yn.data C)).indices := by
          rw [Tr.indices_node]
          refine List.mem_append_right _ (List.mem_cons_of_mem _ ?_)
          rw [Tr.indices_node]
          exact List.mem_append_left _ hbrB
        rw [hfr br hbrU hbry]
        refine h3br br ?_
        rw [hylB]
        exact hbr
      have hX4 : ∀ j ∈ (Tr.node A x xn.data (Tr.node B y yn.data C)).indices,
          j ≠ x → j ≠ y → B.rootIdx ≠ some j → Rbt.node? sf j = Rbt.node? s j := by
        intro j hj hjx hjy hjB
        rw [hfr j hj hjy]
        exact h3f' j hjx hjy hjB
      exact (Rbt.rotl_subtree hu2 hndu hxn hyn hX1 hX2 hX3 hX4).1

/-- Simulation of `Rbt.rotate_left` at a node `x` (path `ps`) with a right
child `y`: the call succeeds, the new state represents the tree with the
subtree at `ps` left-rotated, the head tracks the (possibly new) root, and
slots outside the tree, colours, and the storage bookkeeping are untouched. -/
theorem Rbt.rotate_left_sim {s : Rbt} {t : Tr} {rt : Nat}
    (hreps : RbtReps s none (some rt) t) (hhead : s.head = some rt)
    (hnd : t.indices.Nodup)
    {ps : List Bool} {A B C : Tr} {x y : Nat} {kx ky : Int}
    (hget : Tr.getPath t ps = some (Tr.node A x kx (Tr.node B y ky C))) :
    ∃ s' rt',
      Rbt.rotate_left s x = .ok s' ∧
      RbtReps s' none (some rt') (Tr.setPath t ps (Tr.node (Tr.node A x kx B) y ky C)) ∧
      s'.head = some rt' ∧
      (Tr.setPath t ps (Tr.node (Tr.node A x kx B) y ky C)).rootIdx = some rt' ∧
      (∀ j, j ∉ t.indices → Rbt.node? s' j = Rbt.node? s j) ∧
      (∀ j, (Rbt.node? s' j).map RbtNode.color = (Rbt.node? s j).map RbtNode.color) ∧
      s'.storage.free_indices = s.storage.free_indices ∧
      s'.storage.length = s.storage.length ∧
      s'.storage.data.length = s.storage.data.length := by
  have hndu := Tr.nodup_getPath hnd hget
  have hxmemU : x ∈ (Tr.node A x kx (Tr.node B y ky C)).indices := Tr.rootIdx_mem rfl
  have hymemU : y ∈ (Tr.node A x kx (Tr.node B y ky C)).indices := by
    rw [Tr.indices_node]
    exact List.mem_append_right _ (List.mem_cons_of_mem _ (Tr.rootIdx_mem rfl))
  have hBU : ∀ a ∈ B.indices, a ∈ (Tr.node A x kx (Tr.node B y ky C)).indices := by
    intro a ha
    rw [Tr.indices_node]
    refine List.mem_append_right _ (List.mem_cons_of_mem _ ?_)
    rw [Tr.indices_node]
    exact List.mem_append_left _ ha
  rcases hreps.at_path hget with ⟨rfl, rfl⟩ | ⟨qs, b, Aq, pj, kp, Bq, rfl, hgq, hueq, hurep⟩
  · have h0 : some rt = some x := hreps.ptr_eq_rootIdx
    injection h0 with hrtx
    rw [hrtx] at hreps
    obtain ⟨xn, yn, hxn, hxry, hxp, hyn, hylB, hxy, hcore⟩ := Rbt.rotl_core hreps hndu
    obtain ⟨h3f, h3head, h3col, h3free, h3len, h3dlen, hsub⟩ := hcore _ rfl
    have hfr0 : ∀ j, j ≠ y →
        Rbt.node? (({ ((match yn.left with
          | some l => (s.set_right x yn.left).set_parent l (some x)
          | none => s.set_right x yn.left).set_left y (some x)).set_parent x (some y)
          with head := some y }).set_parent y none) j =
        Rbt.node? (((match yn.left with
          | some l => (s.set_right x yn.left).set_parent l (some x)
          | none => s.set_right x yn.left).set_left y (some x)).set_parent x (some y)) j := by
      intro j hjy
      rw [Rbt.set_parent, Rbt.node?_updateNode_ne _ _ _ _ (Ne.symm hjy), Rbt.node?_setHead]
    have hyc :
        Rbt.node? (({ ((match yn.left with
          | some l => (s.set_right x yn.left).set_parent l (some x)
          | none => s.set_right x yn.left).set_left y (some x)).set_parent x (some y)
          with head := some y }).set_parent y none) y =
        (Rbt.node? (((match yn.left with
          | some l => (s.set_right x yn.left).set_parent l (some x)
          | none => s.set_right x yn.left).set_left y (some x)).set_parent x (some y)) y).map
          (fun nd => { nd with parent := none }) := by
      rw [Rbt.set_parent, Rbt.node?_updateNode_self, Rbt.node?_setHead]
    refine ⟨({ ((match yn.left with
          | some l => (s.set_right x yn.left).set_parent l (some x)
          | none => s.set_right x yn.left).set_left y (some x)).set_parent x (some y)
        with head := some y }).set_parent y none, y, ?_, ?_, ?_, ?_, ?_, ?_, ?_, ?_, ?_⟩
    · simp only [Rbt.rotate_left, hxn, hxry, hyn, hxp]
    · exact hsub _ none (fun j _ hjy => hfr0 j hjy) hyc
    · rfl
    · rfl
    · intro j hj
      have hjx : j ≠ x := by
        intro h
        subst h
        exact hj hxmemU
      have hjy : j ≠ y := by
        intro h
        subst h
        exact hj hymemU
      have hjB : B.rootIdx ≠ some j := fun h => hj (hBU j (Tr.rootIdx_mem h))
      rw [hfr0 j hjy]
      exact h3f j hjx hjy hjB
    · intro j
      rw [Rbt.color_set_parent _ _ _ j, Rbt.node?_setHead]
      exact h3col j
    · exact h3free
    · exact h3len
    · rw [Rbt.set_parent, Rbt.dataLength_updateNode]
      exact h3dlen
  · obtain ⟨xn, yn, hxn, hxry, hxp, hyn, hylB, hxy, hcore⟩ := Rbt.rotl_core hurep hndu
    obtain ⟨h3f, h3head, h3col, h3free, h3len, h3dlen, hsub⟩ := hcore _ rfl
    have hUsubT := Tr.mem_of_getPath hget
    have hPsubT := Tr.mem_of_getPath hgq
    have hpjT : pj ∈ t.indices := hPsubT pj (Tr.rootIdx_mem rfl)
    obtain ⟨qq, hPreps⟩ := hreps.getPath_reps hgq
    have hndP := Tr.nodup_getPath hnd hgq
    obtain ⟨hndAq, hndBq, hpjAq, hpjBq, hdisjq⟩ := Tr.nodup_node_parts hndP
    cases hPreps with
    | node _ _ pn _ _ hpn hpp hplA hplB =>
      cases b with
      | false =>
        have hueq' : Tr.node A x kx (Tr.node B y ky C) = Aq := hueq
        subst hueq'
        have hpnlx : pn.left = some x := hplA.node_root
        have hpjU : pj ∉ (Tr.node A x kx (Tr.node B y ky C)).indices := hpjAq
        have hxpj : x ≠ pj := by
          intro h
          subst h
          exact hpjU hxmemU
        have hypj : y ≠ pj := by
          intro h
          subst h
          exact hpjU hymemU
        have hpjx : pj ≠ x := fun h => hxpj h.symm
        have hpjy : pj ≠ y := fun h => hypj h.symm
        have hpjB : B.rootIdx ≠ some pj := fun h => hpjU (hBU pj (Tr.rootIdx_mem h))
        have hpj3 :
            Rbt.node? (((match yn.left with
          | some l => (s.set_right x yn.left).set_parent l (some x)
          | none => s.set_right x yn.left).set_left y (some x)).set_parent x (some y)) pj = some pn := by
          rw [h3f pj hpjx hpjy hpjB, hpn]
        have hfr : ∀ j ∈ (Tr.node A x kx (Tr.node B y ky C)).indices, j ≠ y →
            Rbt.node? (((((match yn.left with
          | some l => (s.set_right x yn.left).set_parent l (some x)
          | none => s.set_right x yn.left).set_left y (some x)).set_parent x (some y)).set_left pj (some y)).set_parent y (some pj)) j =
            Rbt.node? (((match yn.left with
          | some l => (s.set_right x yn.left).set_parent l (some x)
          | none => s.set_right x yn.left).set_left y (some x)).set_parent x (some y)) j := by
          intro j hj hjy
          have hjpj : j ≠ pj := by
            intro h
            subst h
            exact hpjU hj
          rw [Rbt.set_parent, Rbt.node?_updateNode_ne _ _ _ _ (Ne.symm hjy), Rbt.set_left,
            Rbt.node?_updateNode_ne _ _ _ _ (Ne.symm hjpj)]
        have hyc :
            Rbt.node? (((((match yn.left with
          | some l => (s.set_right x yn.left).set_parent l (some x)
          | none => s.set_right x yn.left).set_left y (some x)).set_parent x (some y)).set_left pj (some y)).set_parent y (some pj)) y =
            (Rbt.node? (((match yn.left with
          | some l => (s.set_right x yn.left).set_parent l (some x)
          | none => s.set_right x yn.left).set_left y (some x)).set_parent x (some y)) y).map
              (fun nd => { nd with parent := some pj }) := by
          rw [Rbt.set_parent, Rbt.node?_updateNode_self, Rbt.set_left,
            Rbt.node?_updateNode_ne _ _ _ _ hpjy]
        have hrepsSub := hsub _ (some pj) hfr hyc
        have hflip :
            Rbt.node? (((((match yn.left with
          | some l => (s.set_right x yn.left).set_parent l (some x)
          | none => s.set_right x yn.left).set_left y (some x)).set_parent x (some y)).set_left pj (some y)).set_parent y (some pj)) pj =
            (Rbt.node? s pj).map (fun nd => nd.childFlip x y) := by
          rw [Rbt.set_parent, Rbt.node?_updateNode_ne _ _ _ _ hypj, Rbt.set_left,
            Rbt.node?_updateNode_self, hpj3, hpn, Option.map_some', Option.map_some',
            RbtNode.childFlip, if_pos hpnlx]
        have hframe : ∀ j, j ∉ (Tr.node A x kx (Tr.node B y ky C)).indices → j ≠ pj →
            Rbt.node? (((((match yn.left with
          | some l => (s.set_right x yn.left).set_parent l (some x)
          | none => s.set_right x yn.left).set_left y (some x)).set_parent x (some y)).set_left pj (some y)).set_parent y (some pj)) j =
            Rbt.node? s j := by
          intro j hjU hjpj
          have hjx : j ≠ x := by
            intro h
            subst h
            exact hjU hxmemU
          have hjy : j ≠ y := by
            intro h
            subst h
            exact hjU hymemU
          have hjB : B.rootIdx ≠ some j := fun h => hjU (hBU j (Tr.rootIdx_mem h))
          rw [Rbt.set_parent, Rbt.node?_updateNode_ne _ _ _ _ (Ne.symm hjy), Rbt.set_left,
            Rbt.node?_updateNode_ne _ _ _ _ (Ne.symm hjpj)]
          exact h3f j hjx hjy hjB
        refine ⟨((((match yn.left with
          | some l => (s.set_right x yn.left).set_parent l (some x)
          | none => s.set_right x yn.left).set_left y (some x)).set_parent x (some y)).set_left pj (some y)).set_parent y (some pj), rt,
          ?_, ?_, ?_, ?_, ?_, ?_, ?_, ?_, ?_⟩
        · simp only [Rbt.rotate_left, hxn, hxry, hyn, hxp, hpj3]
          rw [if_pos hpnlx]
        · exact RbtReps.graft hreps hnd hgq rfl rfl rfl hrepsSub hflip hframe
        · exact h3head.trans hhead
        · rw [Tr.rootIdx_setPath_concat]
          exact hreps.ptr_eq_rootIdx.symm
        · intro j hj
          have hjU : j ∉ (Tr.node A x kx (Tr.node B y ky C)).indices :=
            fun hm => hj (hUsubT j hm)
          have hjpj : j ≠ pj := by
            intro h
            subst h
            exact hj hpjT
          exact hframe j hjU hjpj
        · intro j
          rw [Rbt.color_set_parent _ _ _ j, Rbt.color_set_left _ _ _ j]
          exact h3col j
        · exact h3free
        · exact h3len
        · rw [Rbt.set_parent, Rbt.dataLength_updateNode, Rbt.set_left,
            Rbt.dataLength_updateNode]
          exact h3dlen
      | true =>
        have hueq' : Tr.node A x kx (Tr.node B y ky C) = Bq := hueq
        subst hueq'
        have hpnrx : pn.right = some x := hplB.node_root
        have hpnlA : pn.left = Aq.rootIdx := hplA.ptr_eq_rootIdx
        have hpnlne : pn.left ≠ some x := by
          rw [hpnlA]
          intro h
          exact hdisjq x (Tr.rootIdx_mem h) hxmemU
        have hpjU : pj ∉ (Tr.node A x kx (Tr.node B y ky C)).indices := hpjBq
        have hxpj : x ≠ pj := by
          intro h
          subst h
          exact hpjU hxmemU
        have hypj : y ≠ pj := by
          intro h
          subst h
          exact hpjU hymemU
        have hpjx : pj ≠ x := fun h => hxpj h.symm
        have hpjy : pj ≠ y := fun h => hypj h.symm
        have hpjB : B.rootIdx ≠ some pj := fun h => hpjU (hBU pj (Tr.rootIdx_mem h))
        have hpj3 :
            Rbt.node? (((match yn.left with
          | some l => (s.set_right x yn.left).set_parent l (some x)
          | none => s.set_right x yn.left).set_left y (some x)).set_parent x (some y)) pj = some pn := by
          rw [h3f pj hpjx hpjy hpjB, hpn]
        have hfr : ∀ j ∈ (Tr.node A x kx (Tr.node B y ky C)).indices, j ≠ y →
            Rbt.node? (((((match yn.left with
          | some l => (s.set_right x yn.left).set_parent l (some x)
          | none => s.set_right x yn.left).set_left y (some x)).set_parent x (some y)).set_right pj (some y)).set_parent y (some pj)) j =
            Rbt.node? (((match yn.left with
          | some l => (s.set_right x yn.left).set_parent l (some x)
          | none => s.set_right x yn.left).set_left y (some x)).set_parent x (some y)) j := by
          intro j hj hjy
          have hjpj : j ≠ pj := by
            intro h
            subst h
            exact hpjU hj
          rw [Rbt.set_parent, Rbt.node?_updateNode_ne _ _ _ _ (Ne.symm hjy), Rbt.set_right,
            Rbt.node?_updateNode_ne _ _ _ _ (Ne.symm hjpj)]
        have hyc :
            Rbt.node? (((((match yn.left with
          | some l => (s.set_right x yn.left).set_parent l (some x)
          | none => s.set_right x yn.left).set_left y (some x)).set_parent x (some y)).set_right pj (some y)).set_parent y (some pj)) y =
            (Rbt.node? (((match yn.left with
          | some l => (s.set_right x yn.left).set_parent l (some x)
          | none => s.set_right x yn.left).set_left y (some x)).set_parent x (some y)) y).map
              (fun nd => { nd with parent := some pj }) := by
          rw [Rbt.set_parent, Rbt.node?_updateNode_self, Rbt.set_right,
            Rbt.node?_updateNode_ne _ _ _ _ hpjy]
        have hrepsSub := hsub _ (some pj) hfr hyc
        have hflip :
            Rbt.node? (((((match yn.left with
          | some l => (s.set_right x yn.left).set_parent l (some x)
          | none => s.set_right x yn.left).set_left y (some x)).set_parent x (some y)).set_right pj (some y)).set_parent y (some pj)) pj =
            (Rbt.node? s pj).map (fun nd => nd.childFlip x y) := by
          rw [Rbt.set_parent, Rbt.node?_updateNode_ne _ _ _ _ hypj, Rbt.set_right,
            Rbt.node?_updateNode_self, hpj3, hpn, Option.map_some', Option.map_some',
            RbtNode.childFlip, if_neg hpnlne, if_pos hpnrx]
        have hframe : ∀ j, j ∉ (Tr.node A x kx (Tr.node B y ky C)).indices → j ≠ pj →
            Rbt.node? (((((match yn.left with
          | some l => (s.set_right x yn.left).set_parent l (some x)
          | none => s.set_right x yn.left).set_left y (some x)).set_parent x (some y)).set_right pj (some y)).set_parent y (some pj)) j =
            Rbt.node? s j := by
          intro j hjU hjpj
          have hjx : j ≠ x := by
            intro h
            subst h
            exact hjU hxmemU
          have hjy : j ≠ y := by
            intro h
            subst h
            exact hjU hymemU
          have hjB : B.rootIdx ≠ some j := fun h => hjU (hBU j (Tr.rootIdx_mem h))
          rw [Rbt.set_parent, Rbt.node?_updateNode_ne _ _ _ _ (Ne.symm hjy), Rbt.set_right,
            Rbt.node?_updateNode_ne _ _ _ _ (Ne.symm hjpj)]
          exact h3f j hjx hjy hjB
        refine ⟨((((match yn.left with
          | some l => (s.set_right x yn.left).set_parent l (some x)
          | none => s.set_right x yn.left).set_left y (some x)).set_parent x (some y)).set_right pj (some y)).set_parent y (some pj), rt,
          ?_, ?_, ?_, ?_, ?_, ?_, ?_, ?_, ?_⟩
        · simp only [Rbt.rotate_left, hxn, hxry, hyn, hxp, hpj3]
          rw [if_neg hpnlne, if_pos hpnrx]
        · exact RbtReps.graft hreps hnd hgq rfl rfl rfl hrepsSub hflip hframe
        · exact h3head.trans hhead
        · rw [Tr.rootIdx_setPath_concat]
          exact hreps.ptr_eq_rootIdx.symm
        · intro j hj
          have hjU : j ∉ (Tr.node A x kx (Tr.node B y ky C)).indices :=
            fun hm => hj (hUsubT j hm)
          have hjpj : j ≠ pj := by
            intro h
            subst h
            exact hj hpjT
          exact hframe j hjU hjpj
        · intro j
          rw [Rbt.color_set_parent _ _ _ j, Rbt.color_set_right _ _ _ j]
          exact h3col j
        · exact h3free
        · exact h3len
        · rw [Rbt.set_parent, Rbt.dataLength_updateNode, Rbt.set_right,
            Rbt.dataLength_updateNode]
          exact h3dlen

/-- Core of the right-rotation simulation, mirror image of `Rbt.rotl_core`
for `Rbt.rotate_right`. -/
theorem Rbt.rotr_core {s : Rbt} {q : Option Nat} {A B C : Tr} {x y : Nat} {kx ky : Int}
    (hu : RbtReps s q (some x) (Tr.node (Tr.node A y ky B) x kx C))
    (hndu : (Tr.node (Tr.node A y ky B) x kx C).indices.Nodup) :
    ∃ xn yn : RbtNode,
      Rbt.node? s x = some xn ∧ xn.left = some y ∧ xn.parent = q ∧
      Rbt.node? s y = some yn ∧ yn.right = B.rootIdx ∧ x ≠ y ∧
      (∀ s3 : Rbt,
        s3 = ((match yn.right with
               | some r => (s.set_left x yn.right).set_parent r (some x)
               | none => s.set_left x yn.right).set_right y (some x)).set_parent x (some y) →
        (∀ j, j ≠ x → j ≠ y → B.rootIdx ≠ some j → Rbt.node? s3 j = Rbt.node? s j) ∧
        s3.head = s.head ∧
        (∀ j, (Rbt.node? s3 j).map RbtNode.color = (Rbt.node? s j).map RbtNode.color) ∧
        s3.storage.free_indices = s.storage.free_indices ∧
        s3.storage.length = s.storage.length ∧
        s3.storage.data.length = s.storage.data.length ∧
        ∀ (sf : Rbt) (q' : Option Nat),
          (∀ j ∈ (Tr.node (Tr.node A y ky B) x kx C).indices, j ≠ y →
            Rbt.node? sf j = Rbt.node? s3 j) →
          Rbt.node? sf y = (Rbt.node? s3 y).map (fun nd => { nd with parent := q' }) →
          RbtReps sf q' (some y) (Tr.node A y ky (Tr.node B x kx C))) := by
  have hu2 := hu
  obtain ⟨hndAYB, hndC, hxAYB, hxC, hdisjAYBC⟩ := Tr.nodup_node_parts hndu
  obtain ⟨hndA, hndB, hyA, hyB, hdisjAB⟩ := Tr.nodup_node_parts hndAYB
  have hymem : y ∈ (Tr.node A y ky B).indices := Tr.rootIdx_mem rfl
  have hxy : x ≠ y := by
    intro h
    subst h
    exact hxAYB hymem
  have hxmemU : x ∈ (Tr.node (Tr.node A y ky B) x kx C).indices := Tr.rootIdx_mem rfl
  cases hu with
  | node _ _ xn _ _ hxn hxp hlAYB hrC =>
    have hxly : xn.left = some y := hlAYB.node_root
    rw [hxly] at hlAYB
    cases hlAYB with
    | node _ _ yn _ _ hyn hyp hlA hrB =>
      have hyrB : yn.right = B.rootIdx := hrB.ptr_eq_rootIdx
      have hyrx : yn.right ≠ some x := by
        rw [hyrB]
        intro h
        refine hxAYB ?_
        rw [Tr.indices_node]
        exact List.mem_append_right _ (List.mem_cons_of_mem _ (Tr.rootIdx_mem h))
      have hyry : yn.right ≠ some y := by
        rw [hyrB]
        intro h
        exact hyB (Tr.rootIdx_mem h)
      refine ⟨xn, yn, hxn, hxly, hxp, hyn, hyrB, hxy, ?_⟩
      intro s3 hs3
      have hW := @Rbt.rotr_writes s
        (match yn.right with
         | some r => (s.set_left x yn.right).set_parent r (some x)
         | none => s.set_left x yn.right) s3 x y xn yn hxn hyn hxy hyrx hyry
        (fun h => by rw [h]) (fun br h => by rw [h]) hs3
      obtain ⟨h3x, h3y, h3br, h3f, h3head, h3col, h3free, h3len, h3dlen⟩ := hW
      have h3f' : ∀ j, j ≠ x → j ≠ y → B.rootIdx ≠ some j →
          Rbt.node? s3 j = Rbt.node? s j := by
        intro j hjx hjy hjB
        refine h3f j hjx hjy ?_
        rw [hyrB]
        exact hjB
      refine ⟨h3f', h3head, h3col, h3free, h3len, h3dlen, ?_⟩
      intro sf q' hfr hy
      have hX1 : Rbt.node? sf x = some { xn with left := B.rootIdx, parent := some y } := by
        rw [hfr x hxmemU hxy, h3x, hyrB]
      have hX2 : Rbt.node? sf y = some { yn with right := some x, parent := q' } := by
        rw [hy, h3y]
        rfl
      have hX3 : ∀ br, B.rootIdx = some br →
          Rbt.node? sf br = (Rbt.node? s br).map (fun nd => { nd with parent := some x }) := by
        intro br hbr
        have hbrB : br ∈ B.indices := Tr.rootIdx_mem hbr
        have hbry : br ≠ y := by
          intro h
          subst h
          exact hyB hbrB
        have hbrU : br ∈ (Tr.node (Tr.node A y yn.data B) x xn.data C).indices := by
          rw [Tr.indices_node]
          refine List.mem_append_left _ ?_
          rw [Tr.indices_node]
          exact List.mem_append_right _ (List.mem_cons_of_mem _ hbrB)
        rw [hfr br hbrU hbry]
        refine h3br br ?_
        rw [hyrB]
        exact hbr
      have hX4 : ∀ j ∈ (Tr.node (Tr.node A y yn.data B) x xn.data C).indices,
          j ≠ x → j ≠ y → B.rootIdx ≠ some j → Rbt.node? sf j = Rbt.node? s j := by
        intro j hj hjx hjy hjB
        rw [hfr j hj hjy]
        exact h3f' j hjx hjy hjB
      exact (Rbt.rotr_subtree hu2 hndu hxn hyn hX1 hX2 hX3 hX4).1

/-- Simulation of `Rbt.rotate_right` at a node `x` (path `ps`) with a left
child `y`, mirror image of `Rbt.rotate_left_sim`. -/
theorem Rbt.rotate_right_sim {s : Rbt} {t : Tr} {rt : Nat}
    (hreps : RbtReps s none (some rt) t) (hhead : s.head = some rt)
    (hnd : t.indices.Nodup)
    {ps : List Bool} {A B C : Tr} {x y : Nat} {kx ky : Int}
    (hget : Tr.getPath t ps = some (Tr.node (Tr.node A y ky B) x kx C)) :
    ∃ s' rt',
      Rbt.rotate_right s x = .ok s' ∧
      RbtReps s' none (some rt') (Tr.setPath t ps (Tr.node A y ky (Tr.node B x kx C))) ∧
      s'.head = some rt' ∧
      (Tr.setPath t ps (Tr.node A y ky (Tr.node B x kx C))).rootIdx = some rt' ∧
      (∀ j, j ∉ t.indices → Rbt.node? s' j = Rbt.node? s j) ∧
      (∀ j, (Rbt.node? s' j).map RbtNode.color = (Rbt.node? s j).map RbtNode.color) ∧
      s'.storage.free_indices = s.storage.free_indices ∧
      s'.storage.length = s.storage.length ∧
      s'.storage.data.length = s.storage.data.length := by
  have hndu := Tr.nodup_getPath hnd hget
  have hxmemU : x ∈ (Tr.node (Tr.node A y ky B) x kx C).indices := Tr.rootIdx_mem rfl
  have hymemU : y ∈ (Tr.node (Tr.node A y ky B) x kx C).indices := by
    rw [Tr.indices_node]
    exact List.mem_append_left _ (Tr.rootIdx_mem rfl)
  have hBU : ∀ a ∈ B.indices, a ∈ (Tr.node (Tr.node A y ky B) x kx C).indices := by
    intro a ha
    rw [Tr.indices_node]
    refine List.mem_append_left _ ?_
    rw [Tr.indices_node]
    exact List.mem_append_right _ (List.mem_cons_of_mem _ ha)
  rcases hreps.at_path hget with ⟨rfl, rfl⟩ | ⟨qs, b, Aq, pj, kp, Bq, rfl, hgq, hueq, hurep⟩
  · have h0 : some rt = some x := hreps.ptr_eq_rootIdx
    injection h0 with hrtx
    rw [hrtx] at hreps
    obtain ⟨xn, yn, hxn, hxly, hxp, hyn, hyrB, hxy, hcore⟩ := Rbt.rotr_core hreps hndu
    obtain ⟨h3f, h3head, h3col, h3free, h3len, h3dlen, hsub⟩ := hcore _ rfl
    have hfr0 : ∀ j, j ≠ y →
        Rbt.node? (({ ((match yn.right with
          | some r => (s.set_left x yn.right).set_parent r (some x)
          | none => s.set_left x yn.right).set_right y (some x)).set_parent x (some y)
          with head := some y }).set_parent y none) j =
        Rbt.node? (((match yn.right with
          | some r => (s.set_left x yn.right).set_parent r (some x)
          | none => s.set_left x yn.right).set_right y (some x)).set_parent x (some y)) j := by
      intro j hjy
      rw [Rbt.set_parent, Rbt.node?_updateNode_ne _ _ _ _ (Ne.symm hjy), Rbt.node?_setHead]
    have hyc :
        Rbt.node? (({ ((match yn.right with
          | some r => (s.set_left x yn.right).set_parent r (some x)
          | none => s.set_left x yn.right).set_right y (some x)).set_parent x (some y)
          with head := some y }).set_parent y none) y =
        (Rbt.node? (((match yn.right with
          | some r => (s.set_left x yn.right).set_parent r (some x)
          | none => s.set_left x yn.right).set_right y (some x)).set_parent x (some y)) y).map
          (fun nd => { nd with parent := none }) := by
      rw [Rbt.set_parent, Rbt.node?_updateNode_self, Rbt.node?_setHead]
    refine ⟨({ ((match yn.right with
          | some r => (s.set_left x yn.right).set_parent r (some x)
          | none => s.set_left x yn.right).set_right y (some x)).set_parent x (some y)
        with head := some y }).set_parent y none, y, ?_, ?_, ?_, ?_, ?_, ?_, ?_, ?_, ?_⟩
    · simp only [Rbt.rotate_right, hxn, hxly, hyn, hxp]
    · exact hsub _ none (fun j _ hjy => hfr0 j hjy) hyc
    · rfl
    · rfl
    · intro j hj
      have hjx : j ≠ x := by
        intro h
        subst h
        exact hj hxmemU
      have hjy : j ≠ y := by
        intro h
        subst h
        exact hj hymemU
      have hjB : B.rootIdx ≠ some j := fun h => hj (hBU j (Tr.rootIdx_mem h))
      rw [hfr0 j hjy]
      exact h3f j hjx hjy hjB
    · intro j
      rw [Rbt.color_set_parent _ _ _ j, Rbt.node?_setHead]
      exact h3col j
    · exact h3free
    · exact h3len
    · rw [Rbt.set_parent, Rbt.dataLength_updateNode]
      exact h3dlen
  · obtain ⟨xn, yn, hxn, hxly, hxp, hyn, hyrB, hxy, hcore⟩ := Rbt.rotr_core hurep hndu
    obtain ⟨h3f, h3head, h3col, h3free, h3len, h3dlen, hsub⟩ := hcore _ rfl
    have hUsubT := Tr.mem_of_getPath hget
    have hPsubT := Tr.mem_of_getPath hgq
    have hpjT : pj ∈ t.indices := hPsubT pj (Tr.rootIdx_mem rfl)
    obtain ⟨qq, hPreps⟩ := hreps.getPath_reps hgq
    have hndP := Tr.nodup_getPath hnd hgq
    obtain ⟨hndAq, hndBq, hpjAq, hpjBq, hdisjq⟩ := Tr.nodup_node_parts hndP
    cases hPreps with
    | node _ _ pn _ _ hpn hpp hplA hplB =>
      cases b with
      | false =>
        have hueq' : Tr.node (Tr.node A y ky B) x kx C = Aq := hueq
        subst hueq'
        have hpnlx : pn.left = some x := hplA.node_root
        have hpjU : pj ∉ (Tr.node (Tr.node A y ky B) x kx C).indices := hpjAq
        have hxpj : x ≠ pj := by
          intro h
          subst h
          exact hpjU hxmemU
        have hypj : y ≠ pj := by
          intro h
          subst h
          exact hpjU hymemU
        have hpjx : pj ≠ x := fun h => hxpj h.symm
        have hpjy : pj ≠ y := fun h => hypj h.symm
        have hpjB : B.rootIdx ≠ some pj := fun h => hpjU (hBU pj (Tr.rootIdx_mem h))
        have hpj3 :
            Rbt.node? (((match yn.right with
          | some r => (s.set_left x yn.right).set_parent r (some x)
          | none => s.set_left x yn.right).set_right y (some x)).set_parent x (some y)) pj = some pn := by
          rw [h3f pj hpjx hpjy hpjB, hpn]
        have hfr : ∀ j ∈ (Tr.node (Tr.node A y ky B) x kx C).indices, j ≠ y →
            Rbt.node? (((((match yn.right with
          | some r => (s.set_left x yn.right).set_parent r (some x)
          | none => s.set_left x yn.right).set_right y (some x)).set_parent x (some y)).set_left pj (some y)).set_parent y (some pj)) j =
            Rbt.node? (((match yn.right with
          | some r => (s.set_left x yn.right).set_parent r (some x)
          | none => s.set_left x yn.right).set_right y (some x)).set_parent x (some y)) j := by
          intro j hj hjy
          have hjpj : j ≠ pj := by
            intro h
            subst h
            exact hpjU hj
          rw [Rbt.set_parent, Rbt.node?_updateNode_ne _ _ _ _ (Ne.symm hjy), Rbt.set_left,
            Rbt.node?_updateNode_ne _ _ _ _ (Ne.symm hjpj)]
        have hyc :
            Rbt.node? (((((match yn.right with
          | some r => (s.set_left x yn.right).set_parent r (some x)
          | none => s.set_left x yn.right).set_right y (some x)).set_parent x (some y)).set_left pj (some y)).set_parent y (some pj)) y =
            (Rbt.node? (((match yn.right with
          | some r => (s.set_left x yn.right).set_parent r (some x)
          | none => s.set_left x yn.right).set_right y (some x)).set_parent x (some y)) y).map
              (fun nd => { nd with parent := some pj }) := by
          rw [Rbt.set_parent, Rbt.node?_updateNode_self, Rbt.set_left,
            Rbt.node?_updateNode_ne _ _ _ _ hpjy]
        have hrepsSub := hsub _ (some pj) hfr hyc
        have hflip :
            Rbt.node? (((((match yn.right with
          | some r => (s.set_left x yn.right).set_parent r (some x)
          | none => s.set_left x yn.right).set_right y (some x)).set_parent x (some y)).set_left pj (some y)).set_parent y (some pj)) pj =
            (Rbt.node? s pj).map (fun nd => nd.childFlip x y) := by
          rw [Rbt.set_parent, Rbt.node?_updateNode_ne _ _ _ _ hypj, Rbt.set_left,
            Rbt.node?_updateNode_self, hpj3, hpn, Option.map_some', Option.map_some',
            RbtNode.childFlip, if_pos hpnlx]
        have hframe : ∀ j, j ∉ (Tr.node (Tr.node A y ky B) x kx C).indices → j ≠ pj →
            Rbt.node? (((((match yn.right with
          | some r => (s.set_left x yn.right).set_parent r (some x)
          | none => s.set_left x yn.right).set_right y (some x)).set_parent x (some y)).set_left pj (some y)).set_parent y (some pj)) j =
            Rbt.node? s j := by
          intro j hjU hjpj
          have hjx : j ≠ x := by
            intro h
            subst h
            exact hjU hxmemU
          have hjy : j ≠ y := by
            intro h
            subst h
            exact hjU hymemU
          have hjB : B.rootIdx ≠ some j := fun h => hjU (hBU j (Tr.rootIdx_mem h))
          rw [Rbt.set_parent, Rbt.node?_updateNode_ne _ _ _ _ (Ne.symm hjy), Rbt.set_left,
            Rbt.node?_updateNode_ne _ _ _ _ (Ne.symm hjpj)]
          exact h3f j hjx hjy hjB
        refine ⟨((((match yn.right with
          | some r => (s.set_left x yn.right).set_parent r (some x)
          | none => s.set_left x yn.right).set_right y (some x)).set_parent x (some y)).set_left pj (some y)).set_parent y (some pj), rt,
          ?_, ?_, ?_, ?_, ?_, ?_, ?_, ?_, ?_⟩
        · simp only [Rbt.rotate_right, hxn, hxly, hyn, hxp, hpj3]
          rw [if_pos hpnlx]
        · exact RbtReps.graft hreps hnd hgq rfl rfl rfl hrepsSub hflip hframe
        · exact h3head.trans hhead
        · rw [Tr.rootIdx_setPath_concat]
          exact hreps.ptr_eq_rootIdx.symm
        · intro j hj
          have hjU : j ∉ (Tr.node (Tr.node A y ky B) x kx C).indices :=
            fun hm => hj (hUsubT j hm)
          have hjpj : j ≠ pj := by
            intro h
            subst h
            exact hj hpjT
          exact hframe j hjU hjpj
        · intro j
          rw [Rbt.color_set_parent _ _ _ j, Rbt.color_set_left _ _ _ j]
          exact h3col j
        · exact h3free
        · exact h3len
        · rw [Rbt.set_parent, Rbt.dataLength_updateNode, Rbt.set_left,
            Rbt.dataLength_updateNode]
          exact h3dlen
      | true =>
        have hueq' : Tr.node (Tr.node A y ky B) x kx C = Bq := hueq
        subst hueq'
        have hpnrx : pn.right = some x := hplB.node_root
        have hpnlA : pn.left = Aq.rootIdx := hplA.ptr_eq_rootIdx
        have hpnlne : pn.left ≠ some x := by
          rw [hpnlA]
          intro h
          exact hdisjq x (Tr.rootIdx_mem h) hxmemU
        have hpjU : pj ∉ (Tr.node (Tr.node A y ky B) x kx C).indices := hpjBq
        have hxpj : x ≠ pj := by
          intro h
          subst h
          exact hpjU hxmemU
        have hypj : y ≠ pj := by
          intro h
          subst h
          exact hpjU hymemU
        have hpjx : pj ≠ x := fun h => hxpj h.symm
        have hpjy : pj ≠ y := fun h => hypj h.symm
        have hpjB : B.rootIdx ≠ some pj := fun h => hpjU (hBU pj (Tr.rootIdx_mem h))
        have hpj3 :
            Rbt.node? (((match yn.right with
          | some r => (s.set_left x yn.right).set_parent r (some x)
          | none => s.set_left x yn.right).set_right y (some x)).set_parent x (some y)) pj = some pn := by
          rw [h3f pj hpjx hpjy hpjB, hpn]
        have hfr : ∀ j ∈ (Tr.node (Tr.node A y ky B) x kx C).indices, j ≠ y →
            Rbt.node? (((((match yn.right with
          | some r => (s.set_left x yn.right).set_parent r (some x)
          | none => s.set_left x yn.right).set_right y (some x)).set_parent x (some y)).set_right pj (some y)).set_parent y (some pj)) j =
            Rbt.node? (((match yn.right with
          | some r => (s.set_left x yn.right).set_parent r (some x)
          | none => s.set_left x yn.right).set_right y (some x)).set_parent x (some y)) j := by
          intro j hj hjy
          have hjpj : j ≠ pj := by
            intro h
            subst h
            exact hpjU hj
          rw [Rbt.set_parent, Rbt.node?_updateNode_ne _ _ _ _ (Ne.symm hjy), Rbt.set_right,
            Rbt.node?_updateNode_ne _ _ _ _ (Ne.symm hjpj)]
        have hyc :
            Rbt.node? (((((match yn.right with
          | some r => (s.set_left x yn.right).set_parent r (some x)
          | none => s.set_left x yn.right).set_right y (some x)).set_parent x (some y)).set_right pj (some y)).set_parent y (some pj)) y =
            (Rbt.node? (((match yn.right with
          | some r => (s.set_left x yn.right).set_parent r (some x)
          | none => s.set_left x yn.right).set_right y (some x)).set_parent x (some y)) y).map
              (fun nd => { nd with parent := some pj }) := by
          rw [Rbt.set_parent, Rbt.node?_updateNode_self, Rbt.set_right,
            Rbt.node?_updateNode_ne _ _ _ _ hpjy]
        have hrepsSub := hsub _ (some pj) hfr hyc
        have hflip :
            Rbt.node? (((((match yn.right with
          | some r => (s.set_left x yn.right).set_parent r (some x)
          | none => s.set_left x yn.right).set_right y (some x)).set_parent x (some y)).set_right pj (some y)).set_parent y (some pj)) pj =
            (Rbt.node? s pj).map (fun nd => nd.childFlip x y) := by
          rw [Rbt.set_parent, Rbt.node?_updateNode_ne _ _ _ _ hypj, Rbt.set_right,
            Rbt.node?_updateNode_self, hpj3, hpn, Option.map_some', Option.map_some',
            RbtNode.childFlip, if_neg hpnlne, if_pos hpnrx]
        have hframe : ∀ j, j ∉ (Tr.node (Tr.node A y ky B) x kx C).indices → j ≠ pj →
            Rbt.node? (((((match yn.right with
          | some r => (s.set_left x yn.right).set_parent r (some x)
          | none => s.set_left x yn.right).set_right y (some x)).set_parent x (some y)).set_right pj (some y)).set_parent y (some pj)) j =
            Rbt.node? s j := by
          intro j hjU hjpj
          have hjx : j ≠ x := by
            intro h
            subst h
            exact hjU hxmemU
          have hjy : j ≠ y := by
            intro h
            subst h
            exact hjU hymemU
          have hjB : B.rootIdx ≠ some j := fun h => hjU (hBU j (Tr.rootIdx_mem h))
          rw [Rbt.set_parent, Rbt.node?_updateNode_ne _ _ _ _ (Ne.symm hjy), Rbt.set_right,
            Rbt.node?_updateNode_ne _ _ _ _ (Ne.symm hjpj)]
          exact h3f j hjx hjy hjB
        refine ⟨((((match yn.right with
          | some r => (s.set_left x yn.right).set_parent r (some x)
          | none => s.set_left x yn.right).set_right y (some x)).set_parent x (some y)).set_right pj (some y)).set_parent y (some pj), rt,
          ?_, ?_, ?_, ?_, ?_, ?_, ?_, ?_, ?_⟩
        · simp only [Rbt.rotate_right, hxn, hxly, hyn, hxp, hpj3]
          rw [if_neg hpnlne, if_pos hpnrx]
        · exact RbtReps.graft hreps hnd hgq rfl rfl rfl hrepsSub hflip hframe
        · exact h3head.trans hhead
        · rw [Tr.rootIdx_setPath_concat]
          exact hreps.ptr_eq_rootIdx.symm
        · intro j hj
          have hjU : j ∉ (Tr.node (Tr.node A y ky B) x kx C).indices :=
            fun hm => hj (hUsubT j hm)
          have hjpj : j ≠ pj := by
            intro h
            subst h
            exact hj hpjT
          exact hframe j hjU hjpj
        · intro j
          rw [Rbt.color_set_parent _ _ _ j, Rbt.color_set_right _ _ _ j]
          exact h3col j
        · exact h3free
        · exact h3len
        · rw [Rbt.set_parent, Rbt.dataLength_updateNode, Rbt.set_right,
            Rbt.dataLength_updateNode]
          exact h3dlen

theorem RbtReps.root_rec {s : Rbt} {p : Option Nat} {rt : Nat} {t : Tr}
    (h : RbtReps s p (some rt) t) :
    ∃ rn l k r, Rbt.node? s rt = some rn ∧ rn.parent = p ∧ t = Tr.node l rt k r := by
  cases h with
  | node _ _ nd l r hnd hp hl hr => exact ⟨nd, l, nd.data, r, hnd, hp, rfl⟩

/-- The two trailing recolourings of `Rbt.fixup_ins_rotate` preserve the
representation and leave the (possibly new) root black. -/
theorem Rbt.set_colors_final {sB : Rbt} {t2 : Tr} {rtB par g : Nat}
    (hreps : RbtReps sB none (some rtB) t2)
    (hpg : par ≠ g)
    (hblack : rtB = par ∨ (rtB ≠ par ∧ rtB ≠ g ∧
      ∀ rn, Rbt.node? sB rtB = some rn → rn.color = BLACK)) :
    RbtReps ((sB.set_color par BLACK).set_color g RED) none (some rtB) t2 ∧
    ((sB.set_color par BLACK).set_color g RED).head = sB.head ∧
    (∀ rn, Rbt.node? ((sB.set_color par BLACK).set_color g RED) rtB = some rn →
      rn.color = BLACK) ∧
    (∀ j, j ≠ par → j ≠ g →
      Rbt.node? ((sB.set_color par BLACK).set_color g RED) j = Rbt.node? sB j) ∧
    ((sB.set_color par BLACK).set_color g RED).storage.free_indices =
      sB.storage.free_indices ∧
    ((sB.set_color par BLACK).set_color g RED).storage.length = sB.storage.length ∧
    ((sB.set_color par BLACK).set_color g RED).storage.data.length =
      sB.storage.data.length := by
  obtain ⟨rnB, lB, kB, rB, hrnB, hrpB, htB⟩ := hreps.root_rec
  refine ⟨(hreps.set_color par BLACK).set_color g RED, rfl, ?_, ?_, rfl, rfl, ?_⟩
  · intro rn h
    rcases hblack with rfl | ⟨hne1, hne2, hb⟩
    · rw [Rbt.set_color, Rbt.node?_updateNode_ne _ _ _ _ (Ne.symm hpg), Rbt.set_color,
        Rbt.node?_updateNode_self, hrnB] at h
      injection h with h
      rw [← h]
    · rw [Rbt.set_color, Rbt.node?_updateNode_ne _ _ _ _ (fun hh => hne2 hh.symm),
        Rbt.set_color, Rbt.node?_updateNode_ne _ _ _ _ (fun hh => hne1 hh.symm)] at h
      exact hb rn h
  · intro j hj1 hj2
    rw [Rbt.set_color, Rbt.node?_updateNode_ne _ _ _ _ (Ne.symm hj2), Rbt.set_color,
      Rbt.node?_updateNode_ne _ _ _ _ (Ne.symm hj1)]
  · rw [Rbt.set_color, Rbt.dataLength_updateNode, Rbt.set_color, Rbt.dataLength_updateNode]

/-- Simulation of cases 4/5 of the insert fixup (`Rbt.fixup_ins_rotate`):
with a red parent `p` under grandparent `g` and current node `x`, the
one or two rotations and the two recolourings succeed, preserve the
in-order contents, and leave the (possibly new) root black. -/
theorem Rbt.fixup_ins_rotate_sim {s : Rbt} {t : Tr} {rt : Nat}
    (hreps : RbtReps s none (some rt) t) (hhead : s.head = some rt)
    (hnd : t.indices.Nodup)
    {rs : List Bool} (b1 b2 : Bool) {GA GB PA PB A B : Tr} {g p x : Nat} {kg kp kx : Int}
    (hgrs : Tr.getPath t rs = some (Tr.node GA g kg GB))
    (hueqP : Tr.node PA p kp PB = (if b1 then GB else GA))
    (hueqX : Tr.node A x kx B = (if b2 then PB else PA))
    (hrteq : ∀ rn, Rbt.node? s rt = some rn → rn.color = BLACK) :
    ∃ s' rt' t',
      Rbt.fixup_ins_rotate s x p g = .ok s' ∧
      RbtReps s' none (some rt') t' ∧
      s'.head = some rt' ∧
      t'.inorder = t.inorder ∧
      (∀ j, j ∉ t.indices → Rbt.node? s' j = Rbt.node? s j) ∧
      s'.storage.free_indices = s.storage.free_indices ∧
      s'.storage.length = s.storage.length ∧
      s'.storage.data.length = s.storage.data.length ∧
      (∀ rn, Rbt.node? s' rt' = some rn → rn.color = BLACK) := by
  cases b1 with
  | false =>
    have hP : Tr.node PA p kp PB = GA := hueqP
    subst hP
    cases b2 with
    | false =>
      have hX : Tr.node A x kx B = PA := hueqX
      subst hX
      obtain ⟨qg, hGrep⟩ := hreps.getPath_reps hgrs
      have hndG := Tr.nodup_getPath hnd hgrs
      obtain ⟨hndGA, hndGB, hgGA, hgGB, hdisjG⟩ := Tr.nodup_node_parts hndG
      obtain ⟨hndXN, hndPB, hpXN, hpPB, hdisjP⟩ := Tr.nodup_node_parts hndGA
      cases hGrep with
      | node _ _ gn _ _ hgn hgp hgl hgr =>
        have hgnl : gn.left = some p := hgl.node_root
        rw [hgnl] at hgl
        cases hgl with
        | node _ _ pn _ _ hpn hpp hpl hpr =>
          have hpnl : pn.left = some x := hpl.node_root
          have hpnrPB : pn.right = PB.rootIdx := hpr.ptr_eq_rootIdx
          have hxXN : x ∈ (Tr.node A x kx B).indices := Tr.rootIdx_mem rfl
          have hinner : ¬(pn.right = some x) := by
            rw [hpnrPB]
            intro h
            exact hdisjP x hxXN (Tr.rootIdx_mem h)
          have hpg : p ≠ g := by
            intro h
            subst h
            exact hgGA (Tr.rootIdx_mem rfl)
          obtain ⟨sB, rtB, hrunB, hrepsB, hheadB, hrootB, hframeB, hcolB, hfreeB, hlenB,
            hdlenB⟩ := Rbt.rotate_right_sim hreps hhead hnd hgrs
          have hblack : rtB = p ∨ (rtB ≠ p ∧ rtB ≠ g ∧
              ∀ rn, Rbt.node? sB rtB = some rn → rn.color = BLACK) := by
            cases rs with
            | nil =>
              rw [Tr.setPath_nil] at hrootB
              have h1 : some p = some rtB := hrootB
              injection h1 with h1
              exact Or.inl h1.symm
            | cons c rs0 =>
              obtain ⟨rn0, l0, k0, r0, hrn0, hrp0, ht0⟩ := hreps.root_rec
              have h1 := hrootB
              rw [Tr.setPath_rootIdx] at h1
              have h2 : some rt = some rtB := by
                rw [← h1]
                exact hreps.ptr_eq_rootIdx
              injection h2 with h2
              subst h2
              have hgrs0 : Tr.getPath (Tr.node l0 rt k0 r0) (c :: rs0) =
                  some (Tr.node (Tr.node (Tr.node A x kx B) p pn.data PB) g gn.data GB) := by
                rw [← ht0]
                exact hgrs
              have hnd0 : (Tr.node l0 rt k0 r0).indices.Nodup := by
                rw [← ht0]
                exact hnd
              have hrtG := Tr.root_notin_deep hnd0 hgrs0
              have hrtp : rt ≠ p := by
                intro h
                subst h
                refine hrtG ?_
                rw [Tr.indices_node]
                exact List.mem_append_left _ (Tr.rootIdx_mem rfl)
              have hrtg : rt ≠ g := by
                intro h
                subst h
                exact hrtG (Tr.rootIdx_mem rfl)
              refine Or.inr ⟨hrtp, hrtg, ?_⟩
              intro rn h
              have hcol := hcolB rt
              rw [h, hrn0, Option.map_some', Option.map_some'] at hcol
              injection hcol with hcol
              rw [hcol]
              exact hrteq rn0 hrn0
          obtain ⟨hrepsF, hheadF, hrtbF, hfrF, hfreeF, hlenF, hdlenF⟩ :=
            Rbt.set_colors_final hrepsB hpg hblack
          have hgT : g ∈ t.indices := Tr.mem_of_getPath hgrs g (Tr.rootIdx_mem rfl)
          have hpT : p ∈ t.indices := by
            refine Tr.mem_of_getPath hgrs p ?_
            rw [Tr.indices_node]
            exact List.mem_append_left _ (Tr.rootIdx_mem rfl)
          refine ⟨(sB.set_color p BLACK).set_color g RED, rtB,
            Tr.setPath t rs (Tr.node (Tr.node A x kx B) p pn.data
              (Tr.node PB g gn.data GB)),
            ?_, hrepsF, ?_, ?_, ?_, ?_, ?_, ?_, hrtbF⟩
          · simp only [Rbt.fixup_ins_rotate, hgn]
            rw [if_pos hgnl]
            simp only [hpn, if_neg hinner, hrunB]
          · exact hheadF.trans hheadB
          · exact Tr.inorder_setPath_eq hgrs Tr.inorder_rotl.symm
          · intro j hj
            have hjp : j ≠ p := by
              intro h
              subst h
              exact hj hpT
            have hjg : j ≠ g := by
              intro h
              subst h
              exact hj hgT
            rw [hfrF j hjp hjg]
            exact hframeB j hj
          · exact hfreeF.trans hfreeB
          · exact hlenF.trans hlenB
          · exact hdlenF.trans hdlenB
    | true =>
      have hX : Tr.node A x kx B = PB := hueqX
      subst hX
      obtain ⟨qg, hGrep⟩ := hreps.getPath_reps hgrs
      have hndG := Tr.nodup_getPath hnd hgrs
      obtain ⟨hndGA, hndGB, hgGA, hgGB, hdisjG⟩ := Tr.nodup_node_parts hndG
      obtain ⟨hndPA, hndXN, hpPA, hpXN, hdisjP⟩ := Tr.nodup_node_parts hndGA
      cases hGrep with
      | node _ _ gn _ _ hgn hgp hgl hgr =>
        have hgnl : gn.left = some p := hgl.node_root
        rw [hgnl] at hgl
        cases hgl with
        | node _ _ pn _ _ hpn hpp hpl hpr =>
          have hpnr : pn.right = some x := hpr.node_root
          have hpg : p ≠ g := by
            intro h
            subst h
            exact hgGA (Tr.rootIdx_mem rfl)
          have hxGA : x ∈ (Tr.node PA p pn.data (Tr.node A x kx B)).indices := by
            rw [Tr.indices_node]
            exact List.mem_append_right _ (List.mem_cons_of_mem _ (Tr.rootIdx_mem rfl))
          have hxg : x ≠ g := by
            intro h
            subst h
            exact hgGA hxGA
          have hgetP : Tr.getPath t (rs ++ [false]) =
              some (Tr.node PA p pn.data (Tr.node A x kx B)) :=
            Tr.getPath_concat.mpr ⟨_, _, _, _, hgrs, rfl⟩
          obtain ⟨sA, rtA, hrunA, hrepsA, hheadA, hrootA, hframeA, hcolA, hfreeA, hlenA,
            hdlenA⟩ := Rbt.rotate_left_sim hreps hhead hnd hgetP
          have hin1 : (Tr.setPath t (rs ++ [false])
              (Tr.node (Tr.node PA p pn.data A) x kx B)).inorder = t.inorder :=
            Tr.inorder_setPath_eq hgetP Tr.inorder_rotl
          have hidx1 : (Tr.setPath t (rs ++ [false])
              (Tr.node (Tr.node PA p pn.data A) x kx B)).indices = t.indices := by
            simp only [Tr.indices, hin1]
          have hnd1 : (Tr.setPath t (rs ++ [false])
              (Tr.node (Tr.node PA p pn.data A) x kx B)).indices.Nodup := by
            rw [hidx1]
            exact hnd
          have hget2 : Tr.getPath (Tr.setPath t (rs ++ [false])
              (Tr.node (Tr.node PA p pn.data A) x kx B)) rs =
              some (Tr.node (Tr.node (Tr.node PA p pn.data A) x kx B) g gn.data GB) :=
            Tr.getPath_setPath_parent hgrs false _
          obtain ⟨sB, rtB, hrunB, hrepsB, hheadB, hrootB, hframeB, hcolB, hfreeB, hlenB,
            hdlenB⟩ := Rbt.rotate_right_sim hrepsA hheadA hnd1 hget2
          have hblack : rtB = x ∨ (rtB ≠ x ∧ rtB ≠ g ∧
              ∀ rn, Rbt.node? sB rtB = some rn → rn.color = BLACK) := by
            cases rs with
            | nil =>
              rw [Tr.setPath_nil] at hrootB
              have h1 : some x = some rtB := hrootB
              injection h1 with h1
              exact Or.inl h1.symm
            | cons c rs0 =>
              obtain ⟨rn0, l0, k0, r0, hrn0, hrp0, ht0⟩ := hreps.root_rec
              have h1 := hrootB
              rw [Tr.setPath_rootIdx, List.cons_append, Tr.setPath_rootIdx] at h1
              have h2 : some rt = some rtB := by
                rw [← h1]
                exact hreps.ptr_eq_rootIdx
              injection h2 with h2
              subst h2
              have hgrs0 : Tr.getPath (Tr.node l0 rt k0 r0) (c :: rs0) =
                  some (Tr.node (Tr.node PA p pn.data (Tr.node A x kx B)) g gn.data GB) := by
                rw [← ht0]
                exact hgrs
              have hnd0 : (Tr.node l0 rt k0 r0).indices.Nodup := by
                rw [← ht0]
                exact hnd
              have hrtG := Tr.root_notin_deep hnd0 hgrs0
              have hrtx : rt ≠ x := by
                intro h
                subst h
                refine hrtG ?_
                rw [Tr.indices_node]
                exact List.mem_append_left _ hxGA
              have hrtg : rt ≠ g := by
                intro h
                subst h
                exact hrtG (Tr.rootIdx_mem rfl)
              refine Or.inr ⟨hrtx, hrtg, ?_⟩
              intro rn h
              have hcol := hcolB rt
              rw [h, hcolA rt, hrn0, Option.map_some', Option.map_some'] at hcol
              injection hcol with hcol
              rw [hcol]
              exact hrteq rn0 hrn0
          obtain ⟨hrepsF, hheadF, hrtbF, hfrF, hfreeF, hlenF, hdlenF⟩ :=
            Rbt.set_colors_final hrepsB hxg hblack
          have hgT : g ∈ t.indices := Tr.mem_of_getPath hgrs g (Tr.rootIdx_mem rfl)
          have hxT : x ∈ t.indices := by
            refine Tr.mem_of_getPath hgrs x ?_
            rw [Tr.indices_node]
            exact List.mem_append_left _ hxGA
          refine ⟨(sB.set_color x BLACK).set_color g RED, rtB,
            Tr.setPath (Tr.setPath t (rs ++ [false])
              (Tr.node (Tr.node PA p pn.data A) x kx B)) rs
              (Tr.node (Tr.node PA p pn.data A) x kx (Tr.node B g gn.data GB)),
            ?_, hrepsF, ?_, ?_, ?_, ?_, ?_, ?_, hrtbF⟩
          · simp only [Rbt.fixup_ins_rotate, hgn]
            rw [if_pos hgnl]
            simp only [hpn, if_pos hpnr, hrunA, hrunB]
          · exact hheadF.trans hheadB
          · refine Eq.trans ?_ hin1
            exact Tr.inorder_setPath_eq hget2 Tr.inorder_rotl.symm
          · intro j hj
            have hjx : j ≠ x := by
              intro h
              subst h
              exact hj hxT
            have hjg : j ≠ g := by
              intro h
              subst h
              exact hj hgT
            rw [hfrF j hjx hjg, hframeB j (by rw [hidx1]; exact hj)]
            exact hframeA j hj
          · exact hfreeF.trans (hfreeB.trans hfreeA)
          · exact hlenF.trans (hlenB.trans hlenA)
          · exact hdlenF.trans (hdlenB.trans hdlenA)
  | true =>
    have hP : Tr.node PA p kp PB = GB := hueqP
    subst hP
    cases b2 with
    | true =>
      have hX : Tr.node A x kx B = PB := hueqX
      subst hX
      obtain ⟨qg, hGrep⟩ := hreps.getPath_reps hgrs
      have hndG := Tr.nodup_getPath hnd hgrs
      obtain ⟨hndGA, hndGB, hgGA, hgGB, hdisjG⟩ := Tr.nodup_node_parts hndG
      obtain ⟨hndPA, hndXN, hpPA, hpXN, hdisjP⟩ := Tr.nodup_node_parts hndGB
      cases hGrep with
      | node _ _ gn _ _ hgn hgp hgl hgr =>
        have hgnr : gn.right = some p := hgr.node_root
        have hglGA : gn.left = GA.rootIdx := hgl.ptr_eq_rootIdx
        have hpGB : p ∈ (Tr.node PA p kp (Tr.node A x kx B)).indices := by
          rw [Tr.indices_node]
          exact List.mem_append_right _ (List.mem_cons_self _ _)
        have hgnlne : ¬(gn.left = some p) := by
          rw [hglGA]
          intro h
          exact hdisjG p (Tr.rootIdx_mem h) hpGB
        rw [hgnr] at hgr
        cases hgr with
        | node _ _ pn _ _ hpn hpp hpl hpr =>
          have hpnlPA : pn.left = PA.rootIdx := hpl.ptr_eq_rootIdx
          have hxXN : x ∈ (Tr.node A x kx B).indices := Tr.rootIdx_mem rfl
          have hinner : ¬(pn.left = some x) := by
            rw [hpnlPA]
            intro h
            exact hdisjP x (Tr.rootIdx_mem h) hxXN
          have hpg : p ≠ g := by
            intro h
            subst h
            exact hgGB (Tr.rootIdx_mem rfl)
          obtain ⟨sB, rtB, hrunB, hrepsB, hheadB, hrootB, hframeB, hcolB, hfreeB, hlenB,
            hdlenB⟩ := Rbt.rotate_left_sim hreps hhead hnd hgrs
          have hblack : rtB = p ∨ (rtB ≠ p ∧ rtB ≠ g ∧
              ∀ rn, Rbt.node? sB rtB = some rn → rn.color = BLACK) := by
            cases rs with
            | nil =>
              rw [Tr.setPath_nil] at hrootB
              have h1 : some p = some rtB := hrootB
              injection h1 with h1
              exact Or.inl h1.symm
            | cons c rs0 =>
              obtain ⟨rn0, l0, k0, r0, hrn0, hrp0, ht0⟩ := hreps.root_rec
              have h1 := hrootB
              rw [Tr.setPath_rootIdx] at h1
              have h2 : some rt = some rtB := by
                rw [← h1]
                exact hreps.ptr_eq_rootIdx
              injection h2 with h2
              subst h2
              have hgrs0 : Tr.getPath (Tr.node l0 rt k0 r0) (c :: rs0) =
                  some (Tr.node GA g gn.data (Tr.node PA p pn.data (Tr.node A x kx B))) := by
                rw [← ht0]
                exact hgrs
              have hnd0 : (Tr.node l0 rt k0 r0).indices.Nodup := by
                rw [← ht0]
                exact hnd
              have hrtG := Tr.root_notin_deep hnd0 hgrs0
              have hrtp : rt ≠ p := by
                intro h
                subst h
                refine hrtG ?_
                rw [Tr.indices_node]
                exact List.mem_append_right _ (List.mem_cons_of_mem _ hpGB)
              have hrtg : rt ≠ g := by
                intro h
                subst h
                exact hrtG (Tr.rootIdx_mem rfl)
              refine Or.inr ⟨hrtp, hrtg, ?_⟩
              intro rn h
              have hcol := hcolB rt
              rw [h, hrn0, Option.map_some', Option.map_some'] at hcol
              injection hcol with hcol
              rw [hcol]
              exact hrteq rn0 hrn0
          obtain ⟨hrepsF, hheadF, hrtbF, hfrF, hfreeF, hlenF, hdlenF⟩ :=
            Rbt.set_colors_final hrepsB hpg hblack
          have hgT : g ∈ t.indices := Tr.mem_of_getPath hgrs g (Tr.rootIdx_mem rfl)
          have hpT : p ∈ t.indices := by
            refine Tr.mem_of_getPath hgrs p ?_
            rw [Tr.indices_node]
            exact List.mem_append_right _ (List.mem_cons_of_mem _ hpGB)
          refine ⟨(sB.set_color p BLACK).set_color g RED, rtB,
            Tr.setPath t rs (Tr.node (Tr.node GA g gn.data PA) p pn.data
              (Tr.node A x kx B)),
            ?_, hrepsF, ?_, ?_, ?_, ?_, ?_, ?_, hrtbF⟩
          · simp only [Rbt.fixup_ins_rotate, hgn]
            rw [if_neg hgnlne, if_pos hgnr]
            simp only [hpn, if_neg hinner, hrunB]
          · exact hheadF.trans hheadB
          · exact Tr.inorder_setPath_eq hgrs Tr.inorder_rotl
          · intro j hj
            have hjp : j ≠ p := by
              intro h
              subst h
              exact hj hpT
            have hjg : j ≠ g := by
              intro h
              subst h
              exact hj hgT
            rw [hfrF j hjp hjg]
            exact hframeB j hj
          · exact hfreeF.trans hfreeB
          · exact hlenF.trans hlenB
          · exact hdlenF.trans hdlenB
    | false =>
      have hX : Tr.node A x kx B = PA := hueqX
      subst hX
      obtain ⟨qg, hGrep⟩ := hreps.getPath_reps hgrs
      have hndG := Tr.nodup_getPath hnd hgrs
      obtain ⟨hndGA, hndGB, hgGA, hgGB, hdisjG⟩ := Tr.nodup_node_parts hndG
      obtain ⟨hndXN, hndPB, hpXN, hpPB, hdisjP⟩ := Tr.nodup_node_parts hndGB
      cases hGrep with
      | node _ _ gn _ _ hgn hgp hgl hgr =>
        have hgnr : gn.right = some p := hgr.node_root
        have hglGA : gn.left = GA.rootIdx := hgl.ptr_eq_rootIdx
        have hpGB : p ∈ (Tr.node (Tr.node A x kx B) p kp PB).indices := by
          rw [Tr.indices_node]
          exact List.mem_append_right _ (List.mem_cons_self _ _)
        have hgnlne : ¬(gn.left = some p) := by
          rw [hglGA]
          intro h
          exact hdisjG p (Tr.rootIdx_mem h) hpGB
        rw [hgnr] at hgr
        cases hgr with
        | node _ _ pn _ _ hpn hpp hpl hpr =>
          have hpnl : pn.left = some x := hpl.node_root
          have hpg : p ≠ g := by
            intro h
            subst h
            exact hgGB (Tr.rootIdx_mem rfl)
          have hxGB : x ∈ (Tr.node (Tr.node A x kx B) p pn.data PB).indices := by
            rw [Tr.indices_node]
            exact List.mem_append_left _ (Tr.rootIdx_mem rfl)
          have hxg : x ≠ g := by
            intro h
            subst h
            exact hgGB hxGB
          have hgetP : Tr.getPath t (rs ++ [true]) =
              some (Tr.node (Tr.node A x kx B) p pn.data PB) :=
            Tr.getPath_concat.mpr ⟨_, _, _, _, hgrs, rfl⟩
          obtain ⟨sA, rtA, hrunA, hrepsA, hheadA, hrootA, hframeA, hcolA, hfreeA, hlenA,
            hdlenA⟩ := Rbt.rotate_right_sim hreps hhead hnd hgetP
          have hin1 : (Tr.setPath t (rs ++ [true])
              (Tr.node A x kx (Tr.node B p pn.data PB))).inorder = t.inorder :=
            Tr.inorder_setPath_eq hgetP Tr.inorder_rotl.symm
          have hidx1 : (Tr.setPath t (rs ++ [true])
              (Tr.node A x kx (Tr.node B p pn.data PB))).indices = t.indices := by
            simp only [Tr.indices, hin1]
          have hnd1 : (Tr.setPath t (rs ++ [true])
              (Tr.node A x kx (Tr.node B p pn.data PB))).indices.Nodup := by
            rw [hidx1]
            exact hnd
          have hget2 : Tr.getPath (Tr.setPath t (rs ++ [true])
              (Tr.node A x kx (Tr.node B p pn.data PB))) rs =
              some (Tr.node GA g gn.data (Tr.node A x kx (Tr.node B p pn.data PB))) :=
            Tr.getPath_setPath_parent hgrs true _
          obtain ⟨sB, rtB, hrunB, hrepsB, hheadB, hrootB, hframeB, hcolB, hfreeB, hlenB,
            hdlenB⟩ := Rbt.rotate_left_sim hrepsA hheadA hnd1 hget2
          have hblack : rtB = x ∨ (rtB ≠ x ∧ rtB ≠ g ∧
              ∀ rn, Rbt.node? sB rtB = some rn → rn.color = BLACK) := by
            cases rs with
            | nil =>
              rw [Tr.setPath_nil] at hrootB
              have h1 : some x = some rtB := hrootB
              injection h1 with h1
              exact Or.inl h1.symm
            | cons c rs0 =>
              obtain ⟨rn0, l0, k0, r0, hrn0, hrp0, ht0⟩ := hreps.root_rec
              have h1 := hrootB
              rw [Tr.setPath_rootIdx, List.cons_append, Tr.setPath_rootIdx] at h1
              have h2 : some rt = some rtB := by
                rw [← h1]
                exact hreps.ptr_eq_rootIdx
              injection h2 with h2
              subst h2
              have hgrs0 : Tr.getPath (Tr.node l0 rt k0 r0) (c :: rs0) =
                  some (Tr.node GA g gn.data (Tr.node (Tr.node A x kx B) p pn.data PB)) := by
                rw [← ht0]
                exact hgrs
              have hnd0 : (Tr.node l0 rt k0 r0).indices.Nodup := by
                rw [← ht0]
                exact hnd
              have hrtG := Tr.root_notin_deep hnd0 hgrs0
              have hrtx : rt ≠ x := by
                intro h
                subst h
                refine hrtG ?_
                rw [Tr.indices_node]
                exact List.mem_append_right _ (List.mem_cons_of_mem _ hxGB)
              have hrtg : rt ≠ g := by
                intro h
                subst h
                exact hrtG (Tr.rootIdx_mem rfl)
              refine Or.inr ⟨hrtx, hrtg, ?_⟩
              intro rn h
              have hcol := hcolB rt
              rw [h, hcolA rt, hrn0, Option.map_some', Option.map_some'] at hcol
              injection hcol with hcol
              rw [hcol]
              exact hrteq rn0 hrn0
          obtain ⟨hrepsF, hheadF, hrtbF, hfrF, hfreeF, hlenF, hdlenF⟩ :=
            Rbt.set_colors_final hrepsB hxg hblack
          have hgT : g ∈ t.indices := Tr.mem_of_getPath hgrs g (Tr.rootIdx_mem rfl)
          have hxT : x ∈ t.indices := by
            refine Tr.mem_of_getPath hgrs x ?_
            rw [Tr.indices_node]
            exact List.mem_append_right _ (List.mem_cons_of_mem _ hxGB)
          refine ⟨(sB.set_color x BLACK).set_color g RED, rtB,
            Tr.setPath (Tr.setPath t (rs ++ [true])
              (Tr.node A x kx (Tr.node B p pn.data PB))) rs
              (Tr.node (Tr.node GA g gn.data A) x kx (Tr.node B p pn.data PB)),
            ?_, hrepsF, ?_, ?_, ?_, ?_, ?_, ?_, hrtbF⟩
          · simp only [Rbt.fixup_ins_rotate, hgn]
            rw [if_neg hgnlne, if_pos hgnr]
            simp only [hpn, if_pos hpnl, hrunA, hrunB]
          · exact hheadF.trans hheadB
          · refine Eq.trans ?_ hin1
            exact Tr.inorder_setPath_eq hget2 Tr.inorder_rotl
          · intro j hj
            have hjx : j ≠ x := by
              intro h
              subst h
              exact hj hxT
            have hjg : j ≠ g := by
              intro h
              subst h
              exact hj hgT
            rw [hfrF j hjx hjg, hframeB j (by rw [hidx1]; exact hj)]
            exact hframeA j hj
          · exact hfreeF.trans (hfreeB.trans hfreeA)
          · exact hlenF.trans (hlenB.trans hlenA)
          · exact hdlenF.trans (hdlenB.trans hdlenA)

/-- Simulation of `Rbt.fixup_insert`: on a represented tree with distinct
slots, enough fuel, and a black root (unless the current node is the root
itself), the fixup succeeds, preserves the in-order contents, the slots
outside the tree, and the storage bookkeeping, and leaves the root black. -/
theorem Rbt.fixup_sim {fuel : Nat} :
    ∀ {s : Rbt} {t : Tr} {rt x : Nat} {ps : List Bool} {A B : Tr} {kx : Int},
    ps.length < fuel →
    RbtReps s none (some rt) t →
    s.head = some rt →
    t.indices.Nodup →
    Tr.getPath t ps = some (Tr.node A x kx B) →
    ((∀ rn, Rbt.node? s rt = some rn → rn.color = BLACK) ∨ x = rt) →
    ∃ s' rt' t',
      Rbt.fixup_insert fuel s x = .ok s' ∧
      RbtReps s' none (some rt') t' ∧
      s'.head = some rt' ∧
      t'.inorder = t.inorder ∧
      (∀ j, j ∉ t.indices → Rbt.node? s' j = Rbt.node? s j) ∧
      s'.storage.free_indices = s.storage.free_indices ∧
      s'.storage.length = s.storage.length ∧
      s'.storage.data.length = s.storage.data.length ∧
      (∀ rn, Rbt.node? s' rt' = some rn → rn.color = BLACK) := by
  induction fuel with
  | zero =>
    intro s t rt x ps A B kx hfuel
    exact absurd hfuel (Nat.not_lt_zero _)
  | succ fuel ih =>
    intro s t rt x ps A B kx hfuel hreps hhead hnd hget hroot
    have hu2 := hreps
    rcases hreps.at_path hget with ⟨rfl, rfl⟩ | ⟨qs, b2, PA, pj, kp, PB, rfl, hgqs, hueqX, hXrep⟩
    · have h0 : some rt = some x := hu2.ptr_eq_rootIdx
      injection h0 with h0
      obtain ⟨rn0, l0, k0, r0, hrn0, hrp0, ht0⟩ := hu2.root_rec
      rw [h0] at hu2 hhead hrn0
      refine ⟨s.set_color x BLACK, x, Tr.node A x kx B, ?_, hu2.set_color x BLACK, hhead,
        rfl, ?_, rfl, rfl, ?_, ?_⟩
      · simp only [Rbt.fixup_insert, hrn0, hrp0]
      · intro j hj
        have hjx : j ≠ x := by
          intro h
          subst h
          exact hj (Tr.rootIdx_mem rfl)
        rw [Rbt.set_color, Rbt.node?_updateNode_ne _ _ _ _ (Ne.symm hjx)]
      · exact Rbt.dataLength_updateNode s x _
      · intro rn h
        rw [Rbt.set_color, Rbt.node?_updateNode_self, hrn0, Option.map_some'] at h
        injection h with h
        rw [← h]
    · cases hXrep with
      | node _ _ xn _ _ hxn hxp hxl hxr =>
        obtain ⟨rn0, l0, k0, r0, hrn0, hrp0, ht0⟩ := hu2.root_rec
        have hner : ∀ {i : Nat} {nd : RbtNode} {pp : Nat},
            Rbt.node? s i = some nd → nd.parent = some pp → i ≠ rt := by
          intro i nd pp h1 h2 h3
          rw [h3, hrn0] at h1
          injection h1 with h1
          rw [← h1, hrp0] at h2
          cases h2
        have hxrt : x ≠ rt := hner hxn hxp
        have hrteq : ∀ rn, Rbt.node? s rt = some rn → rn.color = BLACK :=
          hroot.resolve_right hxrt
        rcases hu2.at_path hgqs with ⟨rfl, rfl⟩ |
          ⟨rs, b1, GA, gj, kg, GB, rfl, hgrs, hueqP, hPrep⟩
        · have h0 : some rt = some pj := hu2.ptr_eq_rootIdx
          injection h0 with h0
          have hblk : rn0.color = BLACK := hrteq rn0 hrn0
          have hrn0' : Rbt.node? s pj = some rn0 := by
            rw [← h0]
            exact hrn0
          refine ⟨s, rt, Tr.node PA pj kp PB, ?_, hu2, hhead, rfl, fun j _ => rfl,
            rfl, rfl, rfl, hrteq⟩
          simp only [Rbt.fixup_insert, hxn, hxp, hrn0', if_pos hblk]
        · cases hPrep with
          | node _ _ pn _ _ hpn hpp hppl hppr =>
            by_cases hc : pn.color = BLACK
            · refine ⟨s, rt, t, ?_, hu2, hhead, rfl, fun j _ => rfl,
                rfl, rfl, rfl, hrteq⟩
              simp only [Rbt.fixup_insert, hxn, hxp, hpn, if_pos hc]
            · obtain ⟨qg, hGrep⟩ := hu2.getPath_reps hgrs
              have hndG := Tr.nodup_getPath hnd hgrs
              obtain ⟨hndGA, hndGB, hgGA, hgGB, hdisjG⟩ := Tr.nodup_node_parts hndG
              cases hGrep with
              | node _ _ gn _ _ hgn hgp hgl hgr =>
                cases b1 with
                | false =>
                  have hP : Tr.node PA pj pn.data PB = GA := hueqP
                  subst hP
                  have hgnl : gn.left = some pj := hgl.node_root
                  have hgnrGB : gn.right = GB.rootIdx := hgr.ptr_eq_rootIdx
                  have hsib : Rbt.sibling s pj = .ok gn.right := by
                    simp only [Rbt.sibling, hpn, hpp, hgn]
                    rw [if_pos hgnl]
                  have hpjmem : pj ∈ t.indices := by
                    refine Tr.mem_of_getPath hgrs pj ?_
                    rw [Tr.indices_node]
                    exact List.mem_append_left _ (Tr.rootIdx_mem rfl)
                  have hgjmem : gj ∈ t.indices :=
                    Tr.mem_of_getPath hgrs gj (Tr.rootIdx_mem rfl)
                  cases GB with
                  | leaf =>
                    have hgnr : gn.right = none := hgnrGB
                    obtain ⟨s', rt', t', hrun, hrx, hhx, hix, hfrx, hfreex, hlenx, hdlx,
                      hrbx⟩ := Rbt.fixup_ins_rotate_sim hu2 hhead hnd false b2 hgrs rfl hueqX hrteq
                    refine ⟨s', rt', t', ?_, hrx, hhx, hix, hfrx, hfreex, hlenx, hdlx, hrbx⟩
                    simp only [Rbt.fixup_insert, hxn, hxp, hpn, if_neg hc, hpp, hsib, hgnr]
                    exact hrun
                  | node UA u ku UB =>
                    have hgnr : gn.right = some u := hgnrGB
                    rw [hgnr] at hgr
                    cases hgr with
                    | node _ _ un _ _ hun hup hul hur =>
                      have humem : u ∈ t.indices := by
                        refine Tr.mem_of_getPath hgrs u ?_
                        rw [Tr.indices_node]
                        exact List.mem_append_right _
                          (List.mem_cons_of_mem _ (Tr.rootIdx_mem rfl))
                      by_cases huc : un.color = RED
                      · have hreps1 : RbtReps (((s.set_color pj BLACK).set_color gj
                            RED).set_color u BLACK) none (some rt) t :=
                          ((hu2.set_color pj BLACK).set_color gj RED).set_color u BLACK
                        have hfuel1 : rs.length < fuel := by
                          simp only [List.length_append, List.length_cons,
                            List.length_nil] at hfuel
                          omega
                        have hroot1 : (∀ rn, Rbt.node? (((s.set_color pj
                            BLACK).set_color gj RED).set_color u BLACK) rt = some rn →
                            rn.color = BLACK) ∨ gj = rt := by
                          by_cases hgrt : gj = rt
                          · exact Or.inr hgrt
                          · refine Or.inl ?_
                            intro rn h
                            rw [Rbt.set_color, Rbt.node?_updateNode_ne _ _ _ _
                                (hner hun hup),
                              Rbt.set_color, Rbt.node?_updateNode_ne _ _ _ _ hgrt,
                              Rbt.set_color, Rbt.node?_updateNode_ne _ _ _ _
                                (hner hpn hpp)] at h
                            exact hrteq rn h
                        obtain ⟨s', rt', t', hrun, hrx, hhx, hix, hfrx, hfreex, hlenx,
                          hdlx, hrbx⟩ := ih hfuel1 hreps1 hhead hnd hgrs hroot1
                        refine ⟨s', rt', t', ?_, hrx, hhx, hix, ?_, hfreex, hlenx, ?_,
                          hrbx⟩
                        · simp only [Rbt.fixup_insert, hxn, hxp, hpn, if_neg hc, hpp,
                            hsib, hgnr, hun, if_pos huc]
                          exact hrun
                        · intro j hj
                          rw [hfrx j hj]
                          have hjp : j ≠ pj := by
                            intro h
                            subst h
                            exact hj hpjmem
                          have hjg : j ≠ gj := by
                            intro h
                            subst h
                            exact hj hgjmem
                          have hju : j ≠ u := by
                            intro h
                            subst h
                            exact hj humem
                          rw [Rbt.set_color, Rbt.node?_updateNode_ne _ _ _ _
                              (Ne.symm hju),
                            Rbt.set_color, Rbt.node?_updateNode_ne _ _ _ _ (Ne.symm hjg),
                            Rbt.set_color, Rbt.node?_updateNode_ne _ _ _ _ (Ne.symm hjp)]
                        · refine hdlx.trans ?_
                          rw [Rbt.set_color, Rbt.dataLength_updateNode, Rbt.set_color,
                            Rbt.dataLength_updateNode, Rbt.set_color,
                            Rbt.dataLength_updateNode]
                      · obtain ⟨s', rt', t', hrun, hrx, hhx, hix, hfrx, hfreex, hlenx,
                          hdlx, hrbx⟩ :=
                          Rbt.fixup_ins_rotate_sim hu2 hhead hnd false b2 hgrs rfl hueqX hrteq
                        refine ⟨s', rt', t', ?_, hrx, hhx, hix, hfrx, hfreex, hlenx,
                          hdlx, hrbx⟩
                        simp only [Rbt.fixup_insert, hxn, hxp, hpn, if_neg hc, hpp, hsib,
                          hgnr, hun, if_neg huc]
                        exact hrun
                | true =>
                  have hP : Tr.node PA pj pn.data PB = GB := hueqP
                  subst hP
                  have hgnr : gn.right = some pj := hgr.node_root
                  have hglGA : gn.left = GA.rootIdx := hgl.ptr_eq_rootIdx
                  have hgnlne : ¬(gn.left = some pj) := by
                    rw [hglGA]
                    intro h
                    exact hdisjG pj (Tr.rootIdx_mem h) (Tr.rootIdx_mem rfl)
                  have hsib : Rbt.sibling s pj = .ok gn.left := by
                    simp only [Rbt.sibling, hpn, hpp, hgn]
                    rw [if_neg hgnlne, if_pos hgnr]
                  have hpjmem : pj ∈ t.indices := by
                    refine Tr.mem_of_getPath hgrs pj ?_
                    rw [Tr.indices_node]
                    exact List.mem_append_right _ (List.mem_cons_of_mem _
                      (Tr.rootIdx_mem rfl))
                  have hgjmem : gj ∈ t.indices :=
                    Tr.mem_of_getPath hgrs gj (Tr.rootIdx_mem rfl)
                  cases GA with
                  | leaf =>
                    have hgnl : gn.left = none := hglGA
                    obtain ⟨s', rt', t', hrun, hrx, hhx, hix, hfrx, hfreex, hlenx, hdlx,
                      hrbx⟩ := Rbt.fixup_ins_rotate_sim hu2 hhead hnd true b2 hgrs rfl hueqX hrteq
                    refine ⟨s', rt', t', ?_, hrx, hhx, hix, hfrx, hfreex, hlenx, hdlx, hrbx⟩
                    simp only [Rbt.fixup_insert, hxn, hxp, hpn, if_neg hc, hpp, hsib, hgnl]
                    exact hrun
                  | node UA u ku UB =>
                    have hgnl : gn.left = some u := hglGA
                    rw [hgnl] at hgl
                    cases hgl with
                    | node _ _ un _ _ hun hup hul hur =>
                      have humem : u ∈ t.indices := by
                        refine Tr.mem_of_getPath hgrs u ?_
                        rw [Tr.indices_node]
                        exact List.mem_append_left _ (Tr.rootIdx_mem rfl)
                      by_cases huc : un.color = RED
                      · have hreps1 : RbtReps (((s.set_color pj BLACK).set_color gj
                            RED).set_color u BLACK) none (some rt) t :=
                          ((hu2.set_color pj BLACK).set_color gj RED).set_color u BLACK
                        have hfuel1 : rs.length < fuel := by
                          simp only [List.length_append, List.length_cons,
                            List.length_nil] at hfuel
                          omega
                        have hroot1 : (∀ rn, Rbt.node? (((s.set_color pj
                            BLACK).set_color gj RED).set_color u BLACK) rt = some rn →
                            rn.color = BLACK) ∨ gj = rt := by
                          by_cases hgrt : gj = rt
                          · exact Or.inr hgrt
                          · refine Or.inl ?_
                            intro rn h
                            rw [Rbt.set_color, Rbt.node?_updateNode_ne _ _ _ _
                                (hner hun hup),
                              Rbt.set_color, Rbt.node?_updateNode_ne _ _ _ _ hgrt,
                              Rbt.set_color, Rbt.node?_updateNode_ne _ _ _ _
                                (hner hpn hpp)] at h
                            exact hrteq rn h
                        obtain ⟨s', rt', t', hrun, hrx, hhx, hix, hfrx, hfreex, hlenx,
                          hdlx, hrbx⟩ := ih hfuel1 hreps1 hhead hnd hgrs hroot1
                        refine ⟨s', rt', t', ?_, hrx, hhx, hix, ?_, hfreex, hlenx, ?_,
                          hrbx⟩
                        · simp only [Rbt.fixup_insert, hxn, hxp, hpn, if_neg hc, hpp,
                            hsib, hgnl, hun, if_pos huc]
                          exact hrun
                        · intro j hj
                          rw [hfrx j hj]
                          have hjp : j ≠ pj := by
                            intro h
                            subst h
                            exact hj hpjmem
                          have hjg : j ≠ gj := by
                            intro h
                            subst h
                            exact hj hgjmem
                          have hju : j ≠ u := by
                            intro h
                            subst h
                            exact hj humem
                          rw [Rbt.set_color, Rbt.node?_updateNode_ne _ _ _ _
                              (Ne.symm hju),
                            Rbt.set_color, Rbt.node?_updateNode_ne _ _ _ _ (Ne.symm hjg),
                            Rbt.set_color, Rbt.node?_updateNode_ne _ _ _ _ (Ne.symm hjp)]
                        · refine hdlx.trans ?_
                          rw [Rbt.set_color, Rbt.dataLength_updateNode, Rbt.set_color,
                            Rbt.dataLength_updateNode, Rbt.set_color,
                            Rbt.dataLength_updateNode]
                      · obtain ⟨s', rt', t', hrun, hrx, hhx, hix, hfrx, hfreex, hlenx,
                          hdlx, hrbx⟩ :=
                          Rbt.fixup_ins_rotate_sim hu2 hhead hnd true b2 hgrs rfl hueqX hrteq
                        refine ⟨s', rt', t', ?_, hrx, hhx, hix, hfrx, hfreex, hlenx,
                          hdlx, hrbx⟩
                        simp only [Rbt.fixup_insert, hxn, hxp, hpn, if_neg hc, hpp, hsib,
                          hgnl, hun, if_neg huc]
                        exact hrun

theorem Rbt.size_le_cap {s : Rbt} {t : Tr} (h : Rbt.WF s t) :
    t.size ≤ s.storage.data.length := by
  have := h.count
  omega

theorem Tr.size_eq_inorder (t : Tr) : t.size = t.inorder.length := by
  induction t with
  | leaf => rfl
  | node l i k r ihl ihr =>
    simp only [Tr.size, Tr.inorder, List.length_append, List.length_cons, ihl, ihr]
    omega

/-- One full `Rbt.insert` step on a well-formed state with a fresh key and a
free slot: the call succeeds, well-formedness is preserved for a tree whose
in-order contents are those of the functional insert, the capacity is
unchanged and exactly the popped slot leaves the free stack. -/
theorem Rbt.insert_WF {s : Rbt} {t : Tr} {k : Int}
    (h : Rbt.WF s t) (hk : k ∉ t.keys)
    (hfree : s.storage.free_indices ≠ []) :
    ∃ x s' t', Rbt.insert s k = .ok (.ok (), s') ∧ x ∉ t.indices ∧ Rbt.WF s' t' ∧
      t'.inorder = (Tr.ins x k t).inorder ∧
      s'.storage.data.length = s.storage.data.length ∧
      s'.storage.free_indices = s.storage.free_indices.tail := by
  match hfe : s.storage.free_indices, hfree with
  | x :: rest, _ =>
    have hxfree : x ∈ s.storage.free_indices := by
      rw [hfe]
      exact List.mem_cons_self _ _
    have hxcap : x < s.storage.data.length := h.freeCap x hxfree
    have hxt : x ∉ t.indices := h.freeTree x hxfree
    have hxrest : x ∉ rest := by
      have hnd := h.freeNodup
      rw [hfe, List.nodup_cons] at hnd
      exact hnd.1
    have hrestnd : rest.Nodup := by
      have hnd := h.freeNodup
      rw [hfe, List.nodup_cons] at hnd
      exact hnd.2
    have hadd : RbtStorage.add s.storage k = .ok (x, { data := s.storage.data.set x (true, RbtNode.new k), length := s.storage.length + 1, free_indices := rest }) := by
      simp [RbtStorage.add, hfe]
    have hnode1 : Rbt.node? (Rbt.set_color ({ s with storage := { data := s.storage.data.set x (true, RbtNode.new k), length := s.storage.length + 1, free_indices := rest } } : Rbt) x RED) x = some (RbtNode.new k) := by
      rw [Rbt.set_color, Rbt.node?_updateNode_self]
      simp only [Rbt.node?, List.getElem?_set_eq_of_lt _ hxcap, Option.map_some']
      rfl
    have hframe1 : ∀ j, j ≠ x → Rbt.node? (Rbt.set_color ({ s with storage := { data := s.storage.data.set x (true, RbtNode.new k), length := s.storage.length + 1, free_indices := rest } } : Rbt) x RED) j = Rbt.node? s j := by
      intro j hj
      rw [Rbt.set_color, Rbt.node?_updateNode_ne _ _ _ _ (fun hh => hj hh.symm)]
      simp only [Rbt.node?, List.getElem?_set_ne (fun hh => hj hh.symm)]
    have hdlS1 : ((Rbt.set_color ({ s with storage := { data := s.storage.data.set x (true, RbtNode.new k), length := s.storage.length + 1, free_indices := rest } } : Rbt) x RED)).storage.data.length = s.storage.data.length := by
      rw [Rbt.set_color, Rbt.dataLength_updateNode]
      simp [List.length_set]
    have hreps1 : RbtReps (Rbt.set_color ({ s with storage := { data := s.storage.data.set x (true, RbtNode.new k), length := s.storage.length + 1, free_indices := rest } } : Rbt) x RED) none s.head t := by
      refine h.reps.congr_eq ?_
      intro i hi
      exact hframe1 i (fun hh => hxt (hh ▸ hi))
    cases hhd : s.head with
    | none =>
      have hheadS1 : ((Rbt.set_color ({ s with storage := { data := s.storage.data.set x (true, RbtNode.new k), length := s.storage.length + 1, free_indices := rest } } : Rbt) x RED)).head = none := hhd
      rw [hhd] at hreps1
      cases hreps1 with
      | leaf =>
        have hnodeF : Rbt.node? ({ Rbt.set_color (Rbt.set_color ({ s with storage := { data := s.storage.data.set x (true, RbtNode.new k), length := s.storage.length + 1, free_indices := rest } } : Rbt) x RED) x BLACK with head := some x }) x =
            some { RbtNode.new k with color := BLACK } := by
          show Rbt.node? (Rbt.set_color (Rbt.set_color ({ s with storage := { data := s.storage.data.set x (true, RbtNode.new k), length := s.storage.length + 1, free_indices := rest } } : Rbt) x RED) x BLACK) x = _
          rw [Rbt.set_color, Rbt.node?_updateNode_self, hnode1, Option.map_some']
        have hdlF : ({ Rbt.set_color (Rbt.set_color ({ s with storage := { data := s.storage.data.set x (true, RbtNode.new k), length := s.storage.length + 1, free_indices := rest } } : Rbt) x RED) x BLACK with head := some x }).storage.data.length =
            s.storage.data.length := by
          show (Rbt.set_color (Rbt.set_color ({ s with storage := { data := s.storage.data.set x (true, RbtNode.new k), length := s.storage.length + 1, free_indices := rest } } : Rbt) x RED) x BLACK).storage.data.length = s.storage.data.length
          rw [Rbt.set_color, Rbt.dataLength_updateNode]
          exact hdlS1
        refine ⟨x, { Rbt.set_color (Rbt.set_color ({ s with storage := { data := s.storage.data.set x (true, RbtNode.new k), length := s.storage.length + 1, free_indices := rest } } : Rbt) x RED) x BLACK with head := some x },
          Tr.node Tr.leaf x k Tr.leaf, ?_, hxt, ?_, rfl, ?_, ?_⟩
        · simp only [Rbt.insert, hadd, hheadS1]
        · constructor
          · show RbtReps _ none (some x) _
            exact RbtReps.node none x { RbtNode.new k with color := BLACK }
              Tr.leaf Tr.leaf hnodeF rfl (RbtReps.leaf _) (RbtReps.leaf _)
          · simp [Tr.indices, Tr.inorder]
          · intro j hj
            have hj2 : j ∈ rest := hj
            intro hmem
            simp only [Tr.indices, Tr.inorder, List.map_cons, List.map_nil,
              List.nil_append, List.mem_cons, List.not_mem_nil, or_false] at hmem
            exact hxrest (hmem ▸ hj2)
          · intro j hj
            have hj2 : j ∈ rest := hj
            rw [hdlF]
            refine h.freeCap j ?_
            rw [hfe]
            exact List.mem_cons_of_mem _ hj2
          · exact hrestnd
          · have hc := h.count
            rw [hfe] at hc
            simp only [List.length_cons] at hc
            rw [hdlF]
            show (Tr.node Tr.leaf x k Tr.leaf).size + rest.length = s.storage.data.length
            simp only [Tr.size] at hc ⊢
            omega
          · simp [Tr.keys, Tr.inorder]
          · show Rbt.rootBlackB _ = true
            simp only [Rbt.rootBlackB, hnodeF]
            rfl
        · exact hdlF
        · rfl
    | some rt =>
      have hheadS1 : ((Rbt.set_color ({ s with storage := { data := s.storage.data.set x (true, RbtNode.new k), length := s.storage.length + 1, free_indices := rest } } : Rbt) x RED)).head = some rt := hhd
      have hreps1' : RbtReps (Rbt.set_color ({ s with storage := { data := s.storage.data.set x (true, RbtNode.new k), length := s.storage.length + 1, free_indices := rest } } : Rbt) x RED) none (some rt) t := by
        rw [← hhd]
        exact hreps1
      obtain ⟨rn0, l0, k0, r0, hrn0, hrp0, ht0⟩ := hreps1'.root_rec
      have hrn0s : Rbt.node? s rt = some rn0 := by
        rw [← hframe1 rt ?_]
        · exact hrn0
        · intro hh
          subst hh
          refine hxt ?_
          rw [ht0]
          exact Tr.rootIdx_mem rfl
      have hrtmem : rt ∈ t.indices := by
        rw [ht0]
        exact Tr.rootIdx_mem rfl
      have hrtx : rt ≠ x := by
        intro hh
        subst hh
        exact hxt hrtmem
      have hfuelF : t.height < ((Rbt.set_color ({ s with storage := { data := s.storage.data.set x (true, RbtNode.new k), length := s.storage.length + 1, free_indices := rest } } : Rbt) x RED)).storage.data.length + 1 := by
        rw [hdlS1]
        have h1 := Tr.height_le_size t
        have h2 := Rbt.size_le_cap h
        omega
      obtain ⟨s2, hloop, hreps2, hframe2, hcol2, hhead2, hfree2, hlen2, hdl2⟩ :=
        Rbt.insert_node_fresh hreps1' hnode1 rfl rfl hk hxt h.nodup
          (((Rbt.set_color ({ s with storage := { data := s.storage.data.set x (true, RbtNode.new k), length := s.storage.length + 1, free_indices := rest } } : Rbt) x RED)).storage.data.length + 1) hfuelF
      have hndins := Tr.nodup_ins x k t hk hxt h.nodup
      have hxins : x ∈ (Tr.ins x k t).indices :=
        (Tr.mem_indices_ins x k t hk x).mpr (Or.inl rfl)
      obtain ⟨ps, XA, kxx, XB, hpath⟩ := Tr.exists_path_of_mem hxins
      have hfuelps : ps.length < ((Rbt.set_color ({ s with storage := { data := s.storage.data.set x (true, RbtNode.new k), length := s.storage.length + 1, free_indices := rest } } : Rbt) x RED)).storage.data.length + 1 := by
        rw [hdlS1]
        have h1 := Tr.getPath_height hpath
        have h2 := Tr.height_le_size (Tr.ins x k t)
        rw [Tr.size_ins x k t hk] at h2
        have h3 : 1 ≤ (Tr.node XA x kxx XB).height := Nat.succ_le_succ (Nat.zero_le _)
        have h4 := Rbt.size_le_cap h
        omega
      have hhead2' : s2.head = some rt := hhead2.trans hhd
      have hrb0 : rn0.color = BLACK := by
        have hrb := h.rootBlack
        rw [Rbt.rootBlackB, hhd] at hrb
        simp only [hrn0s] at hrb
        exact hrb
      have hroot2 : (∀ rn, Rbt.node? s2 rt = some rn → rn.color = BLACK) ∨ x = rt := by
        refine Or.inl ?_
        intro rn hrn
        have hcol := hcol2 rt
        rw [hrn, hrn0, Option.map_some', Option.map_some'] at hcol
        injection hcol with hcol
        rw [hcol]
        exact hrb0
      obtain ⟨s3, rt3, t3, hfixrun, hreps3, hhead3, hin3, hfr3, hfree3, hlen3, hdl3,
        hrb3⟩ := Rbt.fixup_sim hfuelps hreps2 hhead2' hndins hpath hroot2
      obtain ⟨rn3, l3, k3, r3, hrn3, hrp3, ht3⟩ := hreps3.root_rec
      have hkeys3 : t3.keys = (Tr.ins x k t).keys := by
        simp only [Tr.keys, hin3]
        rfl
      have hidx3 : t3.indices = (Tr.ins x k t).indices := by
        simp only [Tr.indices, hin3]
        rfl
      have hfreeAll : s3.storage.free_indices = rest := by
        rw [hfree3, hfree2]
        rfl
      have hdlAll : s3.storage.data.length = s.storage.data.length := by
        rw [hdl3, hdl2, hdlS1]
      have hsz3 : t3.size = t.size + 1 := by
        have h1 : t3.size = (Tr.ins x k t).size := by
          rw [Tr.size_eq_inorder, hin3, ← Tr.size_eq_inorder]
          rfl
        rw [h1, Tr.size_ins x k t hk]
      refine ⟨x, Rbt.set_color s3 rt BLACK, t3, ?_, hxt, ?_, hin3, ?_, ?_⟩
      · simp only [Rbt.insert, hadd, hheadS1, hloop, hfixrun]
      · constructor
        · show RbtReps _ none (Rbt.set_color s3 rt BLACK).head t3
          have hh : (Rbt.set_color s3 rt BLACK).head = some rt3 := hhead3
          rw [hh]
          exact hreps3.set_color rt BLACK
        · rw [hidx3]
          exact hndins
        · intro j hj
          have hj2 : j ∈ rest := by
            have hj' : j ∈ s3.storage.free_indices := hj
            rw [hfreeAll] at hj'
            exact hj'
          intro hmem
          rw [hidx3, Tr.mem_indices_ins x k t hk] at hmem
          rcases hmem with rfl | hmem
          · exact hxrest hj2
          · refine h.freeTree j ?_ hmem
            rw [hfe]
            exact List.mem_cons_of_mem _ hj2
        · intro j hj
          have hj2 : j ∈ rest := by
            have hj' : j ∈ s3.storage.free_indices := hj
            rw [hfreeAll] at hj'
            exact hj'
          show j < (Rbt.set_color s3 rt BLACK).storage.data.length
          rw [Rbt.set_color, Rbt.dataLength_updateNode, hdlAll]
          refine h.freeCap j ?_
          rw [hfe]
          exact List.mem_cons_of_mem _ hj2
        · show s3.storage.free_indices.Nodup
          rw [hfreeAll]
          exact hrestnd
        · show t3.size + s3.storage.free_indices.length =
            (Rbt.set_color s3 rt BLACK).storage.data.length
          rw [Rbt.set_color, Rbt.dataLength_updateNode, hfreeAll, hdlAll, hsz3]
          have hc := h.count
          rw [hfe] at hc
          simp only [List.length_cons] at hc
          omega
        · rw [hkeys3]
          exact Tr.sorted_ins x k t h.sorted
        · show Rbt.rootBlackB (Rbt.set_color s3 rt BLACK) = true
          have hh : (Rbt.set_color s3 rt BLACK).head = some rt3 := hhead3
          by_cases hrr : rt3 = rt
          · subst hrr
            have hx3 : Rbt.node? (Rbt.set_color s3 rt3 BLACK) rt3 =
                some { rn3 with color := BLACK } := by
              rw [Rbt.set_color, Rbt.node?_updateNode_self, hrn3, Option.map_some']
            simp only [Rbt.rootBlackB, hh, hx3]
            rfl
          · have hx3 : Rbt.node? (Rbt.set_color s3 rt BLACK) rt3 = some rn3 := by
              rw [Rbt.set_color, Rbt.node?_updateNode_ne _ _ _ _ (fun hh2 => hrr hh2.symm),
                hrn3]
            simp only [Rbt.rootBlackB, hh, hx3]
            exact hrb3 rn3 hrn3
      · show (Rbt.set_color s3 rt BLACK).storage.data.length = s.storage.data.length
        rw [Rbt.set_color, Rbt.dataLength_updateNode]
        exact hdlAll
      · show s3.storage.free_indices = rest
        exact hfreeAll

theorem Rbt.WF_new (n : Nat) : Rbt.WF (Rbt.new n) Tr.leaf := by
  constructor
  · exact RbtReps.leaf _
  · simp [Tr.indices, Tr.inorder]
  · intro j hj
    simp [Tr.indices, Tr.inorder]
  · intro j hj
    simp only [Rbt.new, RbtStorage.new] at hj ⊢
    rw [List.mem_reverse] at hj
    simpa using List.mem_range.mp hj
  · simp only [Rbt.new, RbtStorage.new, List.nodup_reverse]
    exact List.nodup_range _
  · simp [Rbt.new, RbtStorage.new, Tr.size]
  · simp [Tr.keys, Tr.inorder]
  · rfl

/-- Driving `Rbt.insert` over a list of fresh keys preserves
well-formedness and accumulates exactly those keys. -/
theorem Rbt.insertSeq_WF :
    ∀ (ks : List Int) (s : Rbt) (t : Tr), Rbt.WF s t →
    ks.Nodup → (∀ a ∈ ks, a ∉ t.keys) →
    ks.length + t.size ≤ s.storage.data.length →
    ∃ s' t', Rbt.insertSeq s ks = some s' ∧ Rbt.WF s' t' ∧
      (∀ a, a ∈ t'.keys ↔ a ∈ ks ∨ a ∈ t.keys)
  | [], s, t, hwf, _, _, _ => ⟨s, t, rfl, hwf, by simp⟩
  | k :: ks, s, t, hwf, hnd, hfreshAll, hlen => by
    have hkfresh : k ∉ t.keys := hfreshAll k (List.mem_cons_self _ _)
    have hfree : s.storage.free_indices ≠ [] := by
      have hc := hwf.count
      intro h0
      rw [h0] at hc
      simp only [List.length_nil, Nat.add_zero] at hc
      simp only [List.length_cons] at hlen
      omega
    obtain ⟨x, s1, t1, hins, hxt, hwf1, hin1, hdl, hfree1⟩ :=
      Rbt.insert_WF hwf hkfresh hfree
    rw [List.nodup_cons] at hnd
    have hkeys1 : t1.keys = (Tr.ins x k t).keys := by
      simp only [Tr.keys, hin1]
    have hfresh1 : ∀ a ∈ ks, a ∉ t1.keys := by
      intro a ha
      rw [hkeys1, Tr.mem_keys_ins]
      rintro (rfl | hmem)
      · exact hnd.1 ha
      · exact hfreshAll a (List.mem_cons_of_mem _ ha) hmem
    have hsz1 : t1.size = t.size + 1 := by
      have h1 : t1.size = (Tr.ins x k t).size := by
        rw [Tr.size_eq_inorder, hin1, ← Tr.size_eq_inorder]
      rw [h1, Tr.size_ins x k t hkfresh]
    have hlen1 : ks.length + t1.size ≤ s1.storage.data.length := by
      rw [hsz1, hdl]
      simp only [List.length_cons] at hlen
      omega
    obtain ⟨s', t', hseq, hwf', hmemiff⟩ :=
      Rbt.insertSeq_WF ks s1 t1 hwf1 hnd.2 hfresh1 hlen1
    refine ⟨s', t', ?_, hwf', ?_⟩
    · simp only [Rbt.insertSeq, hins]
      exact hseq
    · intro a
      rw [hmemiff a, hkeys1, Tr.mem_keys_ins]
      simp only [List.mem_cons]
      tauto

theorem Rbt.dfsTop_of_WF {s : Rbt} {t : Tr} (h : Rbt.WF s t) :
    Rbt.dfsTop s = some t.keys := by
  refine Rbt.dfs_of_reps h.reps _ ?_
  have h1 := Tr.height_le_size t
  have h2 := Rbt.size_le_cap h
  omega

/-- C2 (amended): with the slot pool exhausted, `Bst::insert` returns
`Err(OutOfSpace)` to the caller and hands back the unchanged state, while
`Rbt::insert` panics by `unwrap`ping the allocation error, so no
`OutOfSpace` value ever reaches its caller. -/
theorem C2_amended_full_pool {sb : Bst} {sr : Rbt} (kb kr : Int)
    (hb : sb.storage.free_indices = []) (hr : sr.storage.free_indices = []) :
    Bst.insert sb kb = .ok (.error .OutOfSpace, sb) ∧
    Rbt.insert sr kr = .panicked "called Result::unwrap on an Err value: OutOfSpace" := by
  constructor
  · have hadd : BstStorage.add sb.storage kb = .error .OutOfSpace := by
      simp [BstStorage.add, hb]
    simp only [Bst.insert, hadd]
  · have hadd : RbtStorage.add sr.storage kr = .error .OutOfSpace := by
      simp [RbtStorage.add, hr]
    simp only [Rbt.insert, hadd]

theorem C2_amended_full_pool_witness :
    Bst.insert bstFull1 2 = .ok (.error .OutOfSpace, bstFull1) ∧
    Rbt.insert rbtFull1 2 =
      .panicked "called Result::unwrap on an Err value: OutOfSpace" :=
  C2_amended_full_pool 2 2 rfl rfl

/-- C4 (amended): on a well-formed tree of either variant with a free slot
available, inserting a payload whose ordering key is already present
panics (`Bst`: "Duplicate data found in the tree"; `Rbt`: "Node already
exists in the tree.") instead of returning `AlreadyExists`. -/
theorem C4_amended_duplicate_panics {sb : Bst} {tb : Tr} {sr : Rbt} {tr : Tr} {kb kr : Int}
    (hb : Bst.WF sb tb) (hkb : kb ∈ tb.keys) (hfb : sb.storage.free_indices ≠ [])
    (hr : Rbt.WF sr tr) (hkr : kr ∈ tr.keys) (hfr : sr.storage.free_indices ≠ []) :
    Bst.insert sb kb = .panicked "Duplicate data found in the tree" ∧
    Rbt.insert sr kr = .panicked "Node already exists in the tree." := by
  constructor
  · match hfe : sb.storage.free_indices, hfb with
    | x :: rest, _ =>
      have hxfree : x ∈ sb.storage.free_indices := by
        rw [hfe]
        exact List.mem_cons_self _ _
      have hxcap : x < sb.storage.data.length := hb.freeCap x hxfree
      have hxt : x ∉ tb.indices := hb.freeTree x hxfree
      have hadd : BstStorage.add sb.storage kb = .ok (x, { data := sb.storage.data.set x (true, BstNode.new kb), length := sb.storage.length + 1, free_indices := rest }) := by
        simp [BstStorage.add, hfe]
      have hnode0 : Bst.node? ({ sb with storage := { data := sb.storage.data.set x (true, BstNode.new kb), length := sb.storage.length + 1, free_indices := rest } } : Bst) x = some (BstNode.new kb) := by
        simp only [Bst.node?, List.getElem?_set_eq_of_lt _ hxcap, Option.map_some']
      have hframe0 : ∀ j, j ≠ x → Bst.node? ({ sb with storage := { data := sb.storage.data.set x (true, BstNode.new kb), length := sb.storage.length + 1, free_indices := rest } } : Bst) j = Bst.node? sb j := by
        intro j hj
        simp only [Bst.node?, List.getElem?_set_ne (fun hh => hj hh.symm)]
      have hreps0 : BstReps ({ sb with storage := { data := sb.storage.data.set x (true, BstNode.new kb), length := sb.storage.length + 1, free_indices := rest } } : Bst) none sb.head tb := by
        refine hb.reps.congr_bst ?_
        intro i hi
        exact hframe0 i (fun hh => hxt (hh ▸ hi))
      cases hhd : sb.head with
      | none =>
        exfalso
        have h0 := hb.reps
        rw [hhd] at h0
        cases h0 with
        | leaf => simp [Tr.keys, Tr.inorder] at hkb
      | some rt =>
        have hheadS0 : (({ sb with storage := { data := sb.storage.data.set x (true, BstNode.new kb), length := sb.storage.length + 1, free_indices := rest } } : Bst)).head = some rt := hhd
        have hreps0' : BstReps ({ sb with storage := { data := sb.storage.data.set x (true, BstNode.new kb), length := sb.storage.length + 1, free_indices := rest } } : Bst) none (some rt) tb := by
          rw [← hhd]
          exact hreps0
        have hdl0 : (({ sb with storage := { data := sb.storage.data.set x (true, BstNode.new kb), length := sb.storage.length + 1, free_indices := rest } } : Bst)).storage.data.length = sb.storage.data.length := by
          simp [List.length_set]
        have hfuel : tb.height < (({ sb with storage := { data := sb.storage.data.set x (true, BstNode.new kb), length := sb.storage.length + 1, free_indices := rest } } : Bst)).storage.data.length + 1 := by
          rw [hdl0]
          have h1 := Tr.height_le_size tb
          have h2 := Bst.size_le_cap_bst hb
          omega
        have hdup := Bst.insertLoop_dup hreps0' hnode0 hkb
          ((Tr.pairwise_iff_bst tb).mp hb.sorted)
          ((({ sb with storage := { data := sb.storage.data.set x (true, BstNode.new kb), length := sb.storage.length + 1, free_indices := rest } } : Bst)).storage.data.length + 1) hfuel
        simp only [Bst.insert, hadd, hhd]
        rw [hhd] at hdup
        exact hdup
  · match hfe : sr.storage.free_indices, hfr with
    | x :: rest, _ =>
      have hxfree : x ∈ sr.storage.free_indices := by
        rw [hfe]
        exact List.mem_cons_self _ _
      have hxcap : x < sr.storage.data.length := hr.freeCap x hxfree
      have hxt : x ∉ tr.indices := hr.freeTree x hxfree
      have hadd : RbtStorage.add sr.storage kr = .ok (x, { data := sr.storage.data.set x (true, RbtNode.new kr), length := sr.storage.length + 1, free_indices := rest }) := by
        simp [RbtStorage.add, hfe]
      have hnode1 : Rbt.node? (Rbt.set_color ({ sr with storage := { data := sr.storage.data.set x (true, RbtNode.new kr), length := sr.storage.length + 1, free_indices := rest } } : Rbt) x RED) x = some (RbtNode.new kr) := by
        rw [Rbt.set_color, Rbt.node?_updateNode_self]
        simp only [Rbt.node?, List.getElem?_set_eq_of_lt _ hxcap, Option.map_some']
        rfl
      have hframe1 : ∀ j, j ≠ x → Rbt.node? (Rbt.set_color ({ sr with storage := { data := sr.storage.data.set x (true, RbtNode.new kr), length := sr.storage.length + 1, free_indices := rest } } : Rbt) x RED) j = Rbt.node? sr j := by
        intro j hj
        rw [Rbt.set_color, Rbt.node?_updateNode_ne _ _ _ _ (fun hh => hj hh.symm)]
        simp only [Rbt.node?, List.getElem?_set_ne (fun hh => hj hh.symm)]
      have hreps1 : RbtReps (Rbt.set_color ({ sr with storage := { data := sr.storage.data.set x (true, RbtNode.new kr), length := sr.storage.length + 1, free_indices := rest } } : Rbt) x RED) none sr.head tr := by
        refine hr.reps.congr_eq ?_
        intro i hi
        exact hframe1 i (fun hh => hxt (hh ▸ hi))
      cases hhd : sr.head with
      | none =>
        exfalso
        have h0 := hr.reps
        rw [hhd] at h0
        cases h0 with
        | leaf => simp [Tr.keys, Tr.inorder] at hkr
      | some rt =>
        have hheadS1 : ((Rbt.set_color ({ sr with storage := { data := sr.storage.data.set x (true, RbtNode.new kr), length := sr.storage.length + 1, free_indices := rest } } : Rbt) x RED)).head = some rt := hhd
        have hreps1' : RbtReps (Rbt.set_color ({ sr with storage := { data := sr.storage.data.set x (true, RbtNode.new kr), length := sr.storage.length + 1, free_indices := rest } } : Rbt) x RED) none (some rt) tr := by
          rw [← hhd]
          exact hreps1
        have hdl1 : ((Rbt.set_color ({ sr with storage := { data := sr.storage.data.set x (true, RbtNode.new kr), length := sr.storage.length + 1, free_indices := rest } } : Rbt) x RED)).storage.data.length = sr.storage.data.length := by
          rw [Rbt.set_color, Rbt.dataLength_updateNode]
          simp [List.length_set]
        have hfuel : tr.height < ((Rbt.set_color ({ sr with storage := { data := sr.storage.data.set x (true, RbtNode.new kr), length := sr.storage.length + 1, free_indices := rest } } : Rbt) x RED)).storage.data.length + 1 := by
          rw [hdl1]
          have h1 := Tr.height_le_size tr
          have h2 := Rbt.size_le_cap hr
          omega
        have hdup := Rbt.insert_node_dup hreps1' hnode1 hkr
          ((Tr.pairwise_iff_bst tr).mp hr.sorted)
          (((Rbt.set_color ({ sr with storage := { data := sr.storage.data.set x (true, RbtNode.new kr), length := sr.storage.length + 1, free_indices := rest } } : Rbt) x RED)).storage.data.length + 1) hfuel
        simp only [Rbt.insert, hadd, hheadS1, hdup]

theorem C4_amended_duplicate_panics_witness :
    Bst.insert bst5 5 = .panicked "Duplicate data found in the tree" ∧
    Rbt.insert rbt5 5 = .panicked "Node already exists in the tree." :=
  C4_amended_duplicate_panics
    (⟨BstReps.node none 1 { data := 5, parent := none, left := none, right := none }
        Tr.leaf Tr.leaf rfl rfl (BstReps.leaf _) (BstReps.leaf _),
      by decide, by decide, by decide, by decide, by decide, by decide⟩ :
      Bst.WF bst5 (Tr.node Tr.leaf 1 5 Tr.leaf))
    (by decide) (by decide)
    (⟨RbtReps.node none 1 { data := 5, color := true, parent := none, left := none, right := none } Tr.leaf Tr.leaf rfl rfl (RbtReps.leaf _) (RbtReps.leaf _),
      by decide, by decide, by decide, by decide, by decide, by decide, by decide⟩ :
      Rbt.WF rbt5 (Tr.node Tr.leaf 1 5 Tr.leaf))
    (by decide) (by decide)

/-- C7: inserting any duplicate-free key sequence that fits the capacity
into a fresh tree of either variant succeeds call by call, and the
depth-first in-order traversal returns a strictly sorted list holding
exactly the inserted keys. -/
theorem C7_inorder_sorted (cap : Nat) (ks : List Int)
    (hnd : ks.Nodup) (hlen : ks.length ≤ cap) :
    ∃ sb sr lb lr,
      Bst.insertSeq (Bst.new cap) ks = some sb ∧
      Rbt.insertSeq (Rbt.new cap) ks = some sr ∧
      Bst.dfsTop sb = some lb ∧ Rbt.dfsTop sr = some lr ∧
      lb.Pairwise (· < ·) ∧ lr.Pairwise (· < ·) ∧
      (∀ a, a ∈ lb ↔ a ∈ ks) ∧ (∀ a, a ∈ lr ↔ a ∈ ks) := by
  obtain ⟨sb, tb, hseqb, hwfb, hmemb⟩ :=
    Bst.insertSeq_WF_bst ks (Bst.new cap) Tr.leaf (Bst.WF_new_bst cap) hnd
      (by intro a ha; simp [Tr.keys, Tr.inorder])
      (by simp only [Bst.new, BstStorage.new, List.length_replicate, Tr.size,
            Nat.add_zero]
          exact hlen)
  obtain ⟨sr, tr, hseqr, hwfr, hmemr⟩ :=
    Rbt.insertSeq_WF ks (Rbt.new cap) Tr.leaf (Rbt.WF_new cap) hnd
      (by intro a ha; simp [Tr.keys, Tr.inorder])
      (by simp only [Rbt.new, RbtStorage.new, List.length_replicate, Tr.size,
            Nat.add_zero]
          exact hlen)
  refine ⟨sb, sr, tb.keys, tr.keys, hseqb, hseqr, Bst.dfsTop_of_WF_bst hwfb,
    Rbt.dfsTop_of_WF hwfr, hwfb.sorted, hwfr.sorted, ?_, ?_⟩
  · intro a
    rw [hmemb a]
    simp [Tr.keys, Tr.inorder]
  · intro a
    rw [hmemr a]
    simp [Tr.keys, Tr.inorder]

theorem C7_inorder_sorted_witness :
    ([3, 1, 2] : List Int).Nodup ∧ ([3, 1, 2] : List Int).length ≤ 3 ∧
    ∃ sb sr lb lr,
      Bst.insertSeq (Bst.new 3) [3, 1, 2] = some sb ∧
      Rbt.insertSeq (Rbt.new 3) [3, 1, 2] = some sr ∧
      Bst.dfsTop sb = some lb ∧ Rbt.dfsTop sr = some lr ∧
      lb.Pairwise (· < ·) ∧ lr.Pairwise (· < ·) ∧
      (∀ a, a ∈ lb ↔ a ∈ ([3, 1, 2] : List Int)) ∧
      (∀ a, a ∈ lr ↔ a ∈ ([3, 1, 2] : List Int)) :=
  ⟨by decide, by decide, C7_inorder_sorted 3 [3, 1, 2] (by decide) (by decide)⟩
